import Mathlib

/-!
Verification of the sbmr stochastic-block-model engine.

The repository carries two generations of the same engine:

* the older class pair `Network` (src/Network.cpp) / `SBM` (src/SBM.cpp), and
* the newer header-only `SBM_Network` (src/network.h).

Both are embedded below: pure functions mirror the C++ member functions,
`std::map` is modelled as a key-sorted association list, fallible code returns
`Except`, and C++ `double` arithmetic is idealised as exact real (`ℝ`) or
rational (`ℚ`) arithmetic.  Headers that the repository does not ship
(`Node.h`, `Sampler.h`, `SBM.h`) are modelled from the specification and say
so in their doc comments.
-/

namespace SBMR

/-! ### `std::map<NodePtr,int>` as a key-sorted association list

`SBM::make_proposal_decision` manipulates `std::map<NodePtr, int>` values
produced by `Node::gather_connections_to_level`.  Keys (block node pointers)
are modelled as `ℕ`; a map is a list of key/count pairs kept sorted by key,
matching `std::map` iteration order. -/

abbrev EdgeMap := List (ℕ × ℕ)

/-- Keys of an `EdgeMap`, in iteration order. -/
def keysOf (m : EdgeMap) : List ℕ := m.map Prod.fst

/-- `std::map::find` followed by dereference, with the `std::map` convention
that an absent key reads as count `0` (the code only reads absent keys through
`operator[]`, which value-initialises the mapped `int` to `0`). -/
def mapFind (m : EdgeMap) (k : ℕ) : ℕ :=
  match m with
  | [] => 0
  | p :: rest => if p.1 = k then p.2 else mapFind rest k

/-- Insert key `k` with value `0`, keeping the list sorted by key (the key is
assumed absent; `mapIndex` checks before calling). -/
def insertKey (m : EdgeMap) (k : ℕ) : EdgeMap :=
  match m with
  | [] => [(k, 0)]
  | p :: rest => if k < p.1 then (k, 0) :: p :: rest else p :: insertKey rest k

/-- `std::map::operator[]`: returns the count stored for `k`, default-inserting
the pair `(k, 0)` when `k` is absent.  The returned map is the possibly grown
map — this mutation is visible to later loops in `make_proposal_decision`. -/
def mapIndex (m : EdgeMap) (k : ℕ) : ℕ × EdgeMap :=
  if m.any (fun p => p.1 = k) then (mapFind m k, m) else (0, insertKey m k)

/-! ### `SBM::make_proposal_decision` (src/SBM.cpp)

The member function reads the network only through
`Node::gather_connections_to_level` (the three `std::map`s), the degrees of
the blocks involved, and the moved node's degree; the embedding takes those
as arguments.  `BETA` and `EPS` are the engine configuration constants of
SBM.h (not shipped), kept as explicit parameters.  Block node pointers are
`ℕ` keys and `deg` gives each block's `degree` field. -/

structure Proposal_Res where
  entropy_delta : ℝ
  prob_of_accept : ℝ

/-- `process_group_pair` from src/SBM.cpp lines 36–65: adds one block pair's
pre-move and post-move edge-entropy contributions onto the two accumulators,
guarding the logarithm with a `> 0` test on the edge count. -/
noncomputable def process_group_pair (neighbor_deg edge_count_pre edges_from_node
    moved_degree_pre moved_degree_post entropy_pre entropy_post : ℝ) : ℝ × ℝ :=
  let edge_count_post := edge_count_pre + edges_from_node
  let entropy_pre_delta :=
    if edge_count_pre > 0 then
      edge_count_pre * Real.log (edge_count_pre / (moved_degree_pre * neighbor_deg))
    else 0
  let entropy_post_delta :=
    if edge_count_post > 0 then
      edge_count_post * Real.log (edge_count_post / (moved_degree_post * neighbor_deg))
    else 0
  (entropy_pre + entropy_pre_delta, entropy_post + entropy_post_delta)

/-- One of the two entropy loops of `make_proposal_decision`: walk the group's
connection map, reading `node_edges[t]` through `operator[]` (which may grow
`node_edges` with zero entries) and calling `process_group_pair` with
`sign * node_edges[t]` as `edges_from_node` (`sign = -1` for the old group's
loop, `+1` for the new group's). -/
noncomputable def entropyLoop (deg : ℕ → ℝ) (sign : ℤ) (moved_pre moved_post : ℝ) :
    List (ℕ × ℕ) → ℝ × ℝ × EdgeMap → ℝ × ℝ × EdgeMap
  | [], st => st
  | (t, c) :: rest, (epre, epost, ne) =>
    let n := (mapIndex ne t).1
    let ne1 := (mapIndex ne t).2
    let st1 := process_group_pair (deg t) (c : ℝ) ((sign * (n : ℤ) : ℤ) : ℝ)
      moved_pre moved_post epre epost
    entropyLoop deg sign moved_pre moved_post rest (st1.1, st1.2, ne1)

/-- `SBM::make_proposal_decision` (src/SBM.cpp lines 70–156).  `old_id` is the
node's parent block, `new_id` the proposed block; `node_edges`,
`old_group_edges` and `new_group_edges` are the three gathered connection
maps.  The final loop over `node_edges` iterates over the map *as mutated* by
the `operator[]` reads of the two entropy loops, and itself reads the group
maps through `operator[]` (count `0` for absent keys). -/
noncomputable def make_proposal_decision (BETA EPS : ℝ) (deg : ℕ → ℝ)
    (node_degree : ℝ) (old_id new_id : ℕ)
    (node_edges old_group_edges new_group_edges : EdgeMap) : Proposal_Res :=
  let old_group_degree_pre := deg old_id
  let new_group_degree_pre := deg new_id
  let old_group_degree_post := old_group_degree_pre - node_degree
  let new_group_degree_post := new_group_degree_pre + node_degree
  let st1 := entropyLoop deg (-1) old_group_degree_pre old_group_degree_post
    old_group_edges (0, 0, node_edges)
  let st2 := entropyLoop deg 1 new_group_degree_pre new_group_degree_post
    new_group_edges st1
  let pre_move_prob := st2.2.2.foldl
    (fun a p => a + ((mapFind old_group_edges p.1 : ℝ) + EPS)) 0
  let post_move_prob := st2.2.2.foldl
    (fun a p => a + ((mapFind new_group_edges p.1 : ℝ) + EPS)) 0
  let entropy_delta := st2.2.1 - st2.1
  let acceptance_prob := Real.exp (BETA * entropy_delta) *
    (pre_move_prob / post_move_prob)
  ⟨entropy_delta, if acceptance_prob > 1 then 1 else acceptance_prob⟩

/-- One edge-entropy contribution as the spec writes it: a term with edge
count `count` for block pair (t, moved-group) contributes
`count * ln(count / (mdeg * e_t))` when `count > 0` and exactly `0` otherwise
(`mdeg` is the moved group's degree, `e_t` the neighbor block's degree). -/
noncomputable def edgeEntropyTerm (deg : ℕ → ℝ) (mdeg count : ℝ) (t : ℕ) : ℝ :=
  if count > 0 then count * Real.log (count / (mdeg * deg t)) else 0

/-- The map growth left behind by a sequence of `operator[]` reads. -/
def growKeys (m : EdgeMap) : List ℕ → EdgeMap
  | [] => m
  | k :: ks => growKeys (mapIndex m k).2 ks

/-! ### The collapse schedule's merge count (src/SBM.cpp lines 521–534) -/

/-- C++ `int(double)` conversion: truncation toward zero (the double value is
idealised as an exact rational). -/
def cppIntOfRat (q : ℚ) : ℤ := if q < 0 then -(Int.floor (-q)) else Int.floor q

/-- The per-iteration merge-count computation of `SBM::collapse_groups`:
`num_merges = int(curr - curr / SIGMA)`, raised to at least 1, then capped so
the group count does not overshoot below `desired_num_groups`. -/
def merges_for (curr_num_groups desired_num_groups : ℤ) (SIGMA : ℚ) : ℤ :=
  let num_merges0 := cppIntOfRat ((curr_num_groups : ℚ) - (curr_num_groups : ℚ) / SIGMA)
  let num_merges1 := if num_merges0 < 1 then 1 else num_merges0
  if curr_num_groups - num_merges1 < desired_num_groups
    then curr_num_groups - desired_num_groups
    else num_merges1

/-! ### Errors and the Sampler -/

/-- Error kinds surfaced by the embedded operations.  The C++ code throws
ad-hoc strings, `std::logic_error` (`LOGIC_ERROR`) and `std::range_error`
(`RANGE_ERROR`); spec §7 names the conditions, and each constructor below
records which C++ throw site it stands for. -/
inductive SbmErr where
  /-- network.h `LOGIC_ERROR("Can't initialize more blocks than there are nodes ...")`. -/
  | overprovisioned
  /-- network.h `LOGIC_ERROR("Node in state (...) is not present in network")`. -/
  | unknownId
  /-- network.h `LOGIC_ERROR("Type ... doesn't exist in network")`. -/
  | unknownType
  /-- network.h `RANGE_ERROR` (missing level or type index). -/
  | rangeError
  /-- network.h `LOGIC_ERROR("No state to export ...")` / `("No block level to delete.")`. -/
  | noBlocks
  /-- SBM.cpp `throw "Zero merges requested."`. -/
  | zeroMerges
  /-- SBM.cpp `throw "To few groups to perform merge."`. -/
  | insufficientBlocks
  /-- Sampler failure on an empty sequence (spec §4.1: `sample` fails on empty). -/
  | emptySample
  /-- Network.cpp `throw "Requested level is empty."`. -/
  | emptyLevel
  /-- Network.cpp `throw "Could not find requested node"` / other `Node` failures
  (also stands in for null-parent dereferences, which in C++ are crashes). -/
  | badNode
  /-- Network.cpp `throw "Can't create block node at first level"`. -/
  | blockAtLevelZero
deriving DecidableEq

/-- Modelled from the spec: the `Sampler` component (`Sampler.h` is not part
of src/).  Spec §4.1: a pseudo-random source seeded at construction,
deterministic given seed and call order, providing uniform `[0,1)` draws,
uniform integer draws, Fisher–Yates shuffle and uniform selection (failing on
an empty sequence).  The concrete generator is a small LCG; every random
choice of the embedded engine is drawn through this interface. -/
structure Sampler where
  state : ℕ
deriving DecidableEq

/-- Seeded construction (`Sampler(seed)`). -/
def Sampler.seeded (seed : ℕ) : Sampler := ⟨seed⟩

/-- Modelled from the spec: default construction `Sampler()` uses the fixed
default seed (42, the default `random_seed` the repository uses). -/
def Sampler.defaulted : Sampler := ⟨42⟩

/-- Advance the generator one step, producing a raw draw below 2^31 − 1. -/
def Sampler.next (s : Sampler) : ℕ × Sampler :=
  (s.state % 2147483647, ⟨(s.state * 48271 + 11) % 2147483647⟩)

/-- `sample_int(n)`: uniform integer in `[0, n)`; fails when `n = 0`. -/
def Sampler.sample_int (s : Sampler) (n : ℕ) : Except SbmErr (ℕ × Sampler) :=
  if n = 0 then .error .emptySample
  else
    let d := s.next
    .ok (d.1 % n, d.2)

/-- `sample(seq)`: one element uniformly; fails on an empty sequence. -/
def Sampler.sample {α : Type} (s : Sampler) (l : List α) : Except SbmErr (α × Sampler) :=
  match l with
  | [] => .error .emptySample
  | x :: xs =>
    let d := s.next
    .ok ((x :: xs).getD (d.1 % (xs.length + 1)) x, d.2)

/-- `draw_unif()`: uniform in `[0,1)`, as an exact rational. -/
def Sampler.draw_unif (s : Sampler) : ℚ × Sampler :=
  let d := s.next
  ((d.1 : ℚ) / 2147483647, d.2)

/-- Fisher–Yates shuffle (spec §4.1): repeatedly draw an index into the
remaining elements, emit that element, recurse on the rest.  The fuel
argument (always instantiated with the list length, which bounds the
recursion depth) keeps the recursion structural. -/
def Sampler.shuffleAux {α : Type} : ℕ → Sampler → List α → List α × Sampler
  | 0, s, _ => ([], s)
  | _ + 1, s, [] => ([], s)
  | fuel + 1, s, x :: xs =>
    let d := s.next
    let j := d.1 % (xs.length + 1)
    let y := (x :: xs).getD j x
    let rest := (x :: xs).eraseIdx j
    let tail := Sampler.shuffleAux fuel d.2 rest
    (y :: tail.1, tail.2)

/-- Fisher–Yates shuffle entry point. -/
def Sampler.shuffle {α : Type} (s : Sampler) (l : List α) : List α × Sampler :=
  Sampler.shuffleAux l.length s l

/-! ### The newer `SBM_Network` (src/network.h) -/

/-- Node identifier.  Level-0 nodes carry caller-chosen string ids; block
nodes are minted from the integer `block_counter`
(`Node(block_counter++, ...)` in `initialize_blocks`; Node.h, which renders
ids, is not shipped, so ids stay as this disjoint sum). -/
inductive NId where
  | user (s : String)
  | blk (n : ℕ)
deriving DecidableEq

/-- A `Node` of network.h as far as the embedded operations read it: id,
level, type index and parent (stored by id; the C++ parent pointer,
child list and degree caches live in the missing Node.h and are derived
notions here). -/
structure NNode where
  id : NId
  level : ℕ
  type : ℕ
  parent : Option NId
deriving DecidableEq

/-- Modelled from the spec: `Node::get_parent_id` (Node.h is not shipped).
Spec §3: a state-dump entry records the node's parent id; the parentless
marker follows the repository's `"none"` convention. -/
def get_parent_id (n : NNode) : NId := n.parent.getD (NId.user "none")

/-- `SBM_Network`: levels, each a type-indexed vector of node buckets, plus
the type table, the block-id counter and the engine-owned sampler. -/
structure SBM_Network where
  nodes : List (List (List NNode))
  types : List String
  block_counter : ℕ
  random_sampler : Sampler
deriving DecidableEq

/-- `get_type_index`: fails with `LOGIC_ERROR` for an unknown type name. -/
def SBM_Network.get_type_index (net : SBM_Network) (name : String) : Except SbmErr ℕ :=
  match net.types.findIdx? (fun t => t = name) with
  | some i => .ok i
  | none => .error .unknownType

/-- Read the (type, level) bucket (both indices known to be in range at every
call site below; out-of-range reads default to `[]`). -/
def SBM_Network.bucket (net : SBM_Network) (level type_i : ℕ) : List NNode :=
  (net.nodes.getD level []).getD type_i []

/-- Replace the (type, level) bucket. -/
def SBM_Network.setBucket (net : SBM_Network) (level type_i : ℕ) (b : List NNode) :
    SBM_Network :=
  { net with nodes := net.nodes.set level ((net.nodes.getD level []).set type_i b) }

/-- Set the parent of the node(s) with the given id at the given level
(`current_node->set_parent(parent_node)`; by-id update coincides with the
C++ pointer update whenever ids are unique within the level, which every
theorem below hypothesises). -/
def SBM_Network.setParent (net : SBM_Network) (level : ℕ) (id : NId) (pid : NId) :
    SBM_Network :=
  { net with nodes := (net.nodes.set level
      ((net.nodes.getD level []).map (fun b =>
        b.map (fun nd => if nd.id = id then { nd with parent := some pid } else nd)))) }

/-- `SBM_Network::add_node(id, type, level)` (network.h lines 157–173): look
up the type index (may fail), build the node with no parent and push it onto
the (type, level) bucket.  There is no duplicate-id check: an id already
present at the level is simply pushed again.  The `check_for_level` inside
`get_nodes_of_type` raises `RANGE_ERROR` when the level does not exist. -/
def SBM_Network.add_node (net : SBM_Network) (id : NId) (type_name : String)
    (level : ℕ) : Except SbmErr (SBM_Network × NNode) := do
  let ti ← net.get_type_index type_name
  if level ≥ net.nodes.length then .error .rangeError
  else
    let new_node : NNode := ⟨id, level, ti, none⟩
    .ok (net.setBucket level ti (net.bucket level ti ++ [new_node]), new_node)

/-- `build_level()`: append an empty level with one bucket per type. -/
def SBM_Network.build_level (net : SBM_Network) : SBM_Network :=
  { net with nodes := net.nodes ++ [List.replicate net.types.length []] }

/-- `delete_block_level()`: pop the top level; fails when only level 0 exists. -/
def SBM_Network.delete_block_level (net : SBM_Network) : Except SbmErr SBM_Network :=
  if net.nodes.length > 1 then .ok { net with nodes := net.nodes.dropLast }
  else .error .noBlocks

/-- `delete_all_blocks()`: pop levels until only level 0 remains. -/
def SBM_Network.delete_all_blocks (net : SBM_Network) : SBM_Network :=
  { net with nodes := net.nodes.take 1 }

/-- The per-type body of `SBM_Network::initialize_blocks` (network.h lines
185–214): check the requested count against the type's node count, mint
`nb` block nodes from `block_counter`, shuffle the children when a count was
requested, and assign child `i` to block `i % nb`.  (For `num_blocks = 0`
with a nonempty type the C++ `i % 0` is undefined behaviour; the embedding's
`% 0` convention stands in for it and no theorem touches that case.) -/
def SBM_Network.init_blocks_type (child_level block_level : ℕ)
    (one_block_per_node : Bool) (num_blocks : ℤ) (net : SBM_Network)
    (type_i : ℕ) : Except SbmErr SBM_Network :=
  let nodes_of_type := net.bucket child_level type_i
  let nbZ : ℤ := if one_block_per_node then (nodes_of_type.length : ℤ) else num_blocks
  if nbZ > (nodes_of_type.length : ℤ) then .error .overprovisioned
  else
    let nb := nbZ.toNat
    let c0 := net.block_counter
    let blocks := (List.range nb).map
      (fun i => (⟨NId.blk (c0 + i), block_level, type_i, none⟩ : NNode))
    let net1 := (net.setBucket block_level type_i blocks)
    let net2 := { net1 with block_counter := c0 + nb }
    let sh := if one_block_per_node then (nodes_of_type, net2.random_sampler)
              else net2.random_sampler.shuffle nodes_of_type
    let assigned := sh.1.mapIdx
      (fun i nd => { nd with parent := some (NId.blk (c0 + (i % nb))) })
    .ok { (net2.setBucket child_level type_i assigned) with random_sampler := sh.2 }

/-- `SBM_Network::initialize_blocks(num_blocks = -1)` (network.h lines
175–215): append a fresh top level, then run the per-type body for each
type in order.  An error thrown for one type aborts the loop. -/
def SBM_Network.initialize_blocks (net : SBM_Network) (num_blocks : ℤ) :
    Except SbmErr SBM_Network :=
  let one_block_per_node := num_blocks = -1
  let block_level := net.nodes.length
  let child_level := block_level - 1
  let net0 := net.build_level
  (List.range net.types.length).foldlM
    (SBM_Network.init_blocks_type child_level block_level one_block_per_node num_blocks)
    net0

/-- The flattened list of node records at a level (buckets concatenated in
type order, matching `for_all_nodes_at_level`). -/
def SBM_Network.levelRecords (net : SBM_Network) (level : ℕ) : List NNode :=
  (net.nodes.getD level []).flatMap (fun b => b)

/-- Number of children the block `pid` owns inside the node list `l`. -/
def childCountIn (l : List NNode) (pid : NId) : ℕ :=
  (l.filter (fun nd => nd.parent = some pid)).length

/-- `State_Dump` (network.h lines 15–28): four parallel columns. -/
structure State_Dump where
  ids : List NId
  types : List String
  parents : List NId
  levels : List ℕ
deriving DecidableEq

/-- The entry stream `SBM_Network::get_state` walks: one entry per node at
every level below the top, levels ascending, buckets in type order. -/
def SBM_Network.state_entries (net : SBM_Network) : List (NId × String × NId × ℕ) :=
  (List.range (net.nodes.length - 1)).flatMap (fun level =>
    (net.levelRecords level).map (fun nd =>
      (nd.id, net.types.getD nd.type "", get_parent_id nd, level)))

/-- `SBM_Network::get_state` (network.h lines 122–142): fails when no block
level exists, otherwise dumps the entry stream into the four columns (the
top level is omitted; its nodes appear only in the `parents` column). -/
def SBM_Network.get_state (net : SBM_Network) : Except SbmErr State_Dump :=
  if net.nodes.length = 1 then .error .noBlocks
  else
    .ok ⟨net.state_entries.map (fun e => e.1),
         net.state_entries.map (fun e => e.2.1),
         net.state_entries.map (fun e => e.2.2.1),
         net.state_entries.map (fun e => e.2.2.2)⟩

/-- One loop iteration of `SBM_Network::update_state` (network.h lines
262–297).  The fold state carries the network, the child-level id map
(`node_by_id`), the block-level id map (`block_by_id`, in creation order)
and `last_level`.  On a level change the block map becomes the node map and
a fresh level is built.  A missing node id raises
`LOGIC_ERROR("Node in state ... is not present in network")`; a parent id
not seen before is created through `add_node(parent, type, level + 1)`. -/
def SBM_Network.update_state_entry (st : SBM_Network × List NId × List NId × ℕ)
    (e : NId × NId × ℕ × String) : Except SbmErr (SBM_Network × List NId × List NId × ℕ) :=
  let st1 := if st.2.2.2 ≠ e.2.2.1
    then (st.1.build_level, st.2.2.1, ([] : List NId), e.2.2.1)
    else st
  let net1 := st1.1
  let node_ids := st1.2.1
  let block_ids := st1.2.2.1
  let id := e.1
  let parent := e.2.1
  let level := e.2.2.1
  let tname := e.2.2.2
  if id ∈ node_ids then
    if parent ∈ block_ids then
      .ok (net1.setParent level id parent, node_ids, block_ids, level)
    else
      match net1.add_node parent tname (level + 1) with
      | .error err => .error err
      | .ok r =>
        .ok ((r.1).setParent level id parent, node_ids, block_ids ++ [parent], level)
  else .error .unknownId

/-- `SBM_Network::update_state(ids, parents, levels, types)` (network.h lines
244–298): drop every block level, rebuild one empty level, seed the node map
with the level-0 ids, then fold the entries (the C++ loop indexes the four
columns in lockstep, which `zip` models for equal-length columns). -/
def SBM_Network.update_state (net : SBM_Network) (ids : List NId)
    (parents : List NId) (levels : List ℕ) (typeNames : List String) :
    Except SbmErr SBM_Network :=
  let net0 := net.delete_all_blocks.build_level
  let node_ids0 := (net0.levelRecords 0).map (fun nd => nd.id)
  let entries := (ids.zip (parents.zip (levels.zip typeNames))).map
      (fun e => (e.1, e.2.1, e.2.2.1, e.2.2.2))
  match entries.foldlM SBM_Network.update_state_entry (net0, node_ids0, [], 0) with
  | .error err => .error err
  | .ok r => .ok r.1

/-- The `State_Dump` overload of `update_state`. -/
def SBM_Network.update_state_dump (net : SBM_Network) (d : State_Dump) :
    Except SbmErr SBM_Network :=
  net.update_state d.ids d.parents d.levels d.types

/-- Parent lookup by id at a level (`none` when the id is absent). -/
def SBM_Network.parentOf (net : SBM_Network) (level : ℕ) (id : NId) :
    Option (Option NId) :=
  ((net.levelRecords level).find? (fun nd => nd.id = id)).map (fun nd => nd.parent)

/-- The ancestor block reached from `id` (living at `level`) after walking
`steps` parent links. -/
def SBM_Network.ancestorOf (net : SBM_Network) (id : NId) (level steps : ℕ) :
    Option NId :=
  match steps with
  | 0 => some id
  | st + 1 =>
    match net.parentOf level id with
    | some (some p) => net.ancestorOf p (level + 1) st
    | _ => none

/-- Every block-node id (`NId.blk` values) present anywhere in the network. -/
def SBM_Network.blockIds (net : SBM_Network) : List ℕ :=
  net.nodes.flatMap (fun lvl => lvl.flatMap (fun b => b.filterMap (fun nd =>
    match nd.id with
    | NId.blk n => some n
    | NId.user _ => none)))

/-! ### The older `Network` class (src/Network.cpp)

The older generation keeps one `std::map<string, NodePtr>` per level.  A
level is modelled as a list of nodes in map-iteration (key-sorted) order;
the embedding keeps insertion order and every concrete instance below
inserts ids in sorted order so the two coincide.  `node_type_counts` is the
stored `map<int, map<int, int>>`: its outer key list plus a total count
function (absent entries read 0, as `operator[]` value-initialises). -/

/-- Node ids of the older generation: caller strings, or the
`build_block_id` scaffold "type-level_index" (injective, kept unrendered). -/
inductive OId where
  | user (s : String)
  | blockId (type level index : ℕ)
deriving DecidableEq

/-- A `Node` of the older generation as the embedded code reads it.
`neighbors` is the own-level connection list (edges are added between
level-0 nodes); parent is stored by id; children, degrees and
connection aggregation are derived (Node.h is not shipped; spec §3, §4.2). -/
structure ONode where
  id : OId
  level : ℕ
  type : ℕ
  parent : Option OId
  neighbors : List OId
deriving DecidableEq

/-- The older `Network`'s data. -/
structure ONetwork where
  nodes : List (List ONode)
  type_keys : List ℕ
  counts : ℕ → ℕ → ℤ

/-- Level map of a level (empty when the level does not exist yet). -/
def ONetwork.lvl (net : ONetwork) (level : ℕ) : List ONode :=
  net.nodes.getD level []

/-- `Network::add_level` / the level-creating side of `get_level`: make sure
levels `0..level` all exist. -/
def ONetwork.padTo (net : ONetwork) (level : ℕ) : ONetwork :=
  { net with nodes := net.nodes ++ List.replicate (level + 1 - net.nodes.length) [] }

/-- Replace a level map. -/
def ONetwork.setLvl (net : ONetwork) (level : ℕ) (b : List ONode) : ONetwork :=
  { net with nodes := net.nodes.set level b }

/-- `std::map` insert-or-assign (`(*node_level)[node_id] = new_node`):
replaces the entry when the key exists — silently overwriting the old node —
and appends otherwise. -/
def lvlInsert (l : List ONode) (nd : ONode) : List ONode :=
  if l.any (fun x => x.id = nd.id) then
    l.map (fun x => if x.id = nd.id then nd else x)
  else l ++ [nd]

/-- Record one node in `node_type_counts` (`node_type_counts[type][level]++`). -/
def ONetwork.bumpCount (net : ONetwork) (type level : ℕ) (delta : ℤ) : ONetwork :=
  { net with
    type_keys := if type ∈ net.type_keys then net.type_keys else net.type_keys ++ [type],
    counts := fun t l => if t = type ∧ l = level then net.counts t l + delta
              else net.counts t l }

/-- `Network::build_block_id(type, level, index)`: the generated id scaffold
"type-level_index". -/
def build_block_id (type level index : ℕ) : OId := OId.blockId type level index

/-- `Network::add_node(id, type, level)` (Network.cpp lines 78–101): `none`
for `id` stands for the C++ sentinel string "new block", in which case the
id is minted from the *current size of the level map*; the node is inserted
(overwriting any node with the same id) and the type count incremented. -/
def ONetwork.add_node (net : ONetwork) (id : Option OId) (type level : ℕ) :
    ONetwork × ONode :=
  let net1 := net.padTo level
  let node_id := match id with
    | none => build_block_id type level (net1.lvl level).length
    | some i => i
  let new_node : ONode := ⟨node_id, level, type, none, []⟩
  let net2 := net1.setLvl level (lvlInsert (net1.lvl level) new_node)
  (net2.bumpCount type level 1, new_node)

/-- `Network::create_block_node(type, level)`: refuses level 0, otherwise
`add_node("new block", type, level)`. -/
def ONetwork.create_block_node (net : ONetwork) (type level : ℕ) :
    Except SbmErr (ONetwork × ONode) :=
  if level = 0 then .error .blockAtLevelZero
  else .ok (net.add_node none type level)

/-- `Network::get_nodes_of_type_at_level` via `get_nodes_from_level`
(Network.cpp lines 127–176): `nodes.at(level)` faults on a missing level,
an empty level map throws "Requested level is empty.", then the level is
filtered by type. -/
def ONetwork.get_nodes_of_type_at_level (net : ONetwork) (type level : ℕ) :
    Except SbmErr (List ONode) :=
  if level ≥ net.nodes.length then .error .badNode
  else if (net.lvl level).length = 0 then .error .emptyLevel
  else .ok ((net.lvl level).filter (fun nd => nd.type = type))

/-- A block's children: the nodes one level below whose parent is its id
(the C++ `children` set, derived from the parent links). -/
def ONetwork.children (net : ONetwork) (b : ONode) : List ONode :=
  (net.lvl (b.level - 1)).filter (fun nd => nd.parent = some b.id)

/-- Modelled from the spec (§3 invariant 3, Node.h not shipped): a node's
degree — neighbor-list length at level 0, sum of the children's degrees for
blocks.  The fuel is the node's level, which bounds the recursion. -/
def ONetwork.degreeAux (net : ONetwork) : ℕ → ONode → ℕ
  | 0, nd => nd.neighbors.length
  | fuel + 1, nd =>
    if nd.level = 0 then nd.neighbors.length
    else ((net.children nd).map (fun c => net.degreeAux fuel c)).sum

/-- A node's degree. -/
def ONetwork.degree (net : ONetwork) (nd : ONode) : ℕ :=
  net.degreeAux nd.level nd

/-- The level-0 nodes of a node's subtree (fuel = level). -/
def ONetwork.level0Descendants (net : ONetwork) : ℕ → ONode → List ONode
  | 0, nd => [nd]
  | fuel + 1, nd =>
    if nd.level = 0 then [nd]
    else (net.children nd).flatMap (fun c => net.level0Descendants fuel c)

/-- Find a node by id in a level map (`nodes.at(level)->at(id)`). -/
def ONetwork.findNode (net : ONetwork) (level : ℕ) (id : OId) : Option ONode :=
  (net.lvl level).find? (fun nd => nd.id = id)

/-- Walk `steps` parent links from the node with `id` at `level`; a missing
node or parent is the embedded stand-in for the C++ null dereference. -/
def ONetwork.ancestorAt (net : ONetwork) (id : OId) (level : ℕ) :
    ℕ → Except SbmErr OId
  | 0 => .ok id
  | steps + 1 =>
    match net.findNode level id with
    | none => .error .badNode
    | some nd =>
      match nd.parent with
      | none => .error .badNode
      | some p => net.ancestorAt p (level + 1) steps

/-- Modelled from the spec (§2 "edge-count aggregation toward an arbitrary
ancestor level", §4.2 `neighbors_at_level`; Node.h is not shipped):
`Node::get_connections_to_level(level)` — every level-0 edge endpoint under
the node, walked up to `level`, with multiplicity. -/
def ONetwork.connections_to_level (net : ONetwork) (nd : ONode) (level : ℕ) :
    Except SbmErr (List OId) :=
  ((net.level0Descendants nd.level nd).flatMap (fun d => d.neighbors)).mapM
    (fun nid => net.ancestorAt nid 0 level)

/-- `Node::set_parent` as the network sees it: repoint the parent link of the
node with this id at this level (degree bookkeeping is derived).  Matches
the C++ pointer update whenever ids are unique within the level. -/
def ONetwork.set_parent (net : ONetwork) (level : ℕ) (id : OId) (pid : OId) :
    ONetwork :=
  net.setLvl level ((net.lvl level).map (fun nd =>
    if nd.id = id then { nd with parent := some pid } else nd))

/-- `Network::clean_empty_blocks` (Network.cpp lines 318–376): scan levels
1.. in ascending order; drop every block with no children from its level map
and decrement its type count; return the removed blocks.  (Removing the
block from its parent's child set is implicit: children are derived.) -/
def ONetwork.clean_empty_groups (net : ONetwork) : ONetwork × List ONode :=
  (List.range (net.nodes.length - 1)).foldl
    (fun acc i =>
      let level := i + 1
      let cur := acc.1
      let doomed := (cur.lvl level).filter (fun b => (cur.children b).length = 0)
      let kept := (cur.lvl level).filter (fun b => ¬ ((cur.children b).length = 0))
      let cur2 := doomed.foldl (fun c b => c.bumpCount b.type level (-1))
        (cur.setLvl level kept)
      (cur2, acc.2 ++ doomed))
    (net, [])

/-- The older generation's `State_Dump` (Network.cpp lines 384–432): one row
per node of *every* level, `none` standing for the "none" parent marker. -/
structure OStateDump where
  ids : List OId
  levels : List ℕ
  types : List ℕ
  parents : List (Option OId)
deriving DecidableEq

/-- `Network::get_state`: walk all levels in order, dumping each node's id,
level, type and parent id. -/
def ONetwork.get_state (net : ONetwork) : OStateDump :=
  let rows := (List.range net.nodes.length).flatMap (fun level =>
    (net.lvl level).map (fun nd => (nd.id, level, nd.type, nd.parent)))
  ⟨rows.map (fun r => r.1), rows.map (fun r => r.2.1),
   rows.map (fun r => r.2.2.1), rows.map (fun r => r.2.2.2)⟩

/-- Create `k` block nodes of one type at `block_level` in order (the inner
`for (int i = 0; i < num_blocks; i++)` of Network.cpp lines 272–277); kept in
`Except` to mirror `create_block_node`, though `block_level ≥ 1` never fails. -/
def ONetwork.mkBlocks (net : ONetwork) (type block_level : ℕ) :
    ℕ → Except SbmErr (ONetwork × List ONode)
  | 0 => .ok (net, [])
  | k + 1 => do
    let r1 ← net.create_block_node type block_level
    let r2 ← r1.1.mkBlocks type block_level k
    .ok (r2.1, r1.2 :: r2.2)

/-- Build `type_to_blocks`: `num_blocks` fresh blocks for every key of
`node_type_counts`, in map-key order (Network.cpp lines 262–279; the `++`
on counts inside never adds outer keys, so iterating the snapshot is the
C++ iteration). -/
def ONetwork.mkTypeBlocks (net : ONetwork) (block_level k : ℕ) :
    List ℕ → Except SbmErr (ONetwork × List (ℕ × List ONode))
  | [] => .ok (net, [])
  | t :: ts => do
    let r1 ← net.mkBlocks t block_level k
    let r2 ← r1.1.mkTypeBlocks block_level k ts
    .ok (r2.1, (t, r1.2) :: r2.2)

/-- `type_to_blocks[node_type]` (a missing key reads as the empty vector). -/
def lookupBlocks (m : List (ℕ × List ONode)) (t : ℕ) : List ONode :=
  ((m.find? (fun e => e.1 = t)).map (fun e => e.2)).getD []

/-- The per-node assignment loop of `Network::initialize_blocks` (lines
281–297): one fresh block per node when `one_block`, otherwise a sampler
draw from the type's block vector; mutation stops at the first failure, as a
C++ exception would leave it. -/
def ONetwork.assignLoop (block_level : ℕ) (one_block : Bool)
    (ttb : List (ℕ × List ONode)) :
    List ONode → ONetwork → Sampler → (Except SbmErr Unit) × ONetwork × Sampler
  | [], net, smp => (.ok (), net, smp)
  | nd :: rest, net, smp =>
    if one_block then
      match net.create_block_node nd.type block_level with
      | .error e => (.error e, net, smp)
      | .ok r =>
        ONetwork.assignLoop block_level one_block ttb rest
          (r.1.set_parent nd.level nd.id r.2.id) smp
    else
      match smp.sample (lookupBlocks ttb nd.type) with
      | .error e => (.error e, net, smp)
      | .ok r =>
        ONetwork.assignLoop block_level one_block ttb rest
          (net.set_parent nd.level nd.id r.1.id) r.2

/-- `Network::initialize_blocks(num_blocks, level)` (Network.cpp lines
229–299), parameterised by the sampler feeding the assignment draws.
Returns exit status, the state at exit (the C++ function mutates in place,
so a throw leaves the mutations made so far — including the unconditional
clearing of the block level) and the sampler after its draws.  The embedded
level list reads a never-populated level as empty, so the C++
`std::out_of_range` of `nodes.at(level)` and the "Requested level is empty."
throw both land on `.emptyLevel`. -/
def ONetwork.initialize_blocks_core (net : ONetwork) (smp : Sampler)
    (num_blocks : ℤ) (level : ℕ) :
    (Except SbmErr Unit) × ONetwork × Sampler :=
  let block_level := level + 1
  let net1 := (net.padTo block_level).setLvl block_level []
  let node_level := net1.lvl level
  if node_level.length = 0 then (.error .emptyLevel, net1, smp)
  else if num_blocks = -1 then
    ONetwork.assignLoop block_level true [] node_level net1 smp
  else
    match net1.mkTypeBlocks block_level num_blocks.toNat net.type_keys with
    | .error e => (.error e, net1, smp)
    | .ok r => ONetwork.assignLoop block_level false r.2 node_level r.1 smp

/-- `Network::initialize_blocks` as written: the draws come from a *local,
default-seeded* `Sampler block_sampler` (line 244) that dies at return. -/
def ONetwork.initialize_blocks_old (net : ONetwork) (num_blocks : ℤ)
    (level : ℕ) : (Except SbmErr Unit) × ONetwork :=
  let r := net.initialize_blocks_core Sampler.defaulted num_blocks level
  (r.1, r.2.1)

/-- `SBM::give_every_node_at_level_own_group(level)` =
`initialize_blocks(-1, level)`. -/
def ONetwork.give_every_node_at_level_own_group (net : ONetwork) (level : ℕ) :
    (Except SbmErr Unit) × ONetwork :=
  net.initialize_blocks_old (-1) level

/-- Modelled from the spec (§4.1; SBM.h is not shipped): the `SBM` engine of
the older generation owns the network and a single seeded sampler member. -/
structure OldSBM where
  net : ONetwork
  sampler : Sampler

/-- Block initialisation as the engine runs it: delegates to the network
member function, whose randomness is the local default-seeded sampler; the
engine-owned sampler member is neither consulted nor advanced. -/
def OldSBM.initialize_blocks_code (st : OldSBM) (num_blocks : ℤ) (level : ℕ) :
    (Except SbmErr Unit) × OldSBM :=
  let r := st.net.initialize_blocks_old num_blocks level
  (r.1, ⟨r.2, st.sampler⟩)

/-- Modelled from the spec: the same block initialisation drawing from the
engine-owned sampler (§4.1: the sampler is "the *sole* entropy source
consumed by the engine"), which the draws advance. -/
def OldSBM.initialize_blocks_engine (st : OldSBM) (num_blocks : ℤ) (level : ℕ) :
    (Except SbmErr Unit) × OldSBM :=
  let r := st.net.initialize_blocks_core st.sampler num_blocks level
  (r.1, ⟨r.2.1, r.2.2⟩)

/-- The parent links of a level's nodes, in map order. -/
def ONetwork.parentsAt (net : ONetwork) (level : ℕ) : List (Option OId) :=
  (net.lvl level).map (fun nd => nd.parent)

/-! ### The older `SBM` engine (src/SBM.cpp)

The engine member functions below mirror SBM.cpp on the `ONetwork` model.
`std::map<NodePtr, int>` iterates in pointer-address order; every sum the
code takes over such a map is order-independent, so the insertion-ordered
association lists below compute the same values. -/

/-- Dereference a C++ pointer: `none` is the null case, which in the code is
a crash rather than an exception; the embedding surfaces it as `.badNode`
(unreachable on consistent states). -/
def optErr {α : Type} : Option α → Except SbmErr α
  | none => .error .badNode
  | some a => .ok a

/-- The engine configuration constants of SBM.h (not shipped; spec §4.1).
`EPS` also feeds `propose_move`'s acceptance draw and stays rational so that
draw is computable; `BETA` only scales the real-valued entropy delta. -/
structure OConfig where
  EPS : ℚ
  BETA : ℝ
  GREEDY : Bool
  N_CHECKS_PER_GROUP : ℕ
  SIGMA : ℚ

/-- The degree of the node with `id` at `level` (0 when absent — a stand-in
for the C++ null dereference, unreachable on consistent states). -/
def ONetwork.degById (net : ONetwork) (level : ℕ) (id : OId) : ℕ :=
  ((net.findNode level id).map (fun nd => net.degree nd)).getD 0

/-- Connection maps of the older engine, keyed by block ids. -/
abbrev OEdgeMap := List (OId × ℕ)

/-- `std::map` read with the value-initialised default `0`. -/
def mapFindO (m : OEdgeMap) (k : OId) : ℕ :=
  match m with
  | [] => 0
  | p :: rest => if p.1 = k then p.2 else mapFindO rest k

/-- `std::map::operator[]` on an `OEdgeMap`: read, default-inserting `(k, 0)`
when absent. -/
def mapIndexO (m : OEdgeMap) (k : OId) : ℕ × OEdgeMap :=
  if m.any (fun p => p.1 = k) then (mapFindO m k, m) else (0, m ++ [(k, 0)])

/-- Count one occurrence of `k` into the histogram. -/
def histBump (m : OEdgeMap) (k : OId) : OEdgeMap :=
  if m.any (fun p => p.1 = k) then
    m.map (fun p => if p.1 = k then (p.1, p.2 + 1) else p)
  else m ++ [(k, 1)]

/-- Modelled from the spec (§2, §4.2; Node.h is not shipped):
`Node::gather_connections_to_level` — the multiset of
`get_connections_to_level` as a count map. -/
def ONetwork.gather_connections_to_level (net : ONetwork) (nd : ONode)
    (level : ℕ) : Except SbmErr OEdgeMap := do
  let conns ← net.connections_to_level nd level
  .ok (conns.foldl histBump [])

/-- The two entropy loops of the older `make_proposal_decision`, identical to
`entropyLoop` but keyed by block ids. -/
noncomputable def entropyLoopO (deg : OId → ℝ) (sign : ℤ)
    (moved_pre moved_post : ℝ) :
    List (OId × ℕ) → ℝ × ℝ × OEdgeMap → ℝ × ℝ × OEdgeMap
  | [], st => st
  | (t, c) :: rest, (epre, epost, ne) =>
    let n := (mapIndexO ne t).1
    let ne1 := (mapIndexO ne t).2
    let st1 := process_group_pair (deg t) (c : ℝ) ((sign * (n : ℤ) : ℤ) : ℝ)
      moved_pre moved_post epre epost
    entropyLoopO deg sign moved_pre moved_post rest (st1.1, st1.2, ne1)

/-- `SBM::make_proposal_decision` (SBM.cpp lines 70–156) on the older
network: the same computation as `make_proposal_decision`, with the three
connection maps gathered from the network and block pointers standing as
ids at `node.level + 1`. -/
noncomputable def OldSBM.make_proposal_decision (cfg : OConfig) (st : OldSBM)
    (node new_group : ONode) : Except SbmErr Proposal_Res := do
  let group_level := node.level + 1
  let old_pid ← optErr node.parent
  let old_group ← optErr (st.net.findNode group_level old_pid)
  let node_degree : ℝ := st.net.degree node
  let deg : OId → ℝ := fun t => (st.net.degById group_level t : ℝ)
  let old_pre : ℝ := st.net.degree old_group
  let new_pre : ℝ := st.net.degree new_group
  let node_edges ← st.net.gather_connections_to_level node group_level
  let new_group_edges ← st.net.gather_connections_to_level new_group group_level
  let old_group_edges ← st.net.gather_connections_to_level old_group group_level
  let st1 := entropyLoopO deg (-1) old_pre (old_pre - node_degree)
    old_group_edges (0, 0, node_edges)
  let st2 := entropyLoopO deg 1 new_pre (new_pre + node_degree)
    new_group_edges st1
  let pre_move_prob := st2.2.2.foldl
    (fun a p => a + ((mapFindO old_group_edges p.1 : ℝ) + (cfg.EPS : ℝ))) 0
  let post_move_prob := st2.2.2.foldl
    (fun a p => a + ((mapFindO new_group_edges p.1 : ℝ) + (cfg.EPS : ℝ))) 0
  let entropy_delta := st2.2.1 - st2.1
  let acceptance_prob := Real.exp (cfg.BETA * entropy_delta) *
    (pre_move_prob / post_move_prob)
  .ok ⟨entropy_delta, if acceptance_prob > 1 then 1 else acceptance_prob⟩

/-- `SBM::propose_move` (SBM.cpp lines 6–33): potential groups first (this
can throw on an empty level), then a sampled neighbor, then the ergodicity
draw deciding between a uniformly random group and the sampled neighbor's
connection at the group level.  Returns the proposed block's id and the
advanced sampler. -/
def OldSBM.propose_move (cfg : OConfig) (st : OldSBM) (node : ONode) :
    Except SbmErr (OId × Sampler) := do
  let group_level := node.level + 1
  let potential_groups ←
    st.net.get_nodes_of_type_at_level node.type group_level
  let conns ← st.net.connections_to_level node node.level
  let r1 ← st.sampler.sample conns
  let rand_neighbor ← optErr (st.net.findNode node.level r1.1)
  let pid ← optErr rand_neighbor.parent
  let parent ← optErr (st.net.findNode (node.level + 1) pid)
  let neighbor_group_degree := st.net.degree parent
  let ergo_amnt : ℚ := cfg.EPS * (potential_groups.length : ℚ)
  let prob_of_random_group : ℚ :=
    ergo_amnt / ((neighbor_group_degree : ℚ) + ergo_amnt)
  let r2 := r1.2.draw_unif
  if r2.1 < prob_of_random_group then do
    let r3 ← r2.2.sample potential_groups
    .ok (r3.1.id, r3.2)
  else do
    let conns2 ← st.net.connections_to_level rand_neighbor group_level
    let r3 ← r2.2.sample conns2
    .ok (r3.1, r3.2)

/-- Modelled from the spec (SBM.h not shipped): `SBM::create_group_node` is
the block-node constructor at a level, i.e. `create_block_node`. -/
def ONetwork.create_group_node (net : ONetwork) (type level : ℕ) :
    Except SbmErr (ONetwork × ONode) :=
  net.create_block_node type level

/-- The older `Sweep_Res` (spec §4.2): ids of moved nodes and summed
entropy delta. -/
structure Sweep_Res where
  nodes_moved : List OId
  entropy_delta : ℝ

/-- The per-node body of `SBM::mcmc_sweep` (SBM.cpp lines 189–230) over the
shuffled snapshot: propose, skip self-moves (`continue` also skips the
variable-group upkeep), decide, draw, optionally move, then — when the group
count is variable — clean empty groups and mint a fresh group for the node's
type.  An exception leaves the mutations made so far. -/
noncomputable def OldSBM.sweepStep (cfg : OConfig) (group_level : ℕ)
    (variable_num_groups : Bool) :
    List ONode → OldSBM → Sweep_Res → (Except SbmErr Sweep_Res) × OldSBM
  | [], st, res => (.ok res, st)
  | nd :: rest, st, res =>
    match OldSBM.propose_move cfg st nd with
    | .error e => (.error e, st)
    | .ok r1 =>
      let st1 : OldSBM := ⟨st.net, r1.2⟩
      match nd.parent with
      | none => (.error .badNode, st1)
      | some pid =>
        if pid = r1.1 then
          OldSBM.sweepStep cfg group_level variable_num_groups rest st1 res
        else
          match optErr (st1.net.findNode group_level r1.1) with
          | .error e => (.error e, st1)
          | .ok proposed_node =>
            match OldSBM.make_proposal_decision cfg st1 nd proposed_node with
            | .error e => (.error e, st1)
            | .ok pres =>
              let du := st1.sampler.draw_unif
              let accepted := ((du.1 : ℝ) < pres.prob_of_accept)
              let net1 := if accepted then
                st1.net.set_parent nd.level nd.id r1.1 else st1.net
              let res1 : Sweep_Res := if accepted then
                ⟨res.nodes_moved ++ [nd.id],
                 res.entropy_delta + pres.entropy_delta⟩ else res
              if variable_num_groups then
                let net2 := (net1.clean_empty_groups).1
                match net2.create_group_node nd.type group_level with
                | .error e => (.error e, ⟨net2, du.2⟩)
                | .ok r2 =>
                  OldSBM.sweepStep cfg group_level variable_num_groups rest
                    ⟨r2.1, du.2⟩ res1
              else
                OldSBM.sweepStep cfg group_level variable_num_groups rest
                  ⟨net1, du.2⟩ res1

/-- `SBM::mcmc_sweep` (SBM.cpp lines 161–233): snapshot the level's nodes,
shuffle them with the engine sampler's generator, then run the per-node
body. -/
noncomputable def OldSBM.mcmc_sweep (cfg : OConfig) (st : OldSBM) (level : ℕ)
    (variable_num_groups : Bool) : (Except SbmErr Sweep_Res) × OldSBM :=
  let net1 := st.net.padTo level
  let shuffled := st.sampler.shuffle (net1.lvl level)
  OldSBM.sweepStep cfg (level + 1) variable_num_groups shuffled.1
    ⟨net1, shuffled.2⟩ ⟨[], 0⟩

/-- `SBM::compute_entropy(level)` (SBM.cpp lines 238–313): half the degree
sum, plus the degree-factorial sum (`lgamma(d + 1) = log d!`; summing
per-node equals summing the degree histogram), plus half the group-pair
edge-entropy sum.  The gathered maps read as empty on inconsistent states,
where the C++ would crash. -/
noncomputable def ONetwork.compute_entropy (net : ONetwork) (level : ℕ) : ℝ :=
  let node_level := net.lvl level
  let n_total_edges : ℝ := ((node_level.map net.degree).sum : ℝ) / 2
  let degree_summation : ℝ :=
    (node_level.map (fun nd =>
      Real.log (Nat.factorial (net.degree nd)))).sum
  let group_level := net.lvl (level + 1)
  let edge_entropy : ℝ :=
    (group_level.map (fun g =>
      (((net.gather_connections_to_level g (level + 1)).toOption.getD []).map
        (fun p => (p.2 : ℝ) * Real.log ((p.2 : ℝ) /
          ((net.degree g : ℝ) * (net.degById (level + 1) p.1 : ℝ))))).sum)).sum
  let result : ℝ := -1 * (n_total_edges + degree_summation + edge_entropy / 2)
  result

/-- `SBM::merge_groups(group_a, group_b)` (SBM.cpp lines 318–330): reparent
every child of `b` (the nodes one level below `group_level` pointing at it)
onto `a`. -/
def ONetwork.merge_groups (net : ONetwork) (a b : OId) (group_level : ℕ) :
    ONetwork :=
  net.setLvl (group_level - 1) ((net.lvl (group_level - 1)).map (fun nd =>
    if nd.parent = some b then { nd with parent := some a } else nd))

/-- The older `Merge_Step` record (spec §4.3; SBM.h not shipped). -/
structure Merge_Step where
  from_node : List OId
  to_node : List OId
  entropy : ℝ
  state : OStateDump
  num_groups : ℕ

/-- Gather the merge candidates of `SBM::agglomerative_merge` (lines 372–421)
in group order: each group's metagroups to search (every same-type metagroup
when `GREEDY`, else `N_CHECKS_PER_GROUP` samples of `propose_move`), each
resolved to its first child and kept with the move's entropy delta unless it
is the group itself.  Threads the sampler; the first failure aborts. -/
noncomputable def OldSBM.mergeCandidates (cfg : OConfig) (net : ONetwork)
    (meta_level : ℕ) :
    List ONode → Sampler → Except SbmErr (List (OId × OId × ℝ) × Sampler)
  | [], smp => .ok ([], smp)
  | curr :: rest, smp => do
    let r1 ← (if cfg.GREEDY then do
        let ms ← net.get_nodes_of_type_at_level curr.type meta_level
        (.ok (ms.map (fun m => m.id), smp) :
          Except SbmErr (List OId × Sampler))
      else
        (List.range cfg.N_CHECKS_PER_GROUP).foldlM (fun acc _ => do
          let r ← OldSBM.propose_move cfg ⟨net, acc.2⟩ curr
          .ok (acc.1 ++ [r.1], r.2)) (([], smp) : List OId × Sampler))
    let cands ← r1.1.foldlM (fun acc m => do
      let mg ← optErr (net.findNode meta_level m)
      let merge_group ← optErr (net.children mg).head?
      if merge_group.id = curr.id then .ok acc
      else do
        let pres ← OldSBM.make_proposal_decision cfg ⟨net, r1.2⟩ curr mg
        .ok (acc ++ [(curr.id, merge_group.id, pres.entropy_delta)]))
      ([] : List (OId × OId × ℝ))
    let r2 ← OldSBM.mergeCandidates cfg net meta_level rest r1.2
    .ok (cands ++ r2.1, r2.2)

/-- The merge-selection loop of `SBM::agglomerative_merge` (lines 424–481):
walk candidate indices in priority order, merging when neither endpoint was
already culled, until `num_merges_to_make` culls are made or the queue
empties.  State: culled set, from/to records, the network. -/
def selectionLoop (cands : List (OId × OId × ℝ)) (num : ℤ) (group_level : ℕ) :
    List ℕ → List OId × List OId × List OId × ONetwork →
    List OId × List OId × List OId × ONetwork
  | [], acc => acc
  | idx :: rest, (made, fr, toa, net) =>
    if (made.length : ℤ) < num then
      let c := cands.getD idx (OId.user "", OId.user "", 0)
      let from_ex := ¬ (c.1 ∈ made)
      let to_ex := ¬ (c.2.1 ∈ made)
      if from_ex ∧ to_ex then
        selectionLoop cands num group_level rest
          (made ++ [c.1], fr ++ [c.1], toa ++ [c.2.1],
           net.merge_groups c.2.1 c.1 group_level)
      else selectionLoop cands num group_level rest (made, fr, toa, net)
    else (made, fr, toa, net)

/-- The pop order of the `std::priority_queue<std::pair<double, int>>`:
indices sorted by (delta, index) lexicographically descending. -/
noncomputable def priorityOrder (cands : List (OId × OId × ℝ)) : List ℕ :=
  (List.range cands.length).mergeSort (fun i j =>
    decide ((cands.getD j (OId.user "", OId.user "", 0)).2.2 <
            (cands.getD i (OId.user "", OId.user "", 0)).2.2 ∨
      ((cands.getD i (OId.user "", OId.user "", 0)).2.2 =
       (cands.getD j (OId.user "", OId.user "", 0)).2.2 ∧ j ≤ i)))

/-- `SBM::agglomerative_merge` (SBM.cpp lines 335–490).  In order: the
zero-merge check; the meta level built by giving every group its own group
(*mutating the network*); the per-type `< 2` availability check — which
throws *after* that mutation; candidate gathering; the priority-ordered
selection loop; `clean_empty_groups`; the entropy of the node level.
Returns the exit status together with the state at exit (a throw leaves the
mutations made so far).  The availability check reads
`node_type_counts[i][group_level]` for `i` below the outer map's size —
`operator[]` keys, which value-initialise to `0` when `i` is not a stored
type (the first such read throws, so the growth it causes is invisible). -/
noncomputable def OldSBM.agglomerative_merge (cfg : OConfig) (st : OldSBM)
    (group_level : ℕ) (num_merges_to_make : ℤ) :
    (Except SbmErr Merge_Step) × OldSBM :=
  if num_merges_to_make = 0 then (.error .zeroMerges, st)
  else
    let meta_level := group_level + 1
    let r := st.net.give_every_node_at_level_own_group group_level
    match r.1 with
    | .error e => (.error e, ⟨r.2, st.sampler⟩)
    | .ok _ =>
      let net1 := r.2
      if (List.range net1.type_keys.length).any
          (fun i => net1.counts i group_level < 2) then
        (.error .insufficientBlocks, ⟨net1, st.sampler⟩)
      else
        match OldSBM.mergeCandidates cfg net1 meta_level
            (net1.lvl group_level) st.sampler with
        | .error e => (.error e, ⟨net1, st.sampler⟩)
        | .ok rc =>
          let sel := selectionLoop rc.1 num_merges_to_make group_level
            (priorityOrder rc.1) ([], [], [], net1)
          let net2 := (sel.2.2.2.clean_empty_groups).1
          let entropy := net2.compute_entropy (group_level - 1)
          (.ok ⟨sel.2.1, sel.2.2.1, entropy, ⟨[], [], [], []⟩, 0⟩,
           ⟨net2, rc.2⟩)

/-- Run `n` non-variable MCMC sweeps (the equilibration loop of
`collapse_groups`); a sweep failure propagates with the state at failure. -/
noncomputable def OldSBM.sweepN (cfg : OConfig) (level : ℕ) :
    ℕ → OldSBM → (Except SbmErr Unit) × OldSBM
  | 0, st => (.ok (), st)
  | n + 1, st =>
    let r := OldSBM.mcmc_sweep cfg st level false
    match r.1 with
    | .error e => (.error e, r.2)
    | .ok _ => OldSBM.sweepN cfg level n r.2

/-- The `while (curr_num_groups > desired_num_groups)` loop of
`SBM::collapse_groups` (SBM.cpp lines 520–580), with fuel bounding the
number of iterations (each concrete fact below is proved with fuel larger
than the iterations taken).  The `try` block covers exactly the
`agglomerative_merge` call: *any* error from it breaks the loop, returning
the step records accumulated so far; errors from the equilibration sweeps
happen after the `catch` and propagate. -/
noncomputable def OldSBM.collapse_loop (cfg : OConfig) (node_level : ℕ)
    (num_mcmc_steps : ℕ) (desired : ℤ) :
    ℕ → OldSBM → List Merge_Step →
    (Except SbmErr (List Merge_Step)) × OldSBM
  | 0, st, acc => (.ok acc, st)
  | fuel + 1, st, acc =>
    let group_level := node_level + 1
    let curr : ℤ := ((st.net.lvl group_level).length : ℤ)
    if curr ≤ desired then (.ok acc, st)
    else
      let num_merges := merges_for curr desired cfg.SIGMA
      let r := OldSBM.agglomerative_merge cfg st group_level num_merges
      match r.1 with
      | .error _ => (.ok acc, r.2)
      | .ok merge_results =>
        let r2 := if num_mcmc_steps = 0 then (.ok (), r.2)
          else OldSBM.sweepN cfg node_level num_mcmc_steps r.2
        match r2.1 with
        | .error e => (.error e, r2.2)
        | .ok _ =>
          let st2 := if num_mcmc_steps = 0 then r2.2
            else ⟨(r2.2.net.clean_empty_groups).1, r2.2.sampler⟩
          let m1 := if num_mcmc_steps = 0 then merge_results
            else { merge_results with entropy := (st2.net.compute_entropy node_level) }
          let m2 := { m1 with state := st2.net.get_state, num_groups := curr.toNat }
          OldSBM.collapse_loop cfg node_level num_mcmc_steps desired fuel st2
            (acc ++ [m2])

/-- `SBM::collapse_groups(node_level, num_mcmc_steps, desired_num_groups)`
(SBM.cpp lines 496–581): give every node its own group (errors here are
outside the `try` and propagate), then run the merge loop. -/
noncomputable def OldSBM.collapse_groups (cfg : OConfig) (st : OldSBM)
    (node_level : ℕ) (num_mcmc_steps : ℕ) (desired_num_groups : ℤ)
    (fuel : ℕ) : (Except SbmErr (List Merge_Step)) × OldSBM :=
  let r := st.net.give_every_node_at_level_own_group node_level
  match r.1 with
  | .error e => (.error e, ⟨r.2, st.sampler⟩)
  | .ok _ =>
    OldSBM.collapse_loop cfg node_level num_mcmc_steps desired_num_groups
      fuel ⟨r.2, st.sampler⟩ []

/-- Unwrap an `Except` with a default (used to chain concrete instances). -/
def okD {α : Type} (d : α) : Except SbmErr α → α
  | .error _ => d
  | .ok a => a

/-- Concrete older network: a single node "a" of type 0 at level 0. -/
def cex5_net : ONetwork :=
  ⟨[[⟨OId.user "a", 0, 0, none, []⟩]], [0],
   fun t l => if t = 0 ∧ l = 0 then 1 else 0⟩

/-- The engine holding `cex5_net` with sampler state 43. -/
def cex5_st : OldSBM := ⟨cex5_net, ⟨43⟩⟩

/-- The engine holding `cex5_net` with sampler state 99. -/
def cex5_st2 : OldSBM := ⟨cex5_net, ⟨99⟩⟩

/-- Default result for unwrapping `create_block_node` chains. -/
def cex9_junk : ONetwork × ONode := (cex5_net, ⟨OId.user "x", 0, 0, none, []⟩)

/-- `cex5_net` after one `create_block_node(0, 1)`. -/
def cex9_net1 : ONetwork := (okD cex9_junk (cex5_net.create_block_node 0 1)).1

/-- `cex9_net1` after `clean_empty_groups` removed the childless block. -/
def cex9_net2 : ONetwork := (cex9_net1.clean_empty_groups).1

/-- The parent reassignment `give_every_node_at_level_own_group` performs on
the processed prefix of a level: node `i` is pointed at the block minted for
it, whose id is `build_block_id` of the node's type, the block level and the
running level-map size `i`. -/
def reparent (orig : List ONode) (k bl : ℕ) : List ONode :=
  orig.mapIdx (fun i nd =>
    if i < k then { nd with parent := some (build_block_id nd.type bl i) } else nd)

/-- The blocks minted for the processed prefix of a level, in creation
order. -/
def mintMeta (orig : List ONode) (k bl : ℕ) : List ONode :=
  (orig.take k).mapIdx (fun i nd =>
    (⟨build_block_id nd.type bl i, bl, nd.type, none, []⟩ : ONode))

/-- Older network for the merge-atomicity instance: one node "a" under one
block "0-1_0". -/
def cex10_net : ONetwork :=
  ⟨[[⟨OId.user "a", 0, 0, some (OId.blockId 0 1 0), []⟩],
    [⟨OId.blockId 0 1 0, 1, 0, none, []⟩]], [0],
   fun t l => if t = 0 ∧ l = 0 then 1 else if t = 0 ∧ l = 1 then 1 else 0⟩

/-- A concrete configuration for the older engine. -/
noncomputable def cfg10 : OConfig := ⟨1/100, 1, false, 1, 3/2⟩

/-- Older network with an isolated node "a" and an edge b–c, all of
type 0. -/
def cex6_net : ONetwork :=
  ⟨[[⟨OId.user "a", 0, 0, none, []⟩,
     ⟨OId.user "b", 0, 0, none, [OId.user "c"]⟩,
     ⟨OId.user "c", 0, 0, none, [OId.user "b"]⟩]], [0],
   fun t l => if t = 0 ∧ l = 0 then 3 else 0⟩

/-- The engine on `cex6_net`. -/
def cex6_st : OldSBM := ⟨cex6_net, Sampler.defaulted⟩

/-- The collapse loop's entry state: every node given its own group. -/
def cex6_post : OldSBM :=
  ⟨(cex6_net.give_every_node_at_level_own_group 0).2, Sampler.defaulted⟩

/-- An engine whose network has no levels at all. -/
def cex6_empty : OldSBM := ⟨⟨[], [], fun _ _ => 0⟩, Sampler.defaulted⟩

/-- Three-level `SBM_Network`: node "u" under block 0; block 0 and the
childless block 1 both under top block 2. -/
def cex4_net : SBM_Network :=
  ⟨[[[⟨NId.user "u", 0, 0, some (NId.blk 0)⟩]],
    [[⟨NId.blk 0, 1, 0, some (NId.blk 2)⟩, ⟨NId.blk 1, 1, 0, some (NId.blk 2)⟩]],
    [[⟨NId.blk 2, 2, 0, none⟩]]], ["a"], 3, ⟨42⟩⟩

/-- The first-seen parents of a level-0 entry stream, each paired with the
type index of its first child: the order in which the level-0 pass of
`update_state` mints the parent blocks (`block_by_id` insertion order). -/
def newBlocksAux (acc : List (NId × ℕ)) : List NNode → List (NId × ℕ)
  | [] => acc
  | nd :: rest =>
    if get_parent_id nd ∈ acc.map Prod.fst then newBlocksAux acc rest
    else newBlocksAux (acc ++ [(get_parent_id nd, nd.type)]) rest

/-- The blocks minted by the level-0 pass of `update_state`, bucketed by the
type index `add_node` pushes them into. -/
def mkBlockBuckets (tn : List String) (nb : List (NId × ℕ)) : List (List NNode) :=
  (List.range tn.length).map (fun t =>
    (nb.filter (fun pr => pr.2 = t)).map (fun pr => (⟨pr.1, 1, pr.2, none⟩ : NNode)))

/-- The shape of the network `update_state` rebuilds from a two-level
source: level 0 untouched, one block level of minted buckets. -/
def mkCur (net : SBM_Network) (nb : List (NId × ℕ)) : SBM_Network :=
  ⟨net.nodes.take 1 ++ [mkBlockBuckets net.types nb], net.types,
   net.block_counter, net.random_sampler⟩

/-- The entry tuples `update_state` folds, for a list of level-0 records. -/
def entriesOfL (tn : List String) : List NNode → List (NId × NId × ℕ × String) :=
  List.map (fun nd => (nd.id, get_parent_id nd, 0, tn.getD nd.type ""))

/-- Two-block two-node network for the round-trip witness. -/
def cex4w_net : SBM_Network :=
  ⟨[[[⟨NId.user "u", 0, 0, some (NId.blk 0)⟩, ⟨NId.user "v", 0, 0, some (NId.blk 1)⟩]],
    [[⟨NId.blk 0, 1, 0, none⟩, ⟨NId.blk 1, 1, 0, none⟩]]], ["a"], 2, ⟨42⟩⟩

@[simp] theorem keysOf_nil : keysOf [] = [] := rfl

@[simp] theorem keysOf_cons (p : ℕ × ℕ) (m : EdgeMap) :
    keysOf (p :: m) = p.1 :: keysOf m := rfl

theorem mapFind_eq_zero_of_not_mem (m : EdgeMap) (k : ℕ) (hk : k ∉ keysOf m) :
    mapFind m k = 0 := by
  induction m with
  | nil => rfl
  | cons p rest ih =>
    simp only [keysOf_cons, List.mem_cons, not_or] at hk
    have hp : ¬ p.1 = k := fun h => hk.1 h.symm
    simp [mapFind, hp, ih hk.2]

theorem mapFind_insertKey (m : EdgeMap) (k k' : ℕ) (hk : k ∉ keysOf m) :
    mapFind (insertKey m k) k' = mapFind m k' := by
  induction m with
  | nil => simp [insertKey, mapFind]
  | cons p rest ih =>
    simp only [keysOf_cons, List.mem_cons, not_or] at hk
    by_cases hlt : k < p.1
    · simp only [insertKey, if_pos hlt]
      by_cases h : k = k'
      · subst h
        have hp : ¬ p.1 = k := fun h => hk.1 h.symm
        simp [mapFind, hp, mapFind_eq_zero_of_not_mem rest k hk.2]
      · simp [mapFind, h]
    · simp only [insertKey, if_neg hlt]
      by_cases hp : p.1 = k'
      · simp [mapFind, hp]
      · simp [mapFind, hp, ih hk.2]

theorem mapIndex_fst (m : EdgeMap) (k : ℕ) : (mapIndex m k).1 = mapFind m k := by
  unfold mapIndex
  by_cases h : m.any (fun p => p.1 = k)
  · simp [h]
  · have hk : k ∉ keysOf m := by
      intro hmem
      apply h
      simp only [List.any_eq_true]
      rcases List.mem_map.mp hmem with ⟨p, hp, hpk⟩
      exact ⟨p, hp, by simp [hpk]⟩
    simp [h, mapFind_eq_zero_of_not_mem m k hk]

theorem mapIndex_mem_iff (m : EdgeMap) (k : ℕ) :
    (m.any (fun p => p.1 = k) = true) ↔ k ∈ keysOf m := by
  simp only [List.any_eq_true, keysOf, List.mem_map]
  constructor
  · rintro ⟨p, hp, hpk⟩
    exact ⟨p, hp, by simpa using hpk⟩
  · rintro ⟨p, hp, hpk⟩
    exact ⟨p, hp, by simp [hpk]⟩

theorem mapFind_mapIndex (m : EdgeMap) (k k' : ℕ) :
    mapFind (mapIndex m k).2 k' = mapFind m k' := by
  unfold mapIndex
  by_cases h : m.any (fun p => p.1 = k)
  · simp [h]
  · have hk : k ∉ keysOf m := fun hmem => h ((mapIndex_mem_iff m k).mpr hmem)
    simp [h, mapFind_insertKey m k k' hk]

theorem keysOf_insertKey (m : EdgeMap) (k : ℕ) :
    List.Perm (keysOf (insertKey m k)) (k :: keysOf m) := by
  induction m with
  | nil => simp [insertKey]
  | cons p rest ih =>
    by_cases hlt : k < p.1
    · simp [insertKey, hlt]
    · simp only [insertKey, if_neg hlt, keysOf_cons]
      exact (ih.cons p.1).trans (List.Perm.swap k p.1 (keysOf rest))

theorem keysOf_mapIndex (m : EdgeMap) (k : ℕ) :
    List.Perm (keysOf (mapIndex m k).2) (if k ∈ keysOf m then keysOf m else k :: keysOf m) := by
  unfold mapIndex
  by_cases h : k ∈ keysOf m
  · simp [(mapIndex_mem_iff m k).mpr h, h]
  · have : ¬ (m.any (fun p => p.1 = k) = true) := fun ha => h ((mapIndex_mem_iff m k).mp ha)
    simp only [this, if_neg h, if_false]
    simpa using keysOf_insertKey m k

theorem nodup_keysOf_mapIndex (m : EdgeMap) (k : ℕ) (h : (keysOf m).Nodup) :
    (keysOf (mapIndex m k).2).Nodup := by
  have hp := keysOf_mapIndex m k
  by_cases hk : k ∈ keysOf m
  · rw [if_pos hk] at hp
    exact hp.nodup_iff.mpr h
  · rw [if_neg hk] at hp
    exact hp.nodup_iff.mpr (List.Nodup.cons hk h)

theorem mapFind_growKeys (ks : List ℕ) (m : EdgeMap) (k : ℕ) :
    mapFind (growKeys m ks) k = mapFind m k := by
  induction ks generalizing m with
  | nil => rfl
  | cons k0 rest ih => simp [growKeys, ih, mapFind_mapIndex]

theorem nodup_keysOf_growKeys (ks : List ℕ) (m : EdgeMap) (h : (keysOf m).Nodup) :
    (keysOf (growKeys m ks)).Nodup := by
  induction ks generalizing m with
  | nil => exact h
  | cons k0 rest ih => exact ih _ (nodup_keysOf_mapIndex m k0 h)

theorem toFinset_keysOf_mapIndex (m : EdgeMap) (k : ℕ) :
    (keysOf (mapIndex m k).2).toFinset = insert k (keysOf m).toFinset := by
  have hp := keysOf_mapIndex m k
  by_cases hk : k ∈ keysOf m
  · rw [if_pos hk] at hp
    rw [List.toFinset_eq_of_perm _ _ hp]
    exact (Finset.insert_eq_self.mpr (List.mem_toFinset.mpr hk)).symm
  · rw [if_neg hk] at hp
    rw [List.toFinset_eq_of_perm _ _ hp]
    simp

theorem toFinset_keysOf_growKeys (ks : List ℕ) (m : EdgeMap) :
    (keysOf (growKeys m ks)).toFinset = (keysOf m).toFinset ∪ ks.toFinset := by
  induction ks generalizing m with
  | nil => simp [growKeys]
  | cons k0 rest ih =>
    simp only [growKeys, ih, toFinset_keysOf_mapIndex, List.toFinset_cons]
    ext x
    simp [or_comm, or_left_comm]

theorem entropyLoop_spec (deg : ℕ → ℝ) (sign : ℤ) (mp mps : ℝ)
    (l : List (ℕ × ℕ)) (a b : ℝ) (m : EdgeMap) :
    entropyLoop deg sign mp mps l (a, b, m) =
      (a + (l.map (fun p => edgeEntropyTerm deg mp (p.2 : ℝ) p.1)).sum,
       b + (l.map (fun p =>
          edgeEntropyTerm deg mps
            ((p.2 : ℝ) + ((sign * (mapFind m p.1 : ℤ) : ℤ) : ℝ)) p.1)).sum,
       growKeys m (l.map Prod.fst)) := by
  induction l generalizing a b m with
  | nil => simp [entropyLoop, growKeys]
  | cons p rest ih =>
    obtain ⟨t, c⟩ := p
    show entropyLoop deg sign mp mps ((t, c) :: rest) (a, b, m) = _
    rw [entropyLoop]
    rw [ih]
    simp only [process_group_pair, mapIndex_fst, mapFind_mapIndex, growKeys,
      List.map_cons, List.sum_cons, edgeEntropyTerm, Prod.mk.injEq]
    exact ⟨by ring, by ring, trivial⟩

theorem foldl_add_eq_sum (f : ℕ × ℕ → ℝ) (l : List (ℕ × ℕ)) (c : ℝ) :
    l.foldl (fun a p => a + f p) c = c + (l.map f).sum := by
  induction l generalizing c with
  | nil => simp
  | cons p rest ih => simp [ih]; ring

theorem mapFind_eq_of_mem (l : EdgeMap) (h : (keysOf l).Nodup) (p : ℕ × ℕ)
    (hp : p ∈ l) : mapFind l p.1 = p.2 := by
  induction l with
  | nil => cases hp
  | cons q rest ih =>
    rcases List.mem_cons.mp hp with h1 | h1
    · subst h1
      simp [mapFind]
    · have hq : ¬ q.1 = p.1 := by
        intro he
        have : p.1 ∈ keysOf rest := List.mem_map.mpr ⟨p, h1, rfl⟩
        rw [← he] at this
        exact (List.nodup_cons.mp h).1 this
      simp only [mapFind, if_neg hq]
      exact ih (List.nodup_cons.mp h).2 h1

theorem sum_entries_eq_sum_keys (l : EdgeMap) (h : (keysOf l).Nodup) (f : ℕ → ℝ → ℝ) :
    (l.map (fun p => f p.1 (p.2 : ℝ))).sum
      = ∑ t ∈ (keysOf l).toFinset, f t (mapFind l t : ℝ) := by
  have h1 : (l.map (fun p => f p.1 (p.2 : ℝ)))
      = ((keysOf l).map (fun t => f t (mapFind l t : ℝ))) := by
    rw [keysOf, List.map_map]
    apply List.map_congr_left
    intro p hp
    simp [mapFind_eq_of_mem l h p hp]
  rw [h1, (List.sum_toFinset _ h).symm]

/-- Closed form of the two entropy loops of `make_proposal_decision`: the
returned delta is the sum of guarded (post − pre) edge-entropy terms over the
old group's and the new group's connection maps. -/
theorem entropy_delta_eq_sum_aux (BETA EPS : ℝ) (deg : ℕ → ℝ) (node_degree : ℝ)
    (old_id new_id : ℕ) (node_edges old_group_edges new_group_edges : EdgeMap)
    (hold : (keysOf old_group_edges).Nodup) (hnew : (keysOf new_group_edges).Nodup) :
    (make_proposal_decision BETA EPS deg node_degree old_id new_id
        node_edges old_group_edges new_group_edges).entropy_delta =
      (∑ t ∈ (keysOf old_group_edges).toFinset,
        (edgeEntropyTerm deg (deg old_id - node_degree)
            ((mapFind old_group_edges t : ℝ) - (mapFind node_edges t : ℝ)) t
          - edgeEntropyTerm deg (deg old_id) (mapFind old_group_edges t : ℝ) t))
      + (∑ t ∈ (keysOf new_group_edges).toFinset,
        (edgeEntropyTerm deg (deg new_id + node_degree)
            ((mapFind new_group_edges t : ℝ) + (mapFind node_edges t : ℝ)) t
          - edgeEntropyTerm deg (deg new_id) (mapFind new_group_edges t : ℝ) t)) := by
  simp only [make_proposal_decision]
  rw [entropyLoop_spec, entropyLoop_spec]
  simp only [mapFind_growKeys]
  push_cast
  simp only [neg_mul, one_mul, ← sub_eq_add_neg]
  have h1 := sum_entries_eq_sum_keys old_group_edges hold
    (fun t c => edgeEntropyTerm deg (deg old_id) c t)
  have h2 := sum_entries_eq_sum_keys old_group_edges hold
    (fun t c => edgeEntropyTerm deg (deg old_id - node_degree)
      (c - (mapFind node_edges t : ℝ)) t)
  have h3 := sum_entries_eq_sum_keys new_group_edges hnew
    (fun t c => edgeEntropyTerm deg (deg new_id) c t)
  have h4 := sum_entries_eq_sum_keys new_group_edges hnew
    (fun t c => edgeEntropyTerm deg (deg new_id + node_degree)
      (c + (mapFind node_edges t : ℝ)) t)
  simp only [h1, h2, h3, h4, Finset.sum_sub_distrib]
  ring

theorem ite_gt_one_eq_min (x : ℝ) : (if x > 1 then 1 else x) = min 1 x := by
  by_cases h : x > 1
  · rw [if_pos h, min_eq_left h.le]
  · rw [if_neg h, min_eq_right (not_lt.mp h)]

/-- Closed form of `make_proposal_decision`'s ratio loop and `> 1` cap. -/
theorem prob_of_accept_eq_min_aux (BETA EPS : ℝ) (deg : ℕ → ℝ)
    (node_degree : ℝ) (old_id new_id : ℕ)
    (node_edges old_group_edges new_group_edges : EdgeMap)
    (hne : (keysOf node_edges).Nodup) :
    (make_proposal_decision BETA EPS deg node_degree old_id new_id
        node_edges old_group_edges new_group_edges).prob_of_accept =
      min 1 (Real.exp (BETA *
          (make_proposal_decision BETA EPS deg node_degree old_id new_id
            node_edges old_group_edges new_group_edges).entropy_delta) *
        ((∑ t ∈ (keysOf node_edges).toFinset ∪ (keysOf old_group_edges).toFinset
              ∪ (keysOf new_group_edges).toFinset,
            ((mapFind old_group_edges t : ℝ) + EPS)) /
         (∑ t ∈ (keysOf node_edges).toFinset ∪ (keysOf old_group_edges).toFinset
              ∪ (keysOf new_group_edges).toFinset,
            ((mapFind new_group_edges t : ℝ) + EPS)))) := by
  have hm1 : (keysOf (growKeys node_edges (keysOf old_group_edges))).Nodup :=
    nodup_keysOf_growKeys _ _ hne
  have hm2 : (keysOf (growKeys (growKeys node_edges (keysOf old_group_edges))
      (keysOf new_group_edges))).Nodup := nodup_keysOf_growKeys _ _ hm1
  have hfin : (keysOf (growKeys (growKeys node_edges (keysOf old_group_edges))
        (keysOf new_group_edges))).toFinset
      = (keysOf node_edges).toFinset ∪ (keysOf old_group_edges).toFinset
          ∪ (keysOf new_group_edges).toFinset := by
    rw [toFinset_keysOf_growKeys, toFinset_keysOf_growKeys]
  have hpre := sum_entries_eq_sum_keys
    (growKeys (growKeys node_edges (keysOf old_group_edges)) (keysOf new_group_edges))
    hm2 (fun t _ => (mapFind old_group_edges t : ℝ) + EPS)
  have hpost := sum_entries_eq_sum_keys
    (growKeys (growKeys node_edges (keysOf old_group_edges)) (keysOf new_group_edges))
    hm2 (fun t _ => (mapFind new_group_edges t : ℝ) + EPS)
  rw [hfin] at hpre hpost
  simp only [make_proposal_decision]
  rw [entropyLoop_spec, entropyLoop_spec]
  rw [foldl_add_eq_sum (fun p => (mapFind old_group_edges p.1 : ℝ) + EPS),
    foldl_add_eq_sum (fun p => (mapFind new_group_edges p.1 : ℝ) + EPS)]
  simp only [zero_add]
  rw [show (List.map Prod.fst old_group_edges) = keysOf old_group_edges from rfl,
    show (List.map Prod.fst new_group_edges) = keysOf new_group_edges from rfl]
  rw [hpre, hpost, ite_gt_one_eq_min]

/-- Concrete proposal instance: the 4-cycle a–b–c–d–a partitioned into blocks
m = {a,b} (key 0, degree 4), {c} (key 1, degree 2), {d} (key 2, degree 2),
moving node c (degree 2) from its singleton block into m.  The returned
entropy delta is exactly `ln(16/27)`. -/
theorem cex_entropy_delta_value :
    (make_proposal_decision 1 (1/10) (fun t => if t = 0 then 4 else 2) 2 1 0
        [(0,1),(2,1)] [(0,1),(2,1)] [(0,2),(1,1),(2,1)]).entropy_delta
      = Real.log (16/27) := by
  rw [entropy_delta_eq_sum_aux 1 (1/10) (fun t => if t = 0 then 4 else 2) 2 1 0
    [(0,1),(2,1)] [(0,1),(2,1)] [(0,2),(1,1),(2,1)] (by decide) (by decide)]
  norm_num [edgeEntropyTerm, mapFind, keysOf, Finset.sum_insert, List.toFinset_cons]
  have l4 : Real.log ((1:ℝ)/4) = -(2 * Real.log 2) := by
    rw [one_div, Real.log_inv, show (4:ℝ) = 2^2 by norm_num, Real.log_pow]
    push_cast
    ring
  have l8 : Real.log ((1:ℝ)/8) = -(3 * Real.log 2) := by
    rw [one_div, Real.log_inv, show (8:ℝ) = 2^3 by norm_num, Real.log_pow]
    push_cast
    ring
  have l6 : Real.log ((1:ℝ)/6) = -(Real.log 2 + Real.log 3) := by
    rw [one_div, Real.log_inv, show (6:ℝ) = 2*3 by norm_num,
      Real.log_mul (by norm_num) (by norm_num)]
  have l12 : Real.log ((1:ℝ)/12) = -(2 * Real.log 2 + Real.log 3) := by
    rw [one_div, Real.log_inv, show (12:ℝ) = 2^2*3 by norm_num,
      Real.log_mul (by positivity) (by norm_num), Real.log_pow]
    push_cast
    ring
  have lr : Real.log ((16:ℝ)/27) = 4 * Real.log 2 - 3 * Real.log 3 := by
    rw [Real.log_div (by norm_num) (by norm_num), show (16:ℝ) = 2^4 by norm_num,
      show (27:ℝ) = 3^3 by norm_num, Real.log_pow, Real.log_pow]
    push_cast
    ring
  rw [l4, l8, l12, l6, lr]
  ring

/-- C2: for every proposed move of a node from block `old_id` to `new_id`,
the entropy delta returned by `make_proposal_decision` equals the sum of
(post − pre) edge-entropy contributions over exactly the block pairs
(t, old) for t a neighbor block of the old group and (t, new) for t a
neighbor block of the new group, where pre uses `e_rt` (resp. `e_st`) with
the pre-move block degrees and post uses `e_rt − n_t` with `e_r − d_v`
(resp. `e_st + n_t` with `e_s + d_v`); every term whose edge count is zero
contributes exactly `0` (the `count > 0` guard inside `edgeEntropyTerm`), so
the logarithm is never evaluated at `0`. -/
theorem make_proposal_decision_entropy_delta_spec (BETA EPS : ℝ) (deg : ℕ → ℝ)
    (node_degree : ℝ) (old_id new_id : ℕ)
    (node_edges old_group_edges new_group_edges : EdgeMap)
    (hold : (keysOf old_group_edges).Nodup) (hnew : (keysOf new_group_edges).Nodup) :
    (make_proposal_decision BETA EPS deg node_degree old_id new_id
        node_edges old_group_edges new_group_edges).entropy_delta =
      (∑ t ∈ (keysOf old_group_edges).toFinset,
        (edgeEntropyTerm deg (deg old_id - node_degree)
            ((mapFind old_group_edges t : ℝ) - (mapFind node_edges t : ℝ)) t
          - edgeEntropyTerm deg (deg old_id) (mapFind old_group_edges t : ℝ) t))
      + (∑ t ∈ (keysOf new_group_edges).toFinset,
        (edgeEntropyTerm deg (deg new_id + node_degree)
            ((mapFind new_group_edges t : ℝ) + (mapFind node_edges t : ℝ)) t
          - edgeEntropyTerm deg (deg new_id) (mapFind new_group_edges t : ℝ) t)) :=
  entropy_delta_eq_sum_aux BETA EPS deg node_degree old_id new_id
    node_edges old_group_edges new_group_edges hold hnew

/-- Witness for `make_proposal_decision_entropy_delta_spec` at the concrete
4-cycle instance of `cex_entropy_delta_value`. -/
theorem make_proposal_decision_entropy_delta_spec_witness :
    ((keysOf ([(0,1),(2,1)] : EdgeMap)).Nodup
      ∧ (keysOf ([(0,2),(1,1),(2,1)] : EdgeMap)).Nodup)
    ∧ (make_proposal_decision 1 (1/10) (fun t => if t = 0 then 4 else 2) 2 1 0
        [(0,1),(2,1)] [(0,1),(2,1)] [(0,2),(1,1),(2,1)]).entropy_delta =
      (∑ t ∈ (keysOf ([(0,1),(2,1)] : EdgeMap)).toFinset,
        (edgeEntropyTerm (fun t => if t = 0 then 4 else 2) ((fun t => if t = 0 then (4:ℝ) else 2) 1 - 2)
            ((mapFind [(0,1),(2,1)] t : ℝ) - (mapFind [(0,1),(2,1)] t : ℝ)) t
          - edgeEntropyTerm (fun t => if t = 0 then 4 else 2) ((fun t => if t = 0 then (4:ℝ) else 2) 1) (mapFind [(0,1),(2,1)] t : ℝ) t))
      + (∑ t ∈ (keysOf ([(0,2),(1,1),(2,1)] : EdgeMap)).toFinset,
        (edgeEntropyTerm (fun t => if t = 0 then 4 else 2) ((fun t => if t = 0 then (4:ℝ) else 2) 0 + 2)
            ((mapFind [(0,2),(1,1),(2,1)] t : ℝ) + (mapFind [(0,1),(2,1)] t : ℝ)) t
          - edgeEntropyTerm (fun t => if t = 0 then 4 else 2) ((fun t => if t = 0 then (4:ℝ) else 2) 0) (mapFind [(0,2),(1,1),(2,1)] t : ℝ) t)) :=
  ⟨⟨by decide, by decide⟩,
    make_proposal_decision_entropy_delta_spec 1 (1/10)
      (fun t => if t = 0 then 4 else 2) 2 1 0
      [(0,1),(2,1)] [(0,1),(2,1)] [(0,2),(1,1),(2,1)] (by decide) (by decide)⟩

/-- C1 (counterexample): at the concrete 4-cycle instance of
`cex_entropy_delta_value`, the acceptance probability returned by
`make_proposal_decision` is *not* `min(1, exp(BETA·ΔS) · P_ratio)` with
`P_ratio = (Σ_t n_t·(e_rt+EPS)) / (Σ_t n_t·(e_st+EPS))` summed over the
node's neighbor blocks, as the claim states: the code's ratio loop neither
weights by `n_t` nor restricts the sum to the node's neighbor blocks.  Here
the code returns `(16/27)·(23/43)` while the claimed formula gives `11/27`. -/
theorem make_proposal_decision_weighted_ratio_false :
    (make_proposal_decision 1 (1/10) (fun t => if t = 0 then 4 else 2) 2 1 0
        [(0,1),(2,1)] [(0,1),(2,1)] [(0,2),(1,1),(2,1)]).prob_of_accept ≠
      min 1 (Real.exp (1 *
          (make_proposal_decision 1 (1/10) (fun t => if t = 0 then 4 else 2) 2 1 0
            [(0,1),(2,1)] [(0,1),(2,1)] [(0,2),(1,1),(2,1)]).entropy_delta) *
        ((∑ t ∈ (keysOf [(0,1),(2,1)]).toFinset,
            ((mapFind [(0,1),(2,1)] t : ℝ) * ((mapFind [(0,1),(2,1)] t : ℝ) + 1/10))) /
         (∑ t ∈ (keysOf [(0,1),(2,1)]).toFinset,
            ((mapFind [(0,1),(2,1)] t : ℝ) * ((mapFind [(0,2),(1,1),(2,1)] t : ℝ) + 1/10))))) := by
  rw [prob_of_accept_eq_min_aux 1 (1/10) (fun t => if t = 0 then 4 else 2) 2 1 0
    [(0,1),(2,1)] [(0,1),(2,1)] [(0,2),(1,1),(2,1)] (by decide)]
  rw [cex_entropy_delta_value, one_mul, Real.exp_log (by norm_num : (0:ℝ) < 16/27)]
  norm_num [keysOf, mapFind, Finset.sum_insert, List.toFinset_cons]

/-- C1 (amended): the acceptance probability returned by
`make_proposal_decision` is `min(1, exp(BETA·ΔS) · P_ratio)` where `P_ratio`
is the quotient of `Σ_t (e_rt + EPS)` by `Σ_t (e_st + EPS)`; the sums run
over the *union* of the node's neighbor blocks with the old group's and the
new group's neighbor blocks (the entropy loops' `operator[]` reads grow
`node_edges` with zero entries before the ratio loop iterates it), and no
summand is weighted by `n_t`.  The result is capped at 1. -/
theorem make_proposal_decision_acceptance_formula (BETA EPS : ℝ) (deg : ℕ → ℝ)
    (node_degree : ℝ) (old_id new_id : ℕ)
    (node_edges old_group_edges new_group_edges : EdgeMap)
    (hne : (keysOf node_edges).Nodup) :
    (make_proposal_decision BETA EPS deg node_degree old_id new_id
        node_edges old_group_edges new_group_edges).prob_of_accept =
      min 1 (Real.exp (BETA *
          (make_proposal_decision BETA EPS deg node_degree old_id new_id
            node_edges old_group_edges new_group_edges).entropy_delta) *
        ((∑ t ∈ (keysOf node_edges).toFinset ∪ (keysOf old_group_edges).toFinset
              ∪ (keysOf new_group_edges).toFinset,
            ((mapFind old_group_edges t : ℝ) + EPS)) /
         (∑ t ∈ (keysOf node_edges).toFinset ∪ (keysOf old_group_edges).toFinset
              ∪ (keysOf new_group_edges).toFinset,
            ((mapFind new_group_edges t : ℝ) + EPS)))) :=
  prob_of_accept_eq_min_aux BETA EPS deg node_degree old_id new_id
    node_edges old_group_edges new_group_edges hne

/-- Witness for `make_proposal_decision_acceptance_formula` at the concrete
4-cycle instance. -/
theorem make_proposal_decision_acceptance_formula_witness :
    (keysOf ([(0,1),(2,1)] : EdgeMap)).Nodup
    ∧ (make_proposal_decision 1 (1/10) (fun t => if t = 0 then 4 else 2) 2 1 0
        [(0,1),(2,1)] [(0,1),(2,1)] [(0,2),(1,1),(2,1)]).prob_of_accept =
      min 1 (Real.exp (1 *
          (make_proposal_decision 1 (1/10) (fun t => if t = 0 then 4 else 2) 2 1 0
            [(0,1),(2,1)] [(0,1),(2,1)] [(0,2),(1,1),(2,1)]).entropy_delta) *
        ((∑ t ∈ (keysOf ([(0,1),(2,1)] : EdgeMap)).toFinset
              ∪ (keysOf ([(0,1),(2,1)] : EdgeMap)).toFinset
              ∪ (keysOf ([(0,2),(1,1),(2,1)] : EdgeMap)).toFinset,
            ((mapFind [(0,1),(2,1)] t : ℝ) + 1/10)) /
         (∑ t ∈ (keysOf ([(0,1),(2,1)] : EdgeMap)).toFinset
              ∪ (keysOf ([(0,1),(2,1)] : EdgeMap)).toFinset
              ∪ (keysOf ([(0,2),(1,1),(2,1)] : EdgeMap)).toFinset,
            ((mapFind [(0,2),(1,1),(2,1)] t : ℝ) + 1/10)))) :=
  ⟨by decide,
    make_proposal_decision_acceptance_formula 1 (1/10)
      (fun t => if t = 0 then 4 else 2) 2 1 0
      [(0,1),(2,1)] [(0,1),(2,1)] [(0,2),(1,1),(2,1)] (by decide)⟩

/-- C7 (counterexample): with B = 10 groups, target 1 and SIGMA = 3/2, the
collapse loop requests `int(10 - 10/1.5) = 3` merges, not
`max(1, 10 - ⌊10/1.5⌋) = 4` as the claim's formula states: the C++ cast
truncates the whole difference `B - B/σ`, it does not subtract a floored
quotient. -/
theorem collapse_merge_count_claim_false :
    merges_for 10 1 (3/2) ≠
      (if (10:ℤ) - (max 1 ((10:ℤ) - Int.floor ((10:ℚ)/(3/2)))) < 1 then 10 - 1
       else max 1 ((10:ℤ) - Int.floor ((10:ℚ)/(3/2)))) := by
  have h6 : Int.floor ((10:ℚ)/(3/2)) = 6 := by
    rw [show (10:ℚ)/(3/2) = 20/3 by norm_num, Int.floor_eq_iff]
    norm_num
  have h3 : Int.floor ((10:ℚ) - (10:ℚ)/(3/2)) = 3 := by
    rw [show (10:ℚ) - (10:ℚ)/(3/2) = 10/3 by norm_num, Int.floor_eq_iff]
    norm_num
  simp only [merges_for, cppIntOfRat, h6, h3]
  norm_num

/-- C7 (amended): in every iteration of the collapse loop with current block
count B above the target, the number of merges requested equals
`max(1, ⌊B − B/SIGMA⌋)` (the truncation applies to the whole difference),
further reduced if necessary so that B minus the requested merges does not
fall below the desired number of blocks. -/
theorem collapse_merge_count_amended (B desired : ℤ) (σ : ℚ) (h1 : 1 < σ)
    (h2 : desired < B) (h0 : 0 ≤ desired) :
    merges_for B desired σ =
      (if B - (max 1 (Int.floor ((B:ℚ) - (B:ℚ)/σ))) < desired then B - desired
       else max 1 (Int.floor ((B:ℚ) - (B:ℚ)/σ))) := by
  have hB : (0:ℚ) ≤ (B:ℚ) := by
    have : (0:ℤ) ≤ B := le_trans h0 h2.le
    exact_mod_cast this
  have hq : (0:ℚ) ≤ (B:ℚ) - (B:ℚ)/σ := by
    have := div_le_self hB h1.le
    linarith
  have hmax : (if Int.floor ((B:ℚ) - (B:ℚ)/σ) < 1 then (1:ℤ)
      else Int.floor ((B:ℚ) - (B:ℚ)/σ)) = max 1 (Int.floor ((B:ℚ) - (B:ℚ)/σ)) := by
    by_cases h : Int.floor ((B:ℚ) - (B:ℚ)/σ) < 1
    · rw [if_pos h, max_eq_left h.le]
    · rw [if_neg h, max_eq_right (not_lt.mp h)]
  simp only [merges_for, cppIntOfRat, if_neg (not_lt.mpr hq), hmax]

/-- Witness for `collapse_merge_count_amended` at B = 10, target 1,
SIGMA = 3/2. -/
theorem collapse_merge_count_amended_witness :
    ((1:ℚ) < 3/2 ∧ (1:ℤ) < 10 ∧ (0:ℤ) ≤ 1)
    ∧ merges_for 10 1 (3/2) =
      (if (10:ℤ) - (max 1 (Int.floor ((10:ℚ) - (10:ℚ)/(3/2)))) < 1 then 10 - 1
       else max 1 (Int.floor ((10:ℚ) - (10:ℚ)/(3/2)))) :=
  ⟨⟨by norm_num, by norm_num, by norm_num⟩,
    collapse_merge_count_amended 10 1 (3/2) (by norm_num) (by norm_num) (by norm_num)⟩

theorem cons_getD_eraseIdx_perm {α : Type} (l : List α) (j : ℕ) (hj : j < l.length) (x : α) :
    List.Perm ((l.getD j x) :: l.eraseIdx j) l := by
  induction l generalizing j with
  | nil => cases hj
  | cons y ys ih =>
    cases j with
    | zero => simp
    | succ j =>
      simp only [List.getD_cons_succ, List.eraseIdx_cons_succ]
      have hj' : j < ys.length := Nat.lt_of_succ_lt_succ hj
      exact ((List.Perm.swap y (ys.getD j x) (ys.eraseIdx j)).trans
        ((ih j hj').cons y)).symm.symm

theorem shuffleAux_perm {α : Type} (fuel : ℕ) :
    ∀ (s : Sampler) (l : List α), l.length ≤ fuel →
      List.Perm (Sampler.shuffleAux fuel s l).1 l := by
  induction fuel with
  | zero =>
    intro s l hl
    rw [List.length_eq_zero.mp (Nat.le_zero.mp hl)]
    exact List.Perm.refl _
  | succ fuel ih =>
    intro s l hl
    match l with
    | [] => exact List.Perm.refl _
    | x :: xs =>
      rw [Sampler.shuffleAux]
      simp only
      have hj : s.next.1 % (xs.length + 1) < (x :: xs).length := by
        simp only [List.length_cons]
        exact Nat.mod_lt _ (Nat.succ_pos _)
      have hlen : ((x :: xs).eraseIdx (s.next.1 % (xs.length + 1))).length ≤ fuel := by
        rw [List.length_eraseIdx]
        simp only [List.length_cons] at hl hj ⊢
        rw [if_pos hj]
        omega
      have hperm := ih s.next.2 _ hlen
      exact (hperm.cons _).trans (cons_getD_eraseIdx_perm (x :: xs) _ hj x)

theorem shuffle_perm {α : Type} (s : Sampler) (l : List α) :
    List.Perm (s.shuffle l).1 l :=
  shuffleAux_perm l.length s l (le_refl _)

theorem shuffle_length {α : Type} (s : Sampler) (l : List α) :
    (s.shuffle l).1.length = l.length :=
  (shuffle_perm s l).length_eq

theorem count_range_mod (k j : ℕ) (hk : 0 < k) (hj : j < k) (n : ℕ) :
    (List.range n).countP (fun i => i % k = j)
      = n / k + (if j < n % k then 1 else 0) := by
  induction n with
  | zero => simp
  | succ n ihn =>
    rw [List.range_succ, List.countP_append, ihn]
    have hr : n % k < k := Nat.mod_lt _ hk
    have hd := Nat.div_add_mod n k
    simp only [List.countP_cons, List.countP_nil, decide_eq_true_eq, Nat.zero_add]
    by_cases hcase : n % k + 1 = k
    · have he : n + 1 = k * (n / k + 1) := by
        rw [Nat.mul_succ]
        omega
      have hmod : (n + 1) % k = 0 := by
        rw [he, Nat.mul_mod_right]
      have hdiv : (n + 1) / k = n / k + 1 := by
        rw [he, Nat.mul_div_cancel_left _ hk]
      rw [hmod, hdiv]
      split_ifs <;> omega
    · have h2 : n % k + 1 < k := by omega
      have he : n + 1 = k * (n / k) + (n % k + 1) := by omega
      have hmod : (n + 1) % k = n % k + 1 := by
        rw [he, Nat.mul_add_mod, Nat.mod_eq_of_lt h2]
      have hdiv : (n + 1) / k = n / k := by
        rw [he, Nat.mul_add_div hk, Nat.div_eq_of_lt h2, Nat.add_zero]
      rw [hmod, hdiv]
      split_ifs <;> omega

theorem childCount_mapIdx (l : List NNode) (c0 k j : ℕ) (hj : j < k) :
    childCountIn (l.mapIdx (fun i nd => { nd with parent := some (NId.blk (c0 + i % k)) }))
        (NId.blk (c0 + j))
      = l.length / k + (if j < l.length % k then 1 else 0) := by
  have hk : 0 < k := Nat.zero_lt_of_lt hj
  rw [childCountIn, ← List.countP_eq_length_filter, List.mapIdx_eq_enum_map,
    List.countP_map]
  have hcong : List.countP
      ((fun nd : NNode => decide (nd.parent = some (NId.blk (c0 + j)))) ∘
        Function.uncurry
          (fun i (nd : NNode) => { nd with parent := some (NId.blk (c0 + i % k)) }))
      l.enum
      = List.countP ((fun i : ℕ => decide (i % k = j)) ∘ Prod.fst) l.enum := by
    apply List.countP_congr
    intro a _
    obtain ⟨i, nd⟩ := a
    simp only [Function.comp_apply, Function.uncurry_apply_pair, Option.some.injEq,
      NId.blk.injEq, decide_eq_decide, Nat.add_right_inj, decide_eq_true_eq]
  rw [hcong, ← List.countP_map, List.enum_map_fst]
  exact count_range_mod k j hk hj l.length

theorem getD_set_self {α : Type} (l : List α) (i : ℕ) (a d : α) (h : i < l.length) :
    (l.set i a).getD i d = a := by
  rw [List.getD, List.get?_set_of_lt' a l h]
  simp

theorem getD_set_ne {α : Type} (l : List α) (i j : ℕ) (a d : α) (h : i ≠ j) :
    (l.set i a).getD j d = l.getD j d := by
  rw [List.getD, List.getD, List.get?_eq_getElem?, List.get?_eq_getElem?,
    List.getElem?_set_ne h]

theorem bucket_setBucket_same (net : SBM_Network) (ℓ t : ℕ) (b : List NNode)
    (hℓ : ℓ < net.nodes.length) (ht : t < (net.nodes.getD ℓ []).length) :
    (net.setBucket ℓ t b).bucket ℓ t = b := by
  simp only [SBM_Network.bucket, SBM_Network.setBucket]
  rw [getD_set_self _ _ _ _ hℓ]
  rw [getD_set_self _ _ _ _ ht]

theorem bucket_setBucket_other (net : SBM_Network) (ℓ t ℓ' t' : ℕ) (b : List NNode)
    (h : ℓ ≠ ℓ' ∨ t ≠ t') :
    (net.setBucket ℓ' t' b).bucket ℓ t = net.bucket ℓ t := by
  simp only [SBM_Network.bucket, SBM_Network.setBucket]
  rcases h with h | h
  · rw [getD_set_ne _ _ _ _ _ (fun he => h he.symm)]
  · by_cases hℓ : ℓ = ℓ'
    · subst hℓ
      by_cases hin : ℓ < net.nodes.length
      · rw [getD_set_self _ _ _ _ hin, getD_set_ne _ _ _ _ _ (fun he => h he.symm)]
      · have : net.nodes.set ℓ (((net.nodes.getD ℓ []).set t' b)) = net.nodes :=
          List.set_eq_of_length_le (by omega)
        rw [this]
    · rw [getD_set_ne _ _ _ _ _ (fun he => hℓ he.symm)]

theorem setBucket_nodes_length (net : SBM_Network) (ℓ' t' : ℕ) (b : List NNode) :
    (net.setBucket ℓ' t' b).nodes.length = net.nodes.length := by
  simp [SBM_Network.setBucket]

theorem setBucket_level_length (net : SBM_Network) (ℓ' t' : ℕ) (b : List NNode) (ℓ : ℕ) :
    ((net.setBucket ℓ' t' b).nodes.getD ℓ []).length = (net.nodes.getD ℓ []).length := by
  simp only [SBM_Network.setBucket]
  by_cases h : ℓ = ℓ'
  · subst h
    by_cases hin : ℓ < net.nodes.length
    · rw [getD_set_self _ _ _ _ hin]
      simp
    · have : net.nodes.set ℓ (((net.nodes.getD ℓ []).set t' b)) = net.nodes :=
        List.set_eq_of_length_le (by omega)
      rw [this]
  · rw [getD_set_ne _ _ _ _ _ (fun he => h he.symm)]


theorem bucket_with_sampler (net : SBM_Network) (v : Sampler) (ℓ t : ℕ) :
    SBM_Network.bucket { net with random_sampler := v } ℓ t = net.bucket ℓ t := rfl

theorem bucket_with_counter (net : SBM_Network) (c : ℕ) (ℓ t : ℕ) :
    SBM_Network.bucket { net with block_counter := c } ℓ t = net.bucket ℓ t := rfl

theorem setBucket_with_counter (net : SBM_Network) (c : ℕ) (ℓ t : ℕ) (b : List NNode) :
    SBM_Network.setBucket { net with block_counter := c } ℓ t b
      = { net.setBucket ℓ t b with block_counter := c } := rfl

theorem nodes_with_sampler (net : SBM_Network) (v : Sampler) :
    ({ net with random_sampler := v } : SBM_Network).nodes = net.nodes := rfl

theorem nodes_with_counter (net : SBM_Network) (c : ℕ) :
    ({ net with block_counter := c } : SBM_Network).nodes = net.nodes := rfl

theorem setBucket_sampler (net : SBM_Network) (ℓ t : ℕ) (b : List NNode) :
    (net.setBucket ℓ t b).random_sampler = net.random_sampler := rfl

theorem init_blocks_type_ok_spec (cl bl : ℕ) (one : Bool) (k : ℤ)
    (net net' : SBM_Network) (t : ℕ)
    (hok : SBM_Network.init_blocks_type cl bl one k net t = .ok net')
    (hbl : bl < net.nodes.length) (htbl : t < (net.nodes.getD bl []).length)
    (hcl : cl < net.nodes.length) (htcl : t < (net.nodes.getD cl []).length)
    (hclbl : cl ≠ bl) :
    (¬ ((if one then ((net.bucket cl t).length : ℤ) else k)
        > ((net.bucket cl t).length : ℤ)))
    ∧ net'.bucket bl t = (List.range
          ((if one then ((net.bucket cl t).length : ℤ) else k).toNat)).map
        (fun i => (⟨NId.blk (net.block_counter + i), bl, t, none⟩ : NNode))
    ∧ net'.bucket cl t = ((if one then (net.bucket cl t, net.random_sampler)
          else net.random_sampler.shuffle (net.bucket cl t)).1).mapIdx
        (fun i nd => { nd with parent := some (NId.blk (net.block_counter
          + (i % (if one then ((net.bucket cl t).length : ℤ) else k).toNat))) })
    ∧ net'.block_counter = net.block_counter
        + ((if one then ((net.bucket cl t).length : ℤ) else k).toNat)
    ∧ (∀ ℓ t', (ℓ ≠ bl ∨ t' ≠ t) → (ℓ ≠ cl ∨ t' ≠ t)
        → net'.bucket ℓ t' = net.bucket ℓ t')
    ∧ net'.nodes.length = net.nodes.length
    ∧ (∀ ℓ, (net'.nodes.getD ℓ []).length = (net.nodes.getD ℓ []).length) := by
  rw [SBM_Network.init_blocks_type] at hok
  simp only at hok
  by_cases hchk : (if one then ((net.bucket cl t).length : ℤ) else k)
      > ((net.bucket cl t).length : ℤ)
  · rw [if_pos hchk] at hok
    cases hok
  · rw [if_neg hchk] at hok
    have hnet' := (Except.ok.injEq _ _).mp hok.symm
    subst hnet'
    refine ⟨hchk, ?_, ?_, ?_, ?_, ?_, ?_⟩
    · rw [bucket_with_sampler, setBucket_with_counter, bucket_with_counter,
        bucket_setBucket_other _ _ _ _ _ _ (Or.inl (Ne.symm hclbl)),
        bucket_setBucket_same _ _ _ _ hbl htbl]
    · rw [bucket_with_sampler, setBucket_with_counter, bucket_with_counter,
        bucket_setBucket_same _ _ _ _
          (by rw [setBucket_nodes_length]; exact hcl)
          (by rw [setBucket_level_length]; exact htcl)]
      simp only [setBucket_sampler]
    · rfl
    · intro ℓ t' h1 h2
      rw [bucket_with_sampler, setBucket_with_counter, bucket_with_counter,
        bucket_setBucket_other _ _ _ _ _ _ (h2.imp id id),
        bucket_setBucket_other _ _ _ _ _ _ (h1.imp id id)]
    · rw [nodes_with_sampler, setBucket_with_counter, nodes_with_counter,
        setBucket_nodes_length, setBucket_nodes_length]
    · intro ℓ
      rw [nodes_with_sampler, setBucket_with_counter, nodes_with_counter,
        setBucket_level_length, setBucket_level_length]


theorem init_blocks_type_error_spec (cl bl : ℕ) (one : Bool) (k : ℤ)
    (net : SBM_Network) (t : ℕ)
    (hchk : (if one then ((net.bucket cl t).length : ℤ) else k)
        > ((net.bucket cl t).length : ℤ)) :
    SBM_Network.init_blocks_type cl bl one k net t = .error .overprovisioned := by
  rw [SBM_Network.init_blocks_type]
  simp only
  rw [if_pos hchk]

theorem init_blocks_type_only_overprovisioned (cl bl : ℕ) (one : Bool) (k : ℤ)
    (net : SBM_Network) (t : ℕ) (e : SbmErr)
    (he : SBM_Network.init_blocks_type cl bl one k net t = .error e) :
    e = .overprovisioned := by
  rw [SBM_Network.init_blocks_type] at he
  simp only at he
  by_cases hchk : (if one then ((net.bucket cl t).length : ℤ) else k)
      > ((net.bucket cl t).length : ℤ)
  · rw [if_pos hchk] at he
    exact ((Except.error.injEq _ _).mp he).symm
  · rw [if_neg hchk] at he
    cases he


theorem fold_init_preserve (cl bl : ℕ) (one : Bool) (k : ℤ) (hclbl : cl ≠ bl) :
    ∀ (ts : List ℕ) (net net' : SBM_Network),
    (ts.foldlM (SBM_Network.init_blocks_type cl bl one k) net = .ok net') →
    (∀ t' ∈ ts, bl < net.nodes.length ∧ t' < (net.nodes.getD bl []).length ∧
        cl < net.nodes.length ∧ t' < (net.nodes.getD cl []).length) →
    (net'.nodes.length = net.nodes.length ∧
     (∀ ℓ, (net'.nodes.getD ℓ []).length = (net.nodes.getD ℓ []).length) ∧
     (∀ ℓ t, t ∉ ts → net'.bucket ℓ t = net.bucket ℓ t) ∧
     net.block_counter ≤ net'.block_counter ∧
     (∀ ℓ t, ℓ ≠ cl → ℓ ≠ bl → net'.bucket ℓ t = net.bucket ℓ t)) := by
  intro ts
  induction ts with
  | nil =>
    intro net net' hfold _
    simp only [List.foldlM_nil] at hfold
    cases hfold
    exact ⟨rfl, fun ℓ => rfl, fun ℓ t _ => rfl, le_refl _, fun ℓ t _ _ => rfl⟩
  | cons t0 rest ih =>
    intro net net' hfold hin
    rw [List.foldlM_cons] at hfold
    cases hstep : SBM_Network.init_blocks_type cl bl one k net t0 with
    | error e => rw [hstep] at hfold; cases hfold
    | ok n1 =>
      rw [hstep] at hfold
      have hfold2 : rest.foldlM (SBM_Network.init_blocks_type cl bl one k) n1
          = .ok net' := hfold
      have hin0 := hin t0 (List.mem_cons_self t0 rest)
      obtain ⟨-, -, -, hcnt, hpres, hlen, hlevlen⟩ :=
        init_blocks_type_ok_spec cl bl one k net n1 t0 hstep hin0.1 hin0.2.1
          hin0.2.2.1 hin0.2.2.2 hclbl
      have hin1 : ∀ t' ∈ rest, bl < n1.nodes.length ∧ t' < (n1.nodes.getD bl []).length ∧
          cl < n1.nodes.length ∧ t' < (n1.nodes.getD cl []).length := by
        intro t' ht'
        have := hin t' (List.mem_cons_of_mem t0 ht')
        exact ⟨hlen ▸ this.1, (hlevlen bl) ▸ this.2.1,
          hlen ▸ this.2.2.1, (hlevlen cl) ▸ this.2.2.2⟩
      obtain ⟨ihlen, ihlevlen, ihpres, ihcnt, ihprelv⟩ := ih n1 net' hfold2 hin1
      refine ⟨ihlen.trans hlen, fun ℓ => (ihlevlen ℓ).trans (hlevlen ℓ), ?_, ?_, ?_⟩
      · intro ℓ t ht
        have ht0 : t ≠ t0 := fun he => ht (he ▸ List.mem_cons_self t0 rest)
        have htr : t ∉ rest := fun he => ht (List.mem_cons_of_mem t0 he)
        rw [ihpres ℓ t htr, hpres ℓ t (Or.inr ht0) (Or.inr ht0)]
      · calc net.block_counter ≤ n1.block_counter := by omega
          _ ≤ net'.block_counter := ihcnt
      · intro ℓ t hℓcl hℓbl
        rw [ihprelv ℓ t hℓcl hℓbl, hpres ℓ t (Or.inl hℓbl) (Or.inl hℓcl)]


theorem fold_init_member (cl bl : ℕ) (one : Bool) (k : ℤ) (hclbl : cl ≠ bl) :
    ∀ (ts : List ℕ) (net net' : SBM_Network), ts.Nodup →
    (ts.foldlM (SBM_Network.init_blocks_type cl bl one k) net = .ok net') →
    (∀ t' ∈ ts, bl < net.nodes.length ∧ t' < (net.nodes.getD bl []).length ∧
        cl < net.nodes.length ∧ t' < (net.nodes.getD cl []).length) →
    ∀ t ∈ ts, ∃ c0 smp,
      net.block_counter ≤ c0 ∧
      ¬ ((if one then ((net.bucket cl t).length : ℤ) else k)
          > ((net.bucket cl t).length : ℤ)) ∧
      net'.bucket bl t = (List.range
          ((if one then ((net.bucket cl t).length : ℤ) else k).toNat)).map
        (fun i => (⟨NId.blk (c0 + i), bl, t, none⟩ : NNode)) ∧
      net'.bucket cl t = ((if one then (net.bucket cl t, smp)
          else Sampler.shuffle smp (net.bucket cl t)).1).mapIdx
        (fun i nd => { nd with parent := some (NId.blk (c0
          + (i % (if one then ((net.bucket cl t).length : ℤ) else k).toNat))) }) ∧
      c0 + ((if one then ((net.bucket cl t).length : ℤ) else k).toNat)
        ≤ net'.block_counter := by
  intro ts
  induction ts with
  | nil =>
    intro net net' _ _ _ t ht
    cases ht
  | cons t0 rest ih =>
    intro net net' hnd hfold hin t ht
    rw [List.foldlM_cons] at hfold
    cases hstep : SBM_Network.init_blocks_type cl bl one k net t0 with
    | error e => rw [hstep] at hfold; cases hfold
    | ok n1 =>
      rw [hstep] at hfold
      have hfold2 : rest.foldlM (SBM_Network.init_blocks_type cl bl one k) n1
          = .ok net' := hfold
      have hin0 := hin t0 (List.mem_cons_self t0 rest)
      obtain ⟨hchk, hblt, hclt, hcnt, hpres, hlen, hlevlen⟩ :=
        init_blocks_type_ok_spec cl bl one k net n1 t0 hstep hin0.1 hin0.2.1
          hin0.2.2.1 hin0.2.2.2 hclbl
      have hin1 : ∀ t' ∈ rest, bl < n1.nodes.length ∧ t' < (n1.nodes.getD bl []).length ∧
          cl < n1.nodes.length ∧ t' < (n1.nodes.getD cl []).length := by
        intro t' ht'
        have := hin t' (List.mem_cons_of_mem t0 ht')
        exact ⟨hlen ▸ this.1, (hlevlen bl) ▸ this.2.1,
          hlen ▸ this.2.2.1, (hlevlen cl) ▸ this.2.2.2⟩
      have ht0r : t0 ∉ rest := (List.nodup_cons.mp hnd).1
      rcases List.mem_cons.mp ht with he | hr
      · subst he
        obtain ⟨-, -, hprerest, hcntrest, -⟩ :=
          fold_init_preserve cl bl one k hclbl rest n1 net' hfold2 hin1
        exact ⟨net.block_counter, net.random_sampler, le_refl _, hchk,
          (hprerest bl t ht0r).trans hblt, (hprerest cl t ht0r).trans hclt,
          by omega⟩
      · have htne : t ≠ t0 := fun he => ht0r (he ▸ hr)
        obtain ⟨c0, smp, hc0, hchk', hbl', hcl', hcup'⟩ :=
          ih n1 net' (List.nodup_cons.mp hnd).2 hfold2 hin1 t hr
        have hbuck : n1.bucket cl t = net.bucket cl t :=
          hpres cl t (Or.inr htne) (Or.inr htne)
        rw [hbuck] at hchk' hbl' hcl' hcup'
        exact ⟨c0, smp, by omega, hchk', hbl', hcl', hcup'⟩


theorem init_blocks_type_ok_of_not (cl bl : ℕ) (one : Bool) (k : ℤ)
    (net : SBM_Network) (t : ℕ)
    (hchk : ¬ ((if one then ((net.bucket cl t).length : ℤ) else k)
        > ((net.bucket cl t).length : ℤ))) :
    ∃ n1, SBM_Network.init_blocks_type cl bl one k net t = .ok n1 := by
  rw [SBM_Network.init_blocks_type]
  simp only
  rw [if_neg hchk]
  exact ⟨_, rfl⟩

theorem fold_init_all_ok (cl bl : ℕ) (one : Bool) (k : ℤ) (hclbl : cl ≠ bl) :
    ∀ (ts : List ℕ) (net : SBM_Network), ts.Nodup →
    (∀ t' ∈ ts, bl < net.nodes.length ∧ t' < (net.nodes.getD bl []).length ∧
        cl < net.nodes.length ∧ t' < (net.nodes.getD cl []).length) →
    (∀ t ∈ ts, ¬ ((if one then ((net.bucket cl t).length : ℤ) else k)
        > ((net.bucket cl t).length : ℤ))) →
    ∃ net', ts.foldlM (SBM_Network.init_blocks_type cl bl one k) net = .ok net' := by
  intro ts
  induction ts with
  | nil =>
    intro net _ _ _
    exact ⟨net, rfl⟩
  | cons t0 rest ih =>
    intro net hnd hin hchk
    obtain ⟨n1, hstep⟩ := init_blocks_type_ok_of_not cl bl one k net t0
      (hchk t0 (List.mem_cons_self t0 rest))
    have hin0 := hin t0 (List.mem_cons_self t0 rest)
    obtain ⟨-, -, -, -, hpres, hlen, hlevlen⟩ :=
      init_blocks_type_ok_spec cl bl one k net n1 t0 hstep hin0.1 hin0.2.1
        hin0.2.2.1 hin0.2.2.2 hclbl
    have ht0r : t0 ∉ rest := (List.nodup_cons.mp hnd).1
    have hin1 : ∀ t' ∈ rest, bl < n1.nodes.length ∧ t' < (n1.nodes.getD bl []).length ∧
        cl < n1.nodes.length ∧ t' < (n1.nodes.getD cl []).length := by
      intro t' ht'
      have := hin t' (List.mem_cons_of_mem t0 ht')
      exact ⟨hlen ▸ this.1, (hlevlen bl) ▸ this.2.1,
        hlen ▸ this.2.2.1, (hlevlen cl) ▸ this.2.2.2⟩
    have hchk1 : ∀ t ∈ rest, ¬ ((if one then ((n1.bucket cl t).length : ℤ) else k)
        > ((n1.bucket cl t).length : ℤ)) := by
      intro t htr
      have htne : t ≠ t0 := fun he => ht0r (he ▸ htr)
      rw [hpres cl t (Or.inr htne) (Or.inr htne)]
      exact hchk t (List.mem_cons_of_mem t0 htr)
    obtain ⟨net', hrest⟩ := ih n1 (List.nodup_cons.mp hnd).2 hin1 hchk1
    refine ⟨net', ?_⟩
    rw [List.foldlM_cons, hstep]
    exact hrest

theorem fold_init_error (cl bl : ℕ) (one : Bool) (k : ℤ) (hclbl : cl ≠ bl) :
    ∀ (ts : List ℕ) (net : SBM_Network), ts.Nodup →
    (∀ t' ∈ ts, bl < net.nodes.length ∧ t' < (net.nodes.getD bl []).length ∧
        cl < net.nodes.length ∧ t' < (net.nodes.getD cl []).length) →
    (∃ t ∈ ts, ((if one then ((net.bucket cl t).length : ℤ) else k)
        > ((net.bucket cl t).length : ℤ))) →
    ts.foldlM (SBM_Network.init_blocks_type cl bl one k) net
      = .error .overprovisioned := by
  intro ts
  induction ts with
  | nil =>
    intro net _ _ hex
    obtain ⟨t, ht, -⟩ := hex
    cases ht
  | cons t0 rest ih =>
    intro net hnd hin hex
    cases hstep : SBM_Network.init_blocks_type cl bl one k net t0 with
    | error e =>
      have he := init_blocks_type_only_overprovisioned cl bl one k net t0 e hstep
      subst he
      rw [List.foldlM_cons, hstep]
      rfl
    | ok n1 =>
      have hin0 := hin t0 (List.mem_cons_self t0 rest)
      obtain ⟨hchk0, -, -, -, hpres, hlen, hlevlen⟩ :=
        init_blocks_type_ok_spec cl bl one k net n1 t0 hstep hin0.1 hin0.2.1
          hin0.2.2.1 hin0.2.2.2 hclbl
      have ht0r : t0 ∉ rest := (List.nodup_cons.mp hnd).1
      obtain ⟨t, ht, hchkt⟩ := hex
      have htr : t ∈ rest := by
        rcases List.mem_cons.mp ht with he | hr
        · exact absurd (he ▸ hchkt) hchk0
        · exact hr
      have htne : t ≠ t0 := fun he => ht0r (he ▸ htr)
      have hin1 : ∀ t' ∈ rest, bl < n1.nodes.length ∧ t' < (n1.nodes.getD bl []).length ∧
          cl < n1.nodes.length ∧ t' < (n1.nodes.getD cl []).length := by
        intro t' ht'
        have := hin t' (List.mem_cons_of_mem t0 ht')
        exact ⟨hlen ▸ this.1, (hlevlen bl) ▸ this.2.1,
          hlen ▸ this.2.2.1, (hlevlen cl) ▸ this.2.2.2⟩
      have hex1 : ∃ t ∈ rest, ((if one then ((n1.bucket cl t).length : ℤ) else k)
          > ((n1.bucket cl t).length : ℤ)) := by
        refine ⟨t, htr, ?_⟩
        rw [hpres cl t (Or.inr htne) (Or.inr htne)]
        exact hchkt
      rw [List.foldlM_cons, hstep]
      exact ih n1 (List.nodup_cons.mp hnd).2 hin1 hex1


theorem getD_append_lt {α : Type} (l l2 : List α) (i : ℕ) (d : α) (h : i < l.length) :
    (l ++ l2).getD i d = l.getD i d := by
  rw [List.getD, List.getD, List.get?_eq_getElem?, List.get?_eq_getElem?,
    List.getElem?_append, if_pos h]

theorem getD_append_length {α : Type} (l : List α) (x d : α) :
    (l ++ [x]).getD l.length d = x := by
  rw [List.getD, List.get?_eq_getElem?, List.getElem?_concat_length]
  rfl

theorem build_level_nodes (net : SBM_Network) :
    net.build_level.nodes = net.nodes ++ [List.replicate net.types.length []] := rfl

theorem bucket_build_level_lt (net : SBM_Network) (ℓ t : ℕ) (h : ℓ < net.nodes.length) :
    net.build_level.bucket ℓ t = net.bucket ℓ t := by
  simp only [SBM_Network.bucket, build_level_nodes, getD_append_lt _ _ _ _ h]


theorem initialize_blocks_round_robin_aux (net : SBM_Network) (k : ℕ) (hk : 1 ≤ k)
    (hL : 1 ≤ net.nodes.length)
    (hshape : (net.nodes.getD (net.nodes.length - 1) []).length = net.types.length) :
    ((∀ t, t < net.types.length →
        k ≤ (net.bucket (net.nodes.length - 1) t).length) →
      ∃ net', net.initialize_blocks (k : ℤ) = .ok net'
        ∧ net'.nodes.length = net.nodes.length + 1
        ∧ (∀ t, t < net.types.length →
            (net'.bucket net.nodes.length t).length = k
            ∧ ∀ b1 ∈ net'.bucket net.nodes.length t,
              ∀ b2 ∈ net'.bucket net.nodes.length t,
                childCountIn (net'.bucket (net.nodes.length - 1) t) b1.id
                  ≤ childCountIn (net'.bucket (net.nodes.length - 1) t) b2.id + 1))
    ∧ ((∃ t, t < net.types.length
          ∧ (net.bucket (net.nodes.length - 1) t).length < k) →
        net.initialize_blocks (k : ℤ) = .error .overprovisioned) := by
  have hone : (decide (((k : ℕ) : ℤ) = -1)) = false := by
    simp only [decide_eq_false_iff_not]
    omega
  have hclbl : net.nodes.length - 1 ≠ net.nodes.length := by omega
  have hblen : net.build_level.nodes.length = net.nodes.length + 1 := by
    rw [build_level_nodes]
    simp
  have hbl_getD : (net.build_level.nodes.getD net.nodes.length []).length
      = net.types.length := by
    rw [build_level_nodes, getD_append_length]
    simp
  have hcl_getD : (net.build_level.nodes.getD (net.nodes.length - 1) []).length
      = net.types.length := by
    rw [build_level_nodes, getD_append_lt _ _ _ _ (by omega), hshape]
  have hin : ∀ t' ∈ List.range net.types.length,
      net.nodes.length < net.build_level.nodes.length ∧
      t' < (net.build_level.nodes.getD net.nodes.length []).length ∧
      net.nodes.length - 1 < net.build_level.nodes.length ∧
      t' < (net.build_level.nodes.getD (net.nodes.length - 1) []).length := by
    intro t' ht'
    rw [List.mem_range] at ht'
    exact ⟨by omega, hbl_getD ▸ ht', by omega, hcl_getD ▸ ht'⟩
  have hbuck0 : ∀ t, net.build_level.bucket (net.nodes.length - 1) t
      = net.bucket (net.nodes.length - 1) t :=
    fun t => bucket_build_level_lt net _ t (by omega)
  constructor
  · intro hall
    have hchkall : ∀ t ∈ List.range net.types.length,
        ¬ ((if (decide (((k : ℕ) : ℤ) = -1)) then
            ((net.build_level.bucket (net.nodes.length - 1) t).length : ℤ)
          else (k : ℤ))
          > ((net.build_level.bucket (net.nodes.length - 1) t).length : ℤ)) := by
      intro t ht
      rw [List.mem_range] at ht
      rw [hone, hbuck0 t]
      simp only [Bool.false_eq_true, if_false, not_lt]
      exact_mod_cast hall t ht
    obtain ⟨net', hfold⟩ := fold_init_all_ok (net.nodes.length - 1) net.nodes.length
      (decide (((k : ℕ) : ℤ) = -1)) (k : ℤ) hclbl (List.range net.types.length)
      net.build_level (List.nodup_range _) hin hchkall
    obtain ⟨hlen', -, -, -, -⟩ := fold_init_preserve (net.nodes.length - 1)
      net.nodes.length (decide (((k : ℕ) : ℤ) = -1)) (k : ℤ) hclbl
      (List.range net.types.length) net.build_level net' hfold hin
    refine ⟨net', hfold, by omega, ?_⟩
    intro t ht
    obtain ⟨c0, smp, -, -, hblt, hclt, -⟩ := fold_init_member (net.nodes.length - 1)
      net.nodes.length (decide (((k : ℕ) : ℤ) = -1)) (k : ℤ) hclbl
      (List.range net.types.length) net.build_level net' (List.nodup_range _)
      hfold hin t (List.mem_range.mpr ht)
    rw [hone, hbuck0 t] at hblt hclt
    simp only [Bool.false_eq_true, if_false, Int.toNat_natCast] at hblt hclt
    constructor
    · rw [hblt]
      simp
    · intro b1 hb1 b2 hb2
      rw [hblt] at hb1 hb2
      obtain ⟨i1, hi1, hb1e⟩ := List.mem_map.mp hb1
      obtain ⟨i2, hi2, hb2e⟩ := List.mem_map.mp hb2
      rw [List.mem_range] at hi1 hi2
      have hid1 : b1.id = NId.blk (c0 + i1) := by rw [← hb1e]
      have hid2 : b2.id = NId.blk (c0 + i2) := by rw [← hb2e]
      rw [hid1, hid2, hclt]
      rw [childCount_mapIdx _ c0 k i1 hi1, childCount_mapIdx _ c0 k i2 hi2]
      split_ifs <;> omega
  · intro hex
    obtain ⟨t, ht, hlt⟩ := hex
    have := fold_init_error (net.nodes.length - 1) net.nodes.length
      (decide (((k : ℕ) : ℤ) = -1)) (k : ℤ) hclbl (List.range net.types.length)
      net.build_level (List.nodup_range _) hin
      ⟨t, List.mem_range.mpr ht, by
        rw [hone, hbuck0 t]
        simp only [Bool.false_eq_true, if_false]
        exact_mod_cast hlt⟩
    exact this


/-- C3 (amended): for `SBM_Network::initialize_blocks(k)` with `k ≥ 1` the
claim holds as stated: when every type has at least `k` nodes the call
succeeds, appends a fresh top level, creates exactly `k` blocks per type
there and assigns the shuffled children round-robin, so any two same-type
blocks end with child counts differing by at most 1; when some type has
fewer than `k` nodes the call fails (`LOGIC_ERROR`, the spec's
`Overprovisioned`).  The `Network::initialize_blocks` overload of
Network.cpp cited alongside does *not* behave this way (see the
counterexample). -/
theorem initialize_blocks_round_robin (net : SBM_Network) (k : ℕ) (hk : 1 ≤ k)
    (hL : 1 ≤ net.nodes.length)
    (hshape : (net.nodes.getD (net.nodes.length - 1) []).length = net.types.length) :
    ((∀ t, t < net.types.length →
        k ≤ (net.bucket (net.nodes.length - 1) t).length) →
      ∃ net', net.initialize_blocks (k : ℤ) = .ok net'
        ∧ net'.nodes.length = net.nodes.length + 1
        ∧ (∀ t, t < net.types.length →
            (net'.bucket net.nodes.length t).length = k
            ∧ ∀ b1 ∈ net'.bucket net.nodes.length t,
              ∀ b2 ∈ net'.bucket net.nodes.length t,
                childCountIn (net'.bucket (net.nodes.length - 1) t) b1.id
                  ≤ childCountIn (net'.bucket (net.nodes.length - 1) t) b2.id + 1))
    ∧ ((∃ t, t < net.types.length
          ∧ (net.bucket (net.nodes.length - 1) t).length < k) →
        net.initialize_blocks (k : ℤ) = .error .overprovisioned) :=
  initialize_blocks_round_robin_aux net k hk hL hshape

/-- Witness for `initialize_blocks_round_robin`: one type, three nodes,
k = 2 (counts come out 2 and 1). -/
theorem initialize_blocks_round_robin_witness :
    (1 ≤ 2 ∧ 1 ≤ (SBM_Network.mk
        [[[⟨NId.user "u1", 0, 0, none⟩, ⟨NId.user "u2", 0, 0, none⟩,
           ⟨NId.user "u3", 0, 0, none⟩]]] ["a"] 0 ⟨7⟩).nodes.length
      ∧ ((SBM_Network.mk
        [[[⟨NId.user "u1", 0, 0, none⟩, ⟨NId.user "u2", 0, 0, none⟩,
           ⟨NId.user "u3", 0, 0, none⟩]]] ["a"] 0 ⟨7⟩).nodes.getD 0 []).length = 1)
    ∧ ((∀ t, t < 1 → 2 ≤ ((SBM_Network.mk
        [[[⟨NId.user "u1", 0, 0, none⟩, ⟨NId.user "u2", 0, 0, none⟩,
           ⟨NId.user "u3", 0, 0, none⟩]]] ["a"] 0 ⟨7⟩).bucket 0 t).length) →
      ∃ net', (SBM_Network.mk
        [[[⟨NId.user "u1", 0, 0, none⟩, ⟨NId.user "u2", 0, 0, none⟩,
           ⟨NId.user "u3", 0, 0, none⟩]]] ["a"] 0 ⟨7⟩).initialize_blocks 2 = .ok net'
        ∧ net'.nodes.length = 2
        ∧ (∀ t, t < 1 →
            (net'.bucket 1 t).length = 2
            ∧ ∀ b1 ∈ net'.bucket 1 t, ∀ b2 ∈ net'.bucket 1 t,
                childCountIn (net'.bucket 0 t) b1.id
                  ≤ childCountIn (net'.bucket 0 t) b2.id + 1))
    ∧ ((∃ t, t < 1 ∧ ((SBM_Network.mk
        [[[⟨NId.user "u1", 0, 0, none⟩, ⟨NId.user "u2", 0, 0, none⟩,
           ⟨NId.user "u3", 0, 0, none⟩]]] ["a"] 0 ⟨7⟩).bucket 0 t).length < 2) →
        (SBM_Network.mk
        [[[⟨NId.user "u1", 0, 0, none⟩, ⟨NId.user "u2", 0, 0, none⟩,
           ⟨NId.user "u3", 0, 0, none⟩]]] ["a"] 0 ⟨7⟩).initialize_blocks 2
          = .error .overprovisioned) :=
  ⟨⟨by decide, by decide, by decide⟩,
    initialize_blocks_round_robin (SBM_Network.mk
        [[[⟨NId.user "u1", 0, 0, none⟩, ⟨NId.user "u2", 0, 0, none⟩,
           ⟨NId.user "u3", 0, 0, none⟩]]] ["a"] 0 ⟨7⟩) 2
      (by decide) (by decide) (by decide)⟩


/-- C8 (counterexample): `add_node` performs no duplicate-id check.  Adding
id "x" to a network that already holds a node "x" at level 0 succeeds and
leaves two nodes with the same id in the bucket — it neither fails with a
duplicate-id error nor leaves the network unchanged, contradicting the
claim. -/
theorem add_node_duplicate_claim_false :
    (SBM_Network.add_node
        (SBM_Network.mk [[[⟨NId.user "x", 0, 0, none⟩]]] ["a"] 0 ⟨7⟩)
        (NId.user "x") "a" 0
      = .ok (SBM_Network.mk
          [[[⟨NId.user "x", 0, 0, none⟩, ⟨NId.user "x", 0, 0, none⟩]]] ["a"] 0 ⟨7⟩,
        (⟨NId.user "x", 0, 0, none⟩ : NNode)))
    ∧ SBM_Network.mk
        [[[⟨NId.user "x", 0, 0, none⟩, ⟨NId.user "x", 0, 0, none⟩]]] ["a"] 0 ⟨7⟩
      ≠ SBM_Network.mk [[[⟨NId.user "x", 0, 0, none⟩]]] ["a"] 0 ⟨7⟩ := by
  constructor
  · rfl
  · decide

/-- C8 (amended): `SBM_Network::add_node(id, type, level)` looks up the type
(failing only for an unknown type name) and range-checks the level; it then
*unconditionally* appends a fresh parentless node to the (type, level)
bucket and returns it — a node with a duplicate id is simply pushed
alongside the existing one, with no duplicate-id error and no unchanged
network. -/
theorem add_node_appends_unconditionally (net : SBM_Network) (id : NId)
    (tname : String) (lv ti : ℕ)
    (hti : net.types.findIdx? (fun t => t = tname) = some ti)
    (hlv : lv < net.nodes.length) :
    net.add_node id tname lv
      = .ok (net.setBucket lv ti (net.bucket lv ti ++ [⟨id, lv, ti, none⟩]),
             (⟨id, lv, ti, none⟩ : NNode)) := by
  rw [SBM_Network.add_node, SBM_Network.get_type_index, hti]
  show (if lv ≥ net.nodes.length then _ else _) = _
  rw [if_neg (by omega)]

/-- Witness for `add_node_appends_unconditionally`: the duplicate insertion
of `add_node_duplicate_claim_false`. -/
theorem add_node_appends_unconditionally_witness :
    ((["a"].findIdx? (fun t => t = "x0type") = some 0 ∨
        ["a"].findIdx? (fun t => t = "a") = some 0)
      ∧ 0 < (SBM_Network.mk [[[⟨NId.user "x", 0, 0, none⟩]]] ["a"] 0 ⟨7⟩).nodes.length)
    ∧ SBM_Network.add_node
        (SBM_Network.mk [[[⟨NId.user "x", 0, 0, none⟩]]] ["a"] 0 ⟨7⟩)
        (NId.user "x") "a" 0
      = .ok ((SBM_Network.mk [[[⟨NId.user "x", 0, 0, none⟩]]] ["a"] 0 ⟨7⟩).setBucket 0 0
          ((SBM_Network.mk [[[⟨NId.user "x", 0, 0, none⟩]]] ["a"] 0 ⟨7⟩).bucket 0 0
            ++ [⟨NId.user "x", 0, 0, none⟩]),
        (⟨NId.user "x", 0, 0, none⟩ : NNode)) :=
  ⟨⟨Or.inr (by decide), by decide⟩,
    add_node_appends_unconditionally
      (SBM_Network.mk [[[⟨NId.user "x", 0, 0, none⟩]]] ["a"] 0 ⟨7⟩)
      (NId.user "x") "a" 0 0 (by decide) (by decide)⟩


theorem mem_blockIds_iff (net : SBM_Network) (n : ℕ) :
    n ∈ net.blockIds ↔ ∃ ℓ, ℓ < net.nodes.length
      ∧ ∃ t, t < (net.nodes.getD ℓ []).length
      ∧ ∃ nd ∈ net.bucket ℓ t, nd.id = NId.blk n := by
  simp only [SBM_Network.blockIds, List.mem_flatMap, List.mem_filterMap]
  constructor
  · rintro ⟨lvl, hlvl, b, hb, nd, hnd, hmatch⟩
    obtain ⟨ℓ, hℓ, hget⟩ := List.mem_iff_getElem.mp hlvl
    obtain ⟨t, ht, hgett⟩ := List.mem_iff_getElem.mp hb
    have hid : nd.id = NId.blk n := by
      cases h : nd.id with
      | user s => rw [h] at hmatch; cases hmatch
      | blk m => rw [h] at hmatch; cases hmatch; rfl
    have hlvl_eq : net.nodes.getD ℓ [] = lvl := by
      rw [List.getD_eq_getElem _ _ hℓ, hget]
    have hb_eq : net.bucket ℓ t = b := by
      rw [SBM_Network.bucket, hlvl_eq, List.getD_eq_getElem _ _ ht, hgett]
    refine ⟨ℓ, hℓ, t, ?_, nd, ?_, hid⟩
    · rw [hlvl_eq]
      exact ht
    · rw [hb_eq]
      exact hnd
  · rintro ⟨ℓ, hℓ, t, ht, nd, hnd, hid⟩
    have hlvl_eq : net.nodes.getD ℓ [] = net.nodes[ℓ] := List.getD_eq_getElem _ _ hℓ
    rw [hlvl_eq] at ht
    have hb_eq : net.bucket ℓ t = net.nodes[ℓ][t] := by
      rw [SBM_Network.bucket, hlvl_eq, List.getD_eq_getElem _ _ ht]
    rw [hb_eq] at hnd
    refine ⟨net.nodes[ℓ], List.getElem_mem hℓ, net.nodes[ℓ][t], List.getElem_mem ht,
      nd, hnd, ?_⟩
    rw [hid]


theorem mem_mapIdx_ex {α β : Type} (f : ℕ → α → β) (l : List α) (b : β)
    (hb : b ∈ l.mapIdx f) : ∃ i a, a ∈ l ∧ b = f i a := by
  rw [List.mapIdx_eq_enum_map] at hb
  obtain ⟨p, hp, he⟩ := List.mem_map.mp hb
  refine ⟨p.1, p.2, ?_, ?_⟩
  · have := List.mem_map_of_mem Prod.snd hp
    rw [List.enum_map_snd] at this
    exact this
  · rw [← he]
    rfl

theorem build_level_getD_lt (net : SBM_Network) (ℓ : ℕ) (h : ℓ < net.nodes.length) :
    net.build_level.nodes.getD ℓ [] = net.nodes.getD ℓ [] := by
  rw [build_level_nodes, getD_append_lt _ _ _ _ h]

/-- C9 (amended): block ids minted by `SBM_Network::initialize_blocks` come
from the monotone `block_counter`: when every block id already in the
network lies below the counter, the call leaves every block id below the new
counter, the new top-level ids per type are pairwise distinct (unique within
their (type, level)) and at least the pre-call counter — so they can collide
neither with live nor with previously deleted ids — and deleting block
levels never lowers the counter, hence a deleted block's id is never
assigned to a later-created block.  (`Network::build_block_id` of
Network.cpp behaves differently; see the counterexample.) -/
theorem initialize_blocks_block_ids_fresh (net : SBM_Network) (k : ℤ)
    (net' : SBM_Network)
    (hL : 1 ≤ net.nodes.length)
    (hshape : (net.nodes.getD (net.nodes.length - 1) []).length = net.types.length)
    (hinv : ∀ n ∈ net.blockIds, n < net.block_counter)
    (hok : net.initialize_blocks k = .ok net') :
    net.block_counter ≤ net'.block_counter
    ∧ (∀ n ∈ net'.blockIds, n < net'.block_counter)
    ∧ (∀ t, t < net.types.length →
        (((net'.bucket net.nodes.length t).map (fun nd => nd.id)).Nodup
        ∧ ∀ nd ∈ net'.bucket net.nodes.length t, ∀ m, nd.id = NId.blk m →
            net.block_counter ≤ m))
    ∧ (∀ m : SBM_Network, m.delete_all_blocks.block_counter = m.block_counter) := by
  have hfold : (List.range net.types.length).foldlM
      (SBM_Network.init_blocks_type (net.nodes.length - 1) net.nodes.length
        (decide (k = -1)) k) net.build_level = .ok net' := hok
  have hclbl : net.nodes.length - 1 ≠ net.nodes.length := by omega
  have hblen : net.build_level.nodes.length = net.nodes.length + 1 := by
    rw [build_level_nodes]; simp
  have hbl_getD : (net.build_level.nodes.getD net.nodes.length []).length
      = net.types.length := by
    rw [build_level_nodes, getD_append_length]; simp
  have hcl_getD : (net.build_level.nodes.getD (net.nodes.length - 1) []).length
      = net.types.length := by
    rw [build_level_getD_lt _ _ (by omega), hshape]
  have hin : ∀ t' ∈ List.range net.types.length,
      net.nodes.length < net.build_level.nodes.length ∧
      t' < (net.build_level.nodes.getD net.nodes.length []).length ∧
      net.nodes.length - 1 < net.build_level.nodes.length ∧
      t' < (net.build_level.nodes.getD (net.nodes.length - 1) []).length := by
    intro t' ht'
    rw [List.mem_range] at ht'
    exact ⟨by omega, hbl_getD ▸ ht', by omega, hcl_getD ▸ ht'⟩
  have hbuck0 : ∀ t, net.build_level.bucket (net.nodes.length - 1) t
      = net.bucket (net.nodes.length - 1) t :=
    fun t => bucket_build_level_lt net _ t (by omega)
  obtain ⟨hlen', hlevlen', hpres_not, hcnt, hpres_lv⟩ :=
    fold_init_preserve (net.nodes.length - 1) net.nodes.length (decide (k = -1)) k
      hclbl (List.range net.types.length) net.build_level net' hfold hin
  have hcnt0 : net.build_level.block_counter = net.block_counter := rfl
  refine ⟨hcnt0 ▸ hcnt, ?_, ?_, fun m => rfl⟩
  · intro n hn
    obtain ⟨ℓ, hℓ, t, ht, nd, hnd, hid⟩ := (mem_blockIds_iff net' n).mp hn
    by_cases hℓbl : ℓ = net.nodes.length
    · subst hℓbl
      have htT : t < net.types.length := by
        rw [hlevlen' net.nodes.length, hbl_getD] at ht
        exact ht
      obtain ⟨c0, smp, hc0, -, hblt, -, hcup⟩ :=
        fold_init_member (net.nodes.length - 1) net.nodes.length (decide (k = -1)) k hclbl
          (List.range net.types.length) net.build_level net' (List.nodup_range _)
          hfold hin t (List.mem_range.mpr htT)
      rw [hblt] at hnd
      obtain ⟨i, hi, he⟩ := List.mem_map.mp hnd
      rw [List.mem_range] at hi
      have : nd.id = NId.blk (c0 + i) := by rw [← he]
      rw [this] at hid
      have : c0 + i = n := by
        have := (NId.blk.injEq _ _).mp hid
        omega
      omega
    · by_cases hℓcl : ℓ = net.nodes.length - 1
      · subst hℓcl
        have htT : t < net.types.length := by
          rw [hlevlen' (net.nodes.length - 1), hcl_getD] at ht
          exact ht
        obtain ⟨c0, smp, hc0, -, -, hclt, -⟩ :=
          fold_init_member (net.nodes.length - 1) net.nodes.length (decide (k = -1))
            k hclbl (List.range net.types.length) net.build_level net'
            (List.nodup_range _) hfold hin t (List.mem_range.mpr htT)
        rw [hclt] at hnd
        obtain ⟨i, nd0, hnd0, he⟩ := mem_mapIdx_ex _ _ nd hnd
        have hid0 : nd0.id = NId.blk n := by
          rw [he] at hid
          exact hid
        have hnd0mem : nd0 ∈ net.bucket (net.nodes.length - 1) t := by
          rw [hbuck0] at hnd0
          by_cases hone : (decide (k = -1)) = true
          · rw [if_pos hone] at hnd0
            exact hnd0
          · rw [if_neg hone] at hnd0
            exact (shuffle_perm smp _).mem_iff.mp hnd0
        have hmem : n ∈ net.blockIds := by
          rw [mem_blockIds_iff]
          exact ⟨net.nodes.length - 1, by omega, t, by rw [hshape]; exact htT,
            nd0, hnd0mem, hid0⟩
        have := hinv n hmem
        omega
      · have hℓlt : ℓ < net.nodes.length := by omega
        have hbuckpres : net'.bucket ℓ t = net.bucket ℓ t := by
          rw [hpres_lv ℓ t hℓcl hℓbl, bucket_build_level_lt _ _ _ hℓlt]
        rw [hbuckpres] at hnd
        have htlen : t < (net.nodes.getD ℓ []).length := by
          rw [hlevlen' ℓ, build_level_getD_lt _ _ hℓlt] at ht
          exact ht
        have hmem : n ∈ net.blockIds := by
          rw [mem_blockIds_iff]
          exact ⟨ℓ, hℓlt, t, htlen, nd, hnd, hid⟩
        have := hinv n hmem
        omega
  · intro t htT
    obtain ⟨c0, smp, hc0, -, hblt, -, -⟩ :=
      fold_init_member (net.nodes.length - 1) net.nodes.length (decide (k = -1)) k
        hclbl (List.range net.types.length) net.build_level net'
        (List.nodup_range _) hfold hin t (List.mem_range.mpr htT)
    constructor
    · rw [hblt, List.map_map]
      have : ((fun nd : NNode => nd.id) ∘ fun i =>
          (⟨NId.blk (c0 + i), net.nodes.length, t, none⟩ : NNode))
          = fun i => NId.blk (c0 + i) := rfl
      rw [this]
      refine List.Nodup.map ?_ (List.nodup_range _)
      intro a b hab
      have := (NId.blk.injEq _ _).mp hab
      omega
    · intro nd hnd m hm
      rw [hblt] at hnd
      obtain ⟨i, hi, he⟩ := List.mem_map.mp hnd
      have : nd.id = NId.blk (c0 + i) := by rw [← he]
      rw [this] at hm
      have := (NId.blk.injEq _ _).mp hm
      omega

theorem initialize_blocks_block_ids_fresh_witness :
    (1 ≤ (SBM_Network.mk [[[⟨NId.user "u", 0, 0, none⟩]]] ["a"] 0 ⟨7⟩).nodes.length
      ∧ ((SBM_Network.mk [[[⟨NId.user "u", 0, 0, none⟩]]] ["a"] 0
          ⟨7⟩).nodes.getD 0 []).length = 1
      ∧ (∀ n ∈ (SBM_Network.mk [[[⟨NId.user "u", 0, 0, none⟩]]] ["a"] 0 ⟨7⟩).blockIds,
          n < 0)
      ∧ (SBM_Network.mk [[[⟨NId.user "u", 0, 0, none⟩]]] ["a"] 0
          ⟨7⟩).initialize_blocks 1
        = .ok (SBM_Network.mk
            [[[⟨NId.user "u", 0, 0, some (NId.blk 0)⟩]], [[⟨NId.blk 0, 1, 0, none⟩]]]
            ["a"] 1 ⟨337908⟩))
    ∧ (0 ≤ (SBM_Network.mk
          [[[⟨NId.user "u", 0, 0, some (NId.blk 0)⟩]], [[⟨NId.blk 0, 1, 0, none⟩]]]
          ["a"] 1 ⟨337908⟩).block_counter
      ∧ (∀ n ∈ (SBM_Network.mk
          [[[⟨NId.user "u", 0, 0, some (NId.blk 0)⟩]], [[⟨NId.blk 0, 1, 0, none⟩]]]
          ["a"] 1 ⟨337908⟩).blockIds, n < (SBM_Network.mk
          [[[⟨NId.user "u", 0, 0, some (NId.blk 0)⟩]], [[⟨NId.blk 0, 1, 0, none⟩]]]
          ["a"] 1 ⟨337908⟩).block_counter)
      ∧ (∀ t, t < 1 →
          ((((SBM_Network.mk
          [[[⟨NId.user "u", 0, 0, some (NId.blk 0)⟩]], [[⟨NId.blk 0, 1, 0, none⟩]]]
          ["a"] 1 ⟨337908⟩).bucket 1 t).map (fun nd => nd.id)).Nodup
          ∧ ∀ nd ∈ (SBM_Network.mk
          [[[⟨NId.user "u", 0, 0, some (NId.blk 0)⟩]], [[⟨NId.blk 0, 1, 0, none⟩]]]
          ["a"] 1 ⟨337908⟩).bucket 1 t, ∀ m, nd.id = NId.blk m → 0 ≤ m))
      ∧ (∀ m : SBM_Network, m.delete_all_blocks.block_counter = m.block_counter)) :=
  ⟨⟨by decide, by decide, by decide, by rfl⟩,
    initialize_blocks_block_ids_fresh
      (SBM_Network.mk [[[⟨NId.user "u", 0, 0, none⟩]]] ["a"] 0 ⟨7⟩) 1
      (SBM_Network.mk
        [[[⟨NId.user "u", 0, 0, some (NId.blk 0)⟩]], [[⟨NId.blk 0, 1, 0, none⟩]]]
        ["a"] 1 ⟨337908⟩)
      (by decide) (by decide) (by decide) (by rfl)⟩

/-- Claim C5 (amended): in the older engine, `Network::initialize_blocks`
draws its randomness from a local default-seeded sampler, not from the
engine-owned sampler: the outcome is a deterministic function of the network
alone (two engines holding the same network produce the same status and the
same resulting network, whatever their samplers), the engine sampler is left
unadvanced, and the call behaves exactly as the spec's engine-sampler
version would if the engine sampler were reset to the default seed at every
call. -/
theorem old_initialize_blocks_sampler_policy (st st2 : OldSBM) (k : ℤ)
    (l : ℕ) (h : st.net = st2.net) :
    ((OldSBM.initialize_blocks_code st k l).1
        = (OldSBM.initialize_blocks_code st2 k l).1
      ∧ (OldSBM.initialize_blocks_code st k l).2.net
        = (OldSBM.initialize_blocks_code st2 k l).2.net)
    ∧ (OldSBM.initialize_blocks_code st k l).2.sampler = st.sampler
    ∧ (OldSBM.initialize_blocks_code st k l).1
        = (OldSBM.initialize_blocks_engine ⟨st.net, Sampler.defaulted⟩ k l).1
    ∧ (OldSBM.initialize_blocks_code st k l).2.net
        = (OldSBM.initialize_blocks_engine ⟨st.net, Sampler.defaulted⟩ k l).2.net := by
  simp only [OldSBM.initialize_blocks_code, OldSBM.initialize_blocks_engine,
    ONetwork.initialize_blocks_old, h]
  exact ⟨⟨trivial, trivial⟩, trivial, trivial, trivial⟩

/-- Witness: the sampler-policy theorem applied to two engines holding the
same one-node network under different sampler states (43 and 99). -/
theorem old_initialize_blocks_sampler_policy_witness :
    ((OldSBM.initialize_blocks_code cex5_st 2 0).1
        = (OldSBM.initialize_blocks_code cex5_st2 2 0).1
      ∧ (OldSBM.initialize_blocks_code cex5_st 2 0).2.net
        = (OldSBM.initialize_blocks_code cex5_st2 2 0).2.net)
    ∧ (OldSBM.initialize_blocks_code cex5_st 2 0).2.sampler = cex5_st.sampler
    ∧ (OldSBM.initialize_blocks_code cex5_st 2 0).1
        = (OldSBM.initialize_blocks_engine ⟨cex5_st.net, Sampler.defaulted⟩ 2 0).1
    ∧ (OldSBM.initialize_blocks_code cex5_st 2 0).2.net
        = (OldSBM.initialize_blocks_engine ⟨cex5_st.net, Sampler.defaulted⟩ 2 0).2.net :=
  old_initialize_blocks_sampler_policy cex5_st cex5_st2 2 0 rfl

/-- Counterexample to claim C5 as stated: block initialisation is *not*
drawn from the engine-owned sampler.  With the engine sampler at state 43,
the code assigns node "a" to the first fresh block (the local default
sampler's draw), while the spec's engine-sampler version assigns it to the
second; the two runs differ. -/
theorem old_initialize_blocks_ignores_engine_sampler :
    ((OldSBM.initialize_blocks_code cex5_st 2 0).2.net.parentsAt 0
        = [some (build_block_id 0 1 0)]
      ∧ (OldSBM.initialize_blocks_engine cex5_st 2 0).2.net.parentsAt 0
        = [some (build_block_id 0 1 1)])
    ∧ OldSBM.initialize_blocks_code cex5_st 2 0
        ≠ OldSBM.initialize_blocks_engine cex5_st 2 0 := by
  refine ⟨⟨rfl, rfl⟩, fun h => ?_⟩
  have h2 := congrArg (fun r => r.2.net.parentsAt 0) h
  have e1 : (OldSBM.initialize_blocks_code cex5_st 2 0).2.net.parentsAt 0
      = [some (build_block_id 0 1 0)] := rfl
  have e2 : (OldSBM.initialize_blocks_engine cex5_st 2 0).2.net.parentsAt 0
      = [some (build_block_id 0 1 1)] := rfl
  simp only [e1, e2] at h2
  exact (by decide : ¬ ([some (build_block_id 0 1 0)]
      = [some (build_block_id 0 1 1)])) h2

/-- Counterexample to claim C3 for the older `Network::initialize_blocks`:
the network holds one node of type 0, yet `initialize_blocks(2, 0)` — two
blocks requested for a one-node type — returns successfully with two blocks
created (one necessarily childless) instead of failing. -/
theorem old_initialize_blocks_no_overprovision_check :
    ((ONetwork.initialize_blocks_old cex5_net 2 0).1 = .ok ())
    ∧ (cex5_net.lvl 0).length = 1
    ∧ ((ONetwork.initialize_blocks_old cex5_net 2 0).2.lvl 1).length = 2 :=
  ⟨rfl, rfl, rfl⟩

/-- Counterexample to claim C9 for the older generation:
`Network::build_block_id` mints the id from the *current size of the level
map*, so after a block is created, deleted by `clean_empty_groups` (its
removal emptied the level map again), the next block created at the same
(type, level) receives exactly the deleted block's id "0-1_0". -/
theorem old_build_block_id_reuses_deleted_ids :
    ((okD cex9_junk (cex5_net.create_block_node 0 1)).2.id
        = build_block_id 0 1 0)
    ∧ ((cex9_net1.clean_empty_groups).2.map (fun nd => nd.id)
        = [build_block_id 0 1 0])
    ∧ (cex9_net2.lvl 1 = [])
    ∧ ((okD cex9_junk (cex9_net2.create_block_node 0 1)).2.id
        = build_block_id 0 1 0) :=
  ⟨rfl, rfl, rfl, rfl⟩

/-- `padTo` is the identity when the level already exists. -/
theorem padTo_of_le (net : ONetwork) (l : ℕ) (h : l + 1 ≤ net.nodes.length) :
    net.padTo l = net := by
  unfold ONetwork.padTo
  rw [Nat.sub_eq_zero_of_le h]
  cases net with
  | mk nodes tk c => simp

/-- `padTo` never changes the content read at any level. -/
theorem lvl_padTo (net : ONetwork) (l j : ℕ) :
    (net.padTo l).lvl j = net.lvl j := by
  unfold ONetwork.padTo ONetwork.lvl
  simp only [List.getD, List.get?_eq_getElem?]
  rw [List.getElem?_append]
  by_cases hj : j < net.nodes.length
  · rw [if_pos hj]
  · rw [if_neg hj, List.getElem?_replicate,
      List.getElem?_eq_none (Nat.le_of_not_lt hj)]
    by_cases hr : j - net.nodes.length < l + 1 - net.nodes.length
    · rw [if_pos hr]
      rfl
    · rw [if_neg hr]

/-- Length after `padTo`. -/
theorem length_padTo (net : ONetwork) (l : ℕ) :
    (net.padTo l).nodes.length = max net.nodes.length (l + 1) := by
  unfold ONetwork.padTo
  simp only [List.length_append, List.length_replicate]
  omega

/-- `setLvl` reads back at the set level. -/
theorem lvl_setLvl_self (net : ONetwork) (l : ℕ) (b : List ONode)
    (h : l < net.nodes.length) : (net.setLvl l b).lvl l = b :=
  getD_set_self _ _ _ _ h

/-- `setLvl` leaves other levels alone. -/
theorem lvl_setLvl_ne (net : ONetwork) (l j : ℕ) (b : List ONode)
    (h : l ≠ j) : (net.setLvl l b).lvl j = net.lvl j :=
  getD_set_ne _ _ _ _ _ h

/-- `setLvl` preserves the number of levels. -/
theorem length_setLvl (net : ONetwork) (l : ℕ) (b : List ONode) :
    (net.setLvl l b).nodes.length = net.nodes.length :=
  List.length_set _ _ _

/-- `bumpCount` does not touch the level maps. -/
theorem lvl_bumpCount (net : ONetwork) (t : ℕ) (l : ℕ) (d : ℤ) (j : ℕ) :
    (net.bumpCount t l d).lvl j = net.lvl j := rfl

/-- `bumpCount` preserves the number of levels. -/
theorem length_bumpCount (net : ONetwork) (t : ℕ) (l : ℕ) (d : ℤ) :
    (net.bumpCount t l d).nodes.length = net.nodes.length := rfl

/-- Push a `map` through `mapIdx`. -/
theorem map_mapIdx {α β γ : Type} (l : List α) (f : ℕ → α → β) (g : β → γ) :
    (l.mapIdx f).map g = l.mapIdx (fun i a => g (f i a)) := by
  rw [List.mapIdx_eq_enum_map, List.mapIdx_eq_enum_map, List.map_map]
  apply List.map_congr_left
  intro p _
  cases p
  rfl

/-- `mapIdx` congruence on actual (index, element) pairs. -/
theorem mapIdx_congr_get {α β : Type} (l : List α) (f g : ℕ → α → β)
    (h : ∀ i (hi : i < l.length), f i (l.get ⟨i, hi⟩) = g i (l.get ⟨i, hi⟩)) :
    l.mapIdx f = l.mapIdx g := by
  rw [List.mapIdx_eq_enum_map, List.mapIdx_eq_enum_map]
  apply List.map_congr_left
  intro p hp
  rw [List.mem_enum_iff_getElem?] at hp
  obtain ⟨i, a⟩ := p
  have hi : i < l.length := (List.getElem?_eq_some.mp hp).1
  have ha : l.get ⟨i, hi⟩ = a := (List.getElem?_eq_some.mp hp).2
  have h2 := h i hi
  rw [ha] at h2
  exact h2

/-- Membership in a `mapIdx` image, with the index. -/
theorem mem_mapIdx_get {α β : Type} (f : ℕ → α → β) (l : List α) (b : β)
    (hb : b ∈ l.mapIdx f) :
    ∃ i, ∃ hi : i < l.length, b = f i (l.get ⟨i, hi⟩) := by
  rw [List.mapIdx_eq_enum_map] at hb
  obtain ⟨p, hp, he⟩ := List.mem_map.mp hb
  rw [List.mem_enum_iff_getElem?] at hp
  obtain ⟨i, a⟩ := p
  have hi : i < l.length := (List.getElem?_eq_some.mp hp).1
  have ha : l.get ⟨i, hi⟩ = a := (List.getElem?_eq_some.mp hp).2
  refine ⟨i, hi, ?_⟩
  rw [ha, ← he]
  rfl

/-- Reparenting an empty prefix is the identity. -/
theorem reparent_zero (orig : List ONode) (bl : ℕ) : reparent orig 0 bl = orig := by
  unfold reparent
  rw [List.mapIdx_eq_enum_map]
  have h : ∀ p ∈ orig.enum, (Function.uncurry fun i nd =>
      if i < 0 then { nd with parent := some (build_block_id nd.type bl i) }
      else nd) p = Prod.snd p := by
    intro p _
    cases p with
    | mk i nd => simp
  rw [List.map_congr_left h, List.enum_map_snd]

/-- Length of a reparented level. -/
theorem length_reparent (orig : List ONode) (k bl : ℕ) :
    (reparent orig k bl).length = orig.length := by
  unfold reparent
  exact List.length_mapIdx

/-- Length of the minted block list. -/
theorem length_mintMeta (orig : List ONode) (k bl : ℕ) (h : k ≤ orig.length) :
    (mintMeta orig k bl).length = k := by
  unfold mintMeta
  rw [List.length_mapIdx, List.length_take]
  omega

/-- The `take (k+1)` step of `mintMeta`. -/
theorem mintMeta_succ (orig : List ONode) (k bl : ℕ) (h : k < orig.length) :
    mintMeta orig (k + 1) bl = mintMeta orig k bl
      ++ [⟨build_block_id (orig.get ⟨k, h⟩).type bl k, bl,
           (orig.get ⟨k, h⟩).type, none, []⟩] := by
  unfold mintMeta
  rw [List.take_succ]
  have hk : orig[k]? = some (orig.get ⟨k, h⟩) := List.getElem?_eq_some.mpr ⟨h, rfl⟩
  rw [hk]
  rw [List.mapIdx_append]
  have hlt : (List.take k orig).length = k := by
    rw [List.length_take]; omega
  simp [hlt]

/-- No minted block carries the id about to be minted. -/
theorem mintMeta_id_ne (orig : List ONode) (k bl t : ℕ) :
    (mintMeta orig k bl).any (fun x => x.id = build_block_id t bl k) = false := by
  rw [List.any_eq_false]
  intro x hx
  obtain ⟨i, hi, he⟩ := mem_mapIdx_get _ _ _ hx
  subst he
  have hik : i < k := by
    rw [List.length_take] at hi
    omega
  simp only [decide_eq_true_eq]
  intro heq
  unfold build_block_id at heq
  rw [OId.blockId.injEq] at heq
  omega

/-- Inserting a fresh id appends. -/
theorem lvlInsert_not_mem (l : List ONode) (nd : ONode)
    (h : l.any (fun x => x.id = nd.id) = false) :
    lvlInsert l nd = l ++ [nd] := by
  unfold lvlInsert
  rw [h]
  simp

/-- Evaluate `create_block_node` on an existing positive level. -/
theorem create_block_node_eq (net : ONetwork) (t l : ℕ) (hl : l ≠ 0)
    (hlen : l + 1 ≤ net.nodes.length) :
    net.create_block_node t l = .ok
      ((net.setLvl l (lvlInsert (net.lvl l)
          ⟨build_block_id t l (net.lvl l).length, l, t, none, []⟩)).bumpCount t l 1,
       ⟨build_block_id t l (net.lvl l).length, l, t, none, []⟩) := by
  unfold ONetwork.create_block_node ONetwork.add_node
  rw [if_neg hl, padTo_of_le net l hlen]

/-- `set_parent` leaves other levels alone. -/
theorem lvl_set_parent_ne (net : ONetwork) (l j : ℕ) (id pid : OId)
    (h : l ≠ j) : (net.set_parent l id pid).lvl j = net.lvl j :=
  getD_set_ne _ _ _ _ _ h

/-- `set_parent` rewrites the touched level by the id-matching map. -/
theorem lvl_set_parent_self (net : ONetwork) (l : ℕ) (id pid : OId)
    (h : l < net.nodes.length) :
    (net.set_parent l id pid).lvl l = (net.lvl l).map (fun nd =>
      if nd.id = id then { nd with parent := some pid } else nd) :=
  getD_set_self _ _ _ _ h

/-- `set_parent` preserves the number of levels. -/
theorem length_set_parent (net : ONetwork) (l : ℕ) (id pid : OId) :
    (net.set_parent l id pid).nodes.length = net.nodes.length :=
  List.length_set _ _ _

/-- Distinct positions of a level with `Nodup` ids carry distinct ids. -/
theorem nodup_ids_get_ne (orig : List ONode)
    (hnodup : (orig.map (fun nd => nd.id)).Nodup)
    {i k : ℕ} (hi : i < orig.length) (hk : k < orig.length) (hik : i ≠ k) :
    (orig.get ⟨i, hi⟩).id ≠ (orig.get ⟨k, hk⟩).id := by
  intro he
  apply hik
  have hinj := List.nodup_iff_injective_get.mp hnodup
  have h1 : (orig.map (fun nd => nd.id)).get ⟨i, by simpa using hi⟩
      = (orig.map (fun nd => nd.id)).get ⟨k, by simpa using hk⟩ := by
    rw [List.get_map, List.get_map]
    exact he
  exact congrArg Fin.val (hinj h1)

/-- `set_parent` of node `k` to its minted block advances the reparented
prefix by one. -/
theorem map_reparent_step (orig : List ONode)
    (hnodup : (orig.map (fun nd => nd.id)).Nodup)
    (k bl : ℕ) (hk : k < orig.length) :
    (reparent orig k bl).map (fun x =>
        if x.id = (orig.get ⟨k, hk⟩).id
        then { x with parent := (some
          (build_block_id (orig.get ⟨k, hk⟩).type bl k)) } else x)
      = reparent orig (k + 1) bl := by
  unfold reparent
  rw [map_mapIdx]
  apply mapIdx_congr_get
  intro i hi
  by_cases hik : i = k
  · subst hik
    simp
  · have hid := nodup_ids_get_ne orig hnodup hi hk hik
    by_cases hlt : i < k
    · have h1 : i < k + 1 := by omega
      simp only [if_pos hlt, if_pos h1]
      rw [if_neg hid]
    · have h1 : ¬ i < k + 1 := by omega
      simp only [if_neg hlt, if_neg h1]
      rw [if_neg hid]

/-- The one-block-per-node assignment loop of the older `initialize_blocks`
(`num_blocks = -1`): starting from a state whose first `k` nodes are already
processed, it succeeds and leaves the level fully reparented, the block
level holding one fresh block per node, the level count unchanged and the
sampler untouched. -/
theorem assignLoop_one_block_char (gl : ℕ) (orig : List ONode)
    (hnodup : (orig.map (fun nd => nd.id)).Nodup)
    (hlvl : ∀ nd ∈ orig, nd.level = gl) :
    ∀ (n k : ℕ) (net : ONetwork) (smp : Sampler),
      n = orig.length - k →
      k ≤ orig.length →
      gl + 1 < net.nodes.length →
      net.lvl gl = reparent orig k (gl + 1) →
      net.lvl (gl + 1) = mintMeta orig k (gl + 1) →
      (ONetwork.assignLoop (gl + 1) true [] (orig.drop k) net smp).1 = .ok ()
      ∧ (ONetwork.assignLoop (gl + 1) true [] (orig.drop k) net smp).2.1.lvl gl
          = reparent orig orig.length (gl + 1)
      ∧ (ONetwork.assignLoop (gl + 1) true [] (orig.drop k) net smp).2.1.lvl (gl + 1)
          = mintMeta orig orig.length (gl + 1)
      ∧ (ONetwork.assignLoop (gl + 1) true [] (orig.drop k) net smp).2.1.nodes.length
          = net.nodes.length
      ∧ (ONetwork.assignLoop (gl + 1) true [] (orig.drop k) net smp).2.2 = smp := by
  intro n
  induction n with
  | zero =>
    intro k net smp hn hk hlen hrep hmint
    have hkl : k = orig.length := by omega
    subst hkl
    rw [List.drop_length]
    simp only [ONetwork.assignLoop]
    exact ⟨trivial, hrep, hmint, trivial, trivial⟩
  | succ n ih =>
    intro k net smp hn hk hlen hrep hmint
    have hklt : k < orig.length := by omega
    rw [List.drop_eq_getElem_cons hklt]
    have hnd : orig[k] = orig.get ⟨k, hklt⟩ := rfl
    rw [hnd]
    simp only [ONetwork.assignLoop, if_pos]
    rw [hlvl (orig.get ⟨k, hklt⟩) (orig.get_mem _ _)]
    have hmlen : (net.lvl (gl + 1)).length = k := by
      rw [hmint, length_mintMeta _ _ _ hk]
    rw [create_block_node_eq net (orig.get ⟨k, hklt⟩).type (gl + 1)
      (Nat.succ_ne_zero gl) hlen, hmlen]
    set nd := orig.get ⟨k, hklt⟩ with hnddef
    set B : ONode := ⟨build_block_id nd.type (gl + 1) k, gl + 1, nd.type, none, []⟩
      with hBdef
    -- the network after create_block_node + set_parent
    set netA : ONetwork := ((net.setLvl (gl + 1) (lvlInsert (net.lvl (gl + 1)) B)
      ).bumpCount nd.type (gl + 1) 1) with hAdef
    have hlenA : netA.nodes.length = net.nodes.length := by
      rw [hAdef, length_bumpCount, length_setLvl]
    have hAgl : netA.lvl gl = reparent orig k (gl + 1) := by
      rw [hAdef, lvl_bumpCount, lvl_setLvl_ne _ _ _ _ (by omega), hrep]
    have hAbl : netA.lvl (gl + 1) = mintMeta orig (k + 1) (gl + 1) := by
      rw [hAdef, lvl_bumpCount, lvl_setLvl_self _ _ _ (by omega)]
      rw [hmint, lvlInsert_not_mem _ _ (mintMeta_id_ne orig k (gl + 1) nd.type)]
      rw [mintMeta_succ orig k (gl + 1) hklt]
    set net1 : ONetwork := netA.set_parent gl nd.id B.id with h1def
    have hlen1 : net1.nodes.length = net.nodes.length := by
      rw [h1def, length_set_parent, hlenA]
    have h1gl : net1.lvl gl = reparent orig (k + 1) (gl + 1) := by
      rw [h1def, lvl_set_parent_self _ _ _ _ (by omega), hAgl]
      exact map_reparent_step orig hnodup k (gl + 1) hklt
    have h1bl : net1.lvl (gl + 1) = mintMeta orig (k + 1) (gl + 1) := by
      rw [h1def, lvl_set_parent_ne _ _ _ _ _ (by omega), hAbl]
    have ihres := ih (k + 1) net1 smp (by omega) (by omega)
      (by rw [hlen1]; exact hlen) h1gl h1bl
    obtain ⟨c1, c2, c3, c4, c5⟩ := ihres
    exact ⟨c1, c2, c3, by rw [c4, hlen1], c5⟩

/-- `give_every_node_at_level_own_group` on a nonempty level with unique
ids: it succeeds, reparents every node onto its own fresh block, and the
block level above holds exactly one minted block per node. -/
theorem give_every_char (net : ONetwork) (gl : ℕ)
    (hne : net.lvl gl ≠ [])
    (hnodup : ((net.lvl gl).map (fun nd => nd.id)).Nodup)
    (hlvl : ∀ nd ∈ net.lvl gl, nd.level = gl) :
    (net.give_every_node_at_level_own_group gl).1 = .ok ()
    ∧ (net.give_every_node_at_level_own_group gl).2.lvl gl
        = reparent (net.lvl gl) (net.lvl gl).length (gl + 1)
    ∧ (net.give_every_node_at_level_own_group gl).2.lvl (gl + 1)
        = mintMeta (net.lvl gl) (net.lvl gl).length (gl + 1)
    ∧ ((net.give_every_node_at_level_own_group gl).2.lvl (gl + 1)).length
        = (net.lvl gl).length := by
  unfold ONetwork.give_every_node_at_level_own_group ONetwork.initialize_blocks_old
    ONetwork.initialize_blocks_core
  set net1 : ONetwork := (net.padTo (gl + 1)).setLvl (gl + 1) [] with h1def
  have hn1gl : net1.lvl gl = net.lvl gl := by
    rw [h1def, lvl_setLvl_ne _ _ _ _ (by omega), lvl_padTo]
  have hn1len : gl + 1 < net1.nodes.length := by
    rw [h1def, length_setLvl, length_padTo]
    omega
  have hn1bl : net1.lvl (gl + 1) = mintMeta (net.lvl gl) 0 (gl + 1) := by
    rw [h1def, lvl_setLvl_self _ _ _ (by rw [length_padTo]; omega)]
    rfl
  have hne' : ¬ ((net1.lvl gl).length = 0) := by
    rw [hn1gl]
    intro h0
    exact hne (List.length_eq_zero.mp h0)
  rw [if_neg hne', if_pos rfl]
  have hrep0 : net1.lvl gl = reparent (net.lvl gl) 0 (gl + 1) := by
    rw [hn1gl, reparent_zero]
  have hdrop : net1.lvl gl = (net.lvl gl).drop 0 := by rw [hn1gl]; rfl
  rw [hdrop]
  have hres := assignLoop_one_block_char gl (net.lvl gl) hnodup hlvl
    ((net.lvl gl).length - 0) 0 net1 Sampler.defaulted rfl (Nat.zero_le _)
    hn1len hrep0 hn1bl
  obtain ⟨c1, c2, c3, c4, -⟩ := hres
  refine ⟨c1, c2, c3, ?_⟩
  rw [c3, length_mintMeta _ _ _ (Nat.le_refl _)]

/-- Claim C10: when `agglomerative_merge` finds a type with fewer than two
blocks, the insufficient-blocks error is raised only *after* the meta level
has been built: the failing call returns the give-every-mutated network, in
which every block at the merge level has been re-parented onto its own
fresh meta block and the level above holds one freshly minted meta block
per block — the operation is not atomic on this error. -/
theorem agglomerative_merge_not_atomic (cfg : OConfig) (st : OldSBM)
    (gl : ℕ) (num_merges : ℤ)
    (hnm : num_merges ≠ 0)
    (hne : st.net.lvl gl ≠ [])
    (hnodup : ((st.net.lvl gl).map (fun nd => nd.id)).Nodup)
    (hlvl : ∀ nd ∈ st.net.lvl gl, nd.level = gl)
    (hcheck : (List.range
        (st.net.give_every_node_at_level_own_group gl).2.type_keys.length).any
        (fun i => (st.net.give_every_node_at_level_own_group gl).2.counts i gl < 2)
        = true) :
    (OldSBM.agglomerative_merge cfg st gl num_merges).1
        = .error .insufficientBlocks
    ∧ (OldSBM.agglomerative_merge cfg st gl num_merges).2.net
        = (st.net.give_every_node_at_level_own_group gl).2
    ∧ (OldSBM.agglomerative_merge cfg st gl num_merges).2.net.lvl (gl + 1)
        = mintMeta (st.net.lvl gl) (st.net.lvl gl).length (gl + 1)
    ∧ ((OldSBM.agglomerative_merge cfg st gl num_merges).2.net.lvl (gl + 1)).length
        = (st.net.lvl gl).length
    ∧ (OldSBM.agglomerative_merge cfg st gl num_merges).2.net.lvl gl
        = reparent (st.net.lvl gl) (st.net.lvl gl).length (gl + 1) := by
  obtain ⟨g1, g2, g3, g4⟩ := give_every_char st.net gl hne hnodup hlvl
  have key : ∀ (r : (Except SbmErr Unit) × ONetwork),
      r = st.net.give_every_node_at_level_own_group gl →
      r.1 = .ok () →
      ((List.range r.2.type_keys.length).any
        (fun i => r.2.counts i gl < 2)) = true →
      OldSBM.agglomerative_merge cfg st gl num_merges
        = (.error .insufficientBlocks, ⟨r.2, st.sampler⟩) := by
    intro r hr hok hchk
    obtain ⟨r1, r2⟩ := r
    cases r1 with
    | error e => exact absurd hok (by simp)
    | ok a =>
      unfold OldSBM.agglomerative_merge
      rw [if_neg hnm, ← hr]
      simp [hchk]
  have hkey := key (st.net.give_every_node_at_level_own_group gl) rfl g1 hcheck
  rw [hkey]
  exact ⟨rfl, rfl, g3, g4, g2⟩

/-- Witness for the merge-atomicity theorem: one block of type 0 at level 1
(fewer than two), merge requested with one merge. -/
theorem agglomerative_merge_not_atomic_witness :
    (OldSBM.agglomerative_merge cfg10 ⟨cex10_net, Sampler.defaulted⟩ 1 1).1
        = .error .insufficientBlocks
    ∧ (OldSBM.agglomerative_merge cfg10 ⟨cex10_net, Sampler.defaulted⟩ 1 1).2.net
        = (cex10_net.give_every_node_at_level_own_group 1).2
    ∧ (OldSBM.agglomerative_merge cfg10 ⟨cex10_net, Sampler.defaulted⟩ 1 1).2.net.lvl (1 + 1)
        = mintMeta (cex10_net.lvl 1) (cex10_net.lvl 1).length (1 + 1)
    ∧ ((OldSBM.agglomerative_merge cfg10 ⟨cex10_net, Sampler.defaulted⟩ 1 1).2.net.lvl (1 + 1)).length
        = (cex10_net.lvl 1).length
    ∧ (OldSBM.agglomerative_merge cfg10 ⟨cex10_net, Sampler.defaulted⟩ 1 1).2.net.lvl 1
        = reparent (cex10_net.lvl 1) (cex10_net.lvl 1).length (1 + 1) :=
  agglomerative_merge_not_atomic cfg10 ⟨cex10_net, Sampler.defaulted⟩ 1 1
    (by decide) (by decide) (by decide) (by decide) (by decide)

/-- Claim C6 (amended): the collapse loop's `try` covers the whole merge
step, so *any* error raised by `agglomerative_merge` — not only
insufficient-blocks — is caught and ends the schedule, returning the step
records accumulated so far together with the merge-mutated state; whereas
an error from the initial `give_every_node_at_level_own_group`, which sits
before the loop and outside the `try`, propagates to the caller with its
partial mutation. -/
theorem collapse_error_policy (cfg : OConfig) (st : OldSBM) (node_level : ℕ)
    (num_mcmc_steps : ℕ) (desired : ℤ) (fuel : ℕ) (acc : List Merge_Step)
    (e : SbmErr)
    (hgt : desired < ((st.net.lvl (node_level + 1)).length : ℤ))
    (herr : (OldSBM.agglomerative_merge cfg st (node_level + 1)
        (merges_for ((st.net.lvl (node_level + 1)).length : ℤ) desired cfg.SIGMA)).1
      = .error e) :
    OldSBM.collapse_loop cfg node_level num_mcmc_steps desired (fuel + 1) st acc
      = (.ok acc, (OldSBM.agglomerative_merge cfg st (node_level + 1)
          (merges_for ((st.net.lvl (node_level + 1)).length : ℤ) desired cfg.SIGMA)).2)
    ∧ ∀ (st2 : OldSBM) (e2 : SbmErr),
        (st2.net.give_every_node_at_level_own_group node_level).1 = .error e2 →
        OldSBM.collapse_groups cfg st2 node_level num_mcmc_steps desired fuel
          = (.error e2,
             ⟨(st2.net.give_every_node_at_level_own_group node_level).2,
              st2.sampler⟩) := by
  constructor
  · have key : ∀ (r : (Except SbmErr Merge_Step) × OldSBM),
        r = OldSBM.agglomerative_merge cfg st (node_level + 1)
          (merges_for ((st.net.lvl (node_level + 1)).length : ℤ) desired cfg.SIGMA) →
        r.1 = .error e →
        OldSBM.collapse_loop cfg node_level num_mcmc_steps desired (fuel + 1) st acc
          = (.ok acc, r.2) := by
      intro r hr hre
      obtain ⟨r1, r2⟩ := r
      cases r1 with
      | ok m => exact absurd hre (by simp)
      | error e1 =>
        unfold OldSBM.collapse_loop
        rw [if_neg (not_le.mpr hgt)]
        simp only [← hr]
    have hkey := key _ rfl herr
    exact hkey
  · intro st2 e2 h2
    have key2 : ∀ (r : (Except SbmErr Unit) × ONetwork),
        r = st2.net.give_every_node_at_level_own_group node_level →
        r.1 = .error e2 →
        OldSBM.collapse_groups cfg st2 node_level num_mcmc_steps desired fuel
          = (.error e2, ⟨r.2, st2.sampler⟩) := by
      intro r hr hre
      obtain ⟨r1, r2⟩ := r
      cases r1 with
      | ok a => exact absurd hre (by simp)
      | error e1 =>
        have he : e1 = e2 := by
          have := hre
          simp at this
          exact this
        subst he
        unfold OldSBM.collapse_groups
        simp only [← hr]
    exact key2 _ rfl h2

/-- The collapse schedule's merge count at three groups, target one, decay
3/2. -/
theorem merges_for_cfg10_eval : merges_for 3 1 cfg10.SIGMA = 1 := by
  rw [show cfg10.SIGMA = 3/2 from rfl]
  have hf : Int.floor ((3:ℚ) - 3/(3/2)) = 1 := by
    rw [show (3:ℚ) - 3/(3/2) = 1 by norm_num]
    exact Int.floor_one
  simp only [merges_for, cppIntOfRat]
  rw [show ((3:ℤ):ℚ) = (3:ℚ) by norm_num] at *
  simp only [hf]
  norm_num

/-- On the three-group state with an isolated node, any nonzero merge
request fails with the empty-sample error. -/
theorem cex6_merge_error (nm : ℤ) (h : nm ≠ 0) :
    (OldSBM.agglomerative_merge cfg10 cex6_post 1 nm).1
      = .error .emptySample := by
  unfold OldSBM.agglomerative_merge
  rw [if_neg h]
  rfl

/-- Witness for the collapse error policy: the three-group state whose merge
fails with the empty-sample error, plus an engine with no levels whose
give-every fails with the empty-level error (realizing the second part's
hypothesis). -/
theorem collapse_error_policy_witness :
    (OldSBM.collapse_loop cfg10 0 0 1 (1 + 1) cex6_post []
      = (.ok [], (OldSBM.agglomerative_merge cfg10 cex6_post (0 + 1)
          (merges_for ((cex6_post.net.lvl (0 + 1)).length : ℤ) 1 cfg10.SIGMA)).2)
    ∧ ∀ (st2 : OldSBM) (e2 : SbmErr),
        (st2.net.give_every_node_at_level_own_group 0).1 = .error e2 →
        OldSBM.collapse_groups cfg10 st2 0 0 1 1
          = (.error e2,
             ⟨(st2.net.give_every_node_at_level_own_group 0).2, st2.sampler⟩))
    ∧ (cex6_empty.net.give_every_node_at_level_own_group 0).1
        = .error .emptyLevel :=
  ⟨collapse_error_policy cfg10 cex6_post 0 0 1 1 [] SbmErr.emptySample
    (by decide)
    (by
      rw [show ((cex6_post.net.lvl (0 + 1)).length : ℤ) = 3 from by rfl,
        merges_for_cfg10_eval]
      exact cex6_merge_error 1 (by decide)),
   by rfl⟩

/-- Counterexample to claim C6 as stated: the merge step of a collapse on a
network with an isolated node fails with the *empty-sample* error (the
isolated node's group has no connections for `propose_move` to sample) —
not insufficient-blocks — yet `collapse_groups` swallows it and returns
`.ok []` with no records. -/
theorem collapse_swallows_unrelated_errors :
    ((OldSBM.agglomerative_merge cfg10 cex6_post 1
        (merges_for 3 1 cfg10.SIGMA)).1 = .error .emptySample)
    ∧ SbmErr.emptySample ≠ SbmErr.insufficientBlocks
    ∧ ((OldSBM.collapse_groups cfg10 cex6_st 0 0 1 2).1 = .ok []) := by
  refine ⟨by rw [merges_for_cfg10_eval]; exact cex6_merge_error 1 (by decide),
    by decide, ?_⟩
  have key : ∀ (r : (Except SbmErr Unit) × ONetwork),
      r = cex6_net.give_every_node_at_level_own_group 0 →
      r.1 = .ok () →
      OldSBM.collapse_groups cfg10 cex6_st 0 0 1 2
        = OldSBM.collapse_loop cfg10 0 0 1 2 ⟨r.2, cex6_st.sampler⟩ [] := by
    intro r hr hok
    obtain ⟨r1, r2⟩ := r
    cases r1 with
    | error e1 => exact absurd hok (by simp)
    | ok a =>
      unfold OldSBM.collapse_groups
      rw [show cex6_st.net = cex6_net from rfl]
      simp only [← hr]
  rw [key _ rfl (by rfl)]
  have hpost : (⟨(cex6_net.give_every_node_at_level_own_group 0).2,
      cex6_st.sampler⟩ : OldSBM) = cex6_post := rfl
  rw [hpost]
  have key2 : ∀ (fuel : ℕ) (r : (Except SbmErr Merge_Step) × OldSBM),
      r = OldSBM.agglomerative_merge cfg10 cex6_post (0 + 1)
            (merges_for ((cex6_post.net.lvl (0 + 1)).length : ℤ) 1 cfg10.SIGMA) →
      r.1 = .error .emptySample →
      OldSBM.collapse_loop cfg10 0 0 1 (fuel + 1) cex6_post [] = (.ok [], r.2) := by
    intro fuel r hr hre
    obtain ⟨r1, r2⟩ := r
    cases r1 with
    | ok m => exact absurd hre (by simp)
    | error e1 =>
      unfold OldSBM.collapse_loop
      rw [if_neg (not_le.mpr (by decide :
        (1:ℤ) < ((cex6_post.net.lvl (0 + 1)).length : ℤ)))]
      simp only [← hr]
  have hre : (OldSBM.agglomerative_merge cfg10 cex6_post (0 + 1)
      (merges_for ((cex6_post.net.lvl (0 + 1)).length : ℤ) 1 cfg10.SIGMA)).1
      = .error .emptySample := by
    rw [show ((cex6_post.net.lvl (0 + 1)).length : ℤ) = 3 from by rfl,
      merges_for_cfg10_eval]
    exact cex6_merge_error 1 (by decide)
  rw [show (2:ℕ) = 1 + 1 from rfl, key2 1 _ rfl hre]

/-- Counterexample to claim C4: on a three-level network whose level-1 block
`blk 1` has no children, `get_state` succeeds (block 1 gets a dump row but
never appears as a parent), and `update_state` of that very dump fails with
the unknown-id error — the round trip does not restore the network. -/
theorem update_state_roundtrip_claim_false :
    (cex4_net.get_state = .ok ⟨[NId.user "u", NId.blk 0, NId.blk 1],
        ["a", "a", "a"], [NId.blk 0, NId.blk 2, NId.blk 2], [0, 1, 1]⟩)
    ∧ (Except.bind cex4_net.get_state cex4_net.update_state_dump
        = .error .unknownId) :=
  ⟨rfl, rfl⟩

/-- Lockstep `zip` of four parallel column projections rebuilds the row
tuples. -/
theorem zip_map4 {α β γ δ ε : Type} (l : List α) (f : α → β) (g : α → γ)
    (h : α → δ) (k : α → ε) :
    (l.map f).zip ((l.map g).zip ((l.map h).zip (l.map k)))
      = l.map (fun x => (f x, g x, h x, k x)) := by
  induction l with
  | nil => rfl
  | cons x xs ih => simp [ih]

/-- An in-range `getD` is a member. -/
theorem getD_mem {α : Type} (l : List α) (i : ℕ) (d : α) (h : i < l.length) :
    l.getD i d ∈ l := by
  rw [List.getD_eq_getElem l d h]
  exact List.getElem_mem h

/-- In a `Nodup` list, searching for the `i`-th element finds index `i`
(offset form). -/
theorem findIdx_nodup_aux (s : String) : ∀ (tn : List String) (i j : ℕ),
    tn.Nodup → i < tn.length → tn.getD i "" = s →
    List.findIdx? (fun t => t = s) tn j = some (j + i) := by
  intro tn
  induction tn with
  | nil => intro i j _ hi _; exact absurd hi (by simp)
  | cons x rest ih =>
    intro i j hnd hi hs
    rw [List.findIdx?_cons]
    cases i with
    | zero =>
      have hx : x = s := hs
      rw [if_pos (by simp [hx])]
      simp
    | succ i =>
      have hsr : rest.getD i "" = s := hs
      have hir : i < rest.length := by simpa using hi
      have hmem : s ∈ rest := by rw [← hsr]; exact getD_mem _ _ _ hir
      have hxs : ¬ (x = s) := by
        intro he
        exact (List.nodup_cons.mp hnd).1 (he ▸ hmem)
      rw [if_neg (by simpa using hxs)]
      rw [ih i (j + 1) (List.nodup_cons.mp hnd).2 hir hsr]
      congr 1
      omega

/-- In a `Nodup` type table, looking up the `i`-th name yields `i`. -/
theorem findIdx_nodup_getD (tn : List String) (htn : tn.Nodup) (i : ℕ)
    (hi : i < tn.length) :
    List.findIdx? (fun t => t = tn.getD i "") tn = some i := by
  have h := findIdx_nodup_aux (tn.getD i "") tn i 0 htn hi rfl
  simpa using h

/-- Setting a position to the value it already holds is the identity. -/
theorem set_getD_eq {α : Type} (l : List α) (i : ℕ) (d : α) :
    l.set i (l.getD i d) = l := by
  induction l generalizing i with
  | nil => rfl
  | cons x xs ih =>
    cases i with
    | zero => rfl
    | succ i => simpa using ih i

/-- `setParent` at level 0 is the identity when every node with the id
already points at that parent. -/
theorem setParent_self_level0 (cur : SBM_Network) (id pid : NId)
    (hstab : ∀ b ∈ cur.nodes.getD 0 [], ∀ m ∈ b, m.id = id → m.parent = some pid) :
    cur.setParent 0 id pid = cur := by
  unfold SBM_Network.setParent
  have hmap : (cur.nodes.getD 0 []).map (fun b => b.map (fun nd =>
      if nd.id = id then { nd with parent := some pid } else nd))
      = cur.nodes.getD 0 [] := by
    have h1 : ∀ b ∈ cur.nodes.getD 0 [], b.map (fun nd =>
        if nd.id = id then { nd with parent := some pid } else nd) = b := by
      intro b hb
      have h2 : ∀ m ∈ b, (if m.id = id then { m with parent := some pid }
          else m) = m := by
        intro m hm
        by_cases hmi : m.id = id
        · rw [if_pos hmi]
          have := hstab b hb m hm hmi
          cases m
          simp at this
          simp [this]
        · rw [if_neg hmi]
      rw [List.map_congr_left h2]
      simp
    rw [List.map_congr_left h1]
    simp
  rw [hmap, set_getD_eq]

/-- Number of levels of the rebuilt two-level shape. -/
theorem mkCur_length (net : SBM_Network) (nb : List (NId × ℕ))
    (h : 1 ≤ net.nodes.length) : (mkCur net nb).nodes.length = 2 := by
  unfold mkCur
  simp only [List.length_append, List.length_take, List.length_singleton]
  omega

/-- Level 0 of the rebuilt shape is the source's level 0. -/
theorem mkCur_lvl0 (net : SBM_Network) (nb : List (NId × ℕ))
    (h : 1 ≤ net.nodes.length) :
    (mkCur net nb).nodes.getD 0 [] = net.nodes.getD 0 [] := by
  unfold mkCur
  have htl : 0 < (net.nodes.take 1).length := by
    rw [List.length_take]
    omega
  rw [getD_append_lt _ _ _ _ htl, List.getD_eq_getElem _ _ htl,
    List.getElem_take, ← List.getD_eq_getElem net.nodes [] (by omega)]

/-- Level 1 of the rebuilt shape holds the minted buckets. -/
theorem mkCur_lvl1 (net : SBM_Network) (nb : List (NId × ℕ))
    (h : 1 ≤ net.nodes.length) :
    (mkCur net nb).nodes.getD 1 [] = mkBlockBuckets net.types nb := by
  unfold mkCur
  have htl : (net.nodes.take 1).length = 1 := by
    rw [List.length_take]
    omega
  have h2 := getD_append_length (net.nodes.take 1) (mkBlockBuckets net.types nb) ([] : List (List NNode))
  rw [htl] at h2
  exact h2

/-- Read a position of a `range`-indexed map. -/
theorem getD_range_map {α : Type} (n i : ℕ) (f : ℕ → α) (d : α) (h : i < n) :
    ((List.range n).map f).getD i d = f i := by
  have hl : i < ((List.range n).map f).length := by simpa using h
  rw [List.getD_eq_getElem _ _ hl, List.getElem_map, List.getElem_range]

/-- Overwrite a position of a `range`-indexed map. -/
theorem set_range_map {α : Type} (n i : ℕ) (f : ℕ → α) (v : α) :
    ((List.range n).map f).set i v
      = (List.range n).map (fun t => if t = i then v else f t) := by
  apply List.ext_getElem?
  intro j
  by_cases hji : j = i
  · subst hji
    by_cases hj : j < n
    · rw [List.getElem?_set_self']
      simp [List.getElem?_map, List.getElem?_range hj]
    · have hge : n ≤ j := Nat.le_of_not_lt hj
      rw [List.getElem?_eq_none (by simpa using hge),
        List.getElem?_eq_none (by simpa using hge)]
  · rw [List.getElem?_set_ne (Ne.symm hji)]
    rw [List.getElem?_map, List.getElem?_map]
    by_cases hj : j < n
    · rw [List.getElem?_range hj]
      simp [hji]
    · rw [List.getElem?_eq_none (by simpa using Nat.le_of_not_lt hj)]
      rfl

/-- Pushing a freshly minted block onto its type bucket extends the minted
list by one pair. -/
theorem setBucket_mkCur (net : SBM_Network) (nb : List (NId × ℕ)) (pid : NId)
    (ti : ℕ) (hlen : 1 ≤ net.nodes.length) (hti : ti < net.types.length) :
    (mkCur net nb).setBucket 1 ti
        ((mkCur net nb).bucket 1 ti ++ [⟨pid, 1, ti, none⟩])
      = mkCur net (nb ++ [(pid, ti)]) := by
  unfold SBM_Network.setBucket SBM_Network.bucket
  rw [mkCur_lvl1 net nb hlen]
  have hbucket : (mkBlockBuckets net.types nb).getD ti []
      = (nb.filter (fun pr => pr.2 = ti)).map
        (fun pr => (⟨pr.1, 1, pr.2, none⟩ : NNode)) := by
    unfold mkBlockBuckets
    exact getD_range_map _ _ _ _ hti
  rw [hbucket]
  have hset : (mkBlockBuckets net.types nb).set ti
      ((nb.filter (fun pr => pr.2 = ti)).map
        (fun pr => (⟨pr.1, 1, pr.2, none⟩ : NNode)) ++ [⟨pid, 1, ti, none⟩])
      = mkBlockBuckets net.types (nb ++ [(pid, ti)]) := by
    unfold mkBlockBuckets
    rw [set_range_map]
    apply List.map_congr_left
    intro t ht
    rw [List.mem_range] at ht
    by_cases hts : t = ti
    · subst hts
      rw [if_pos rfl, List.filter_append, List.map_append]
      simp
    · rw [if_neg hts, List.filter_append, List.map_append]
      have hf : ([((pid, ti) : NId × ℕ)].filter (fun pr => pr.2 = t)) = [] := by
        simp [Ne.symm hts]
      rw [hf]
      simp
  rw [hset]
  have hl1 : (net.nodes.take 1).length = 1 := by
    rw [List.length_take]
    omega
  have hsetapp : (net.nodes.take 1 ++ [mkBlockBuckets net.types nb]).set 1
      (mkBlockBuckets net.types (nb ++ [(pid, ti)]))
      = net.nodes.take 1 ++ [mkBlockBuckets net.types (nb ++ [(pid, ti)])] := by
    rw [List.set_append, hl1]
    rw [if_neg (by omega)]
    simp
  rw [show (mkCur net nb).nodes
    = net.nodes.take 1 ++ [mkBlockBuckets net.types nb] from rfl]
  rw [hsetapp]
  rfl

/-- `add_node` of a new parent on the rebuilt shape: the minted list grows
by the (parent id, child type) pair. -/
theorem add_node_mkCur (net : SBM_Network) (nb : List (NId × ℕ)) (pid : NId)
    (ti : ℕ) (hlen : 1 ≤ net.nodes.length) (hti : ti < net.types.length)
    (htypes : net.types.Nodup) :
    (mkCur net nb).add_node pid (net.types.getD ti "") 1
      = .ok (mkCur net (nb ++ [(pid, ti)]), ⟨pid, 1, ti, none⟩) := by
  have h1 : (mkCur net nb).get_type_index (net.types.getD ti "") = .ok ti := by
    unfold SBM_Network.get_type_index
    rw [show (mkCur net nb).types = net.types from rfl,
      findIdx_nodup_getD net.types htypes ti hti]
  unfold SBM_Network.add_node
  rw [h1]
  show (if 1 ≥ (mkCur net nb).nodes.length
      then (.error .rangeError : Except SbmErr (SBM_Network × NNode))
      else .ok ((mkCur net nb).setBucket 1 ti
          ((mkCur net nb).bucket 1 ti ++ [⟨pid, 1, ti, none⟩]),
        ⟨pid, 1, ti, none⟩))
    = .ok (mkCur net (nb ++ [(pid, ti)]), ⟨pid, 1, ti, none⟩)
  have hrange : ¬ (1 ≥ (mkCur net nb).nodes.length) := by
    rw [mkCur_length net nb hlen]
    omega
  rw [if_neg hrange, setBucket_mkCur net nb pid ti hlen hti]

/-- One entry of the level-0 pass of `update_state` on the rebuilt shape:
the node is found, the parent is reused or minted, and the re-parenting is
the identity (the level-0 records already carry their dumped parents). -/
theorem update_entry_step (net : SBM_Network) (nb : List (NId × ℕ)) (nd : NNode)
    (p : NId) (hlen : 1 ≤ net.nodes.length) (htypes : net.types.Nodup)
    (hty : nd.type < net.types.length)
    (hpar : nd.parent = some p)
    (hmem : nd.id ∈ (net.levelRecords 0).map (fun x => x.id))
    (hstab : ∀ b ∈ net.nodes.getD 0 [], ∀ m ∈ b, m.id = nd.id → m.parent = nd.parent) :
    SBM_Network.update_state_entry
        (mkCur net nb, (net.levelRecords 0).map (fun x => x.id), nb.map Prod.fst, 0)
        (nd.id, get_parent_id nd, 0, net.types.getD nd.type "")
      = .ok (mkCur net (if get_parent_id nd ∈ nb.map Prod.fst then nb
              else nb ++ [(get_parent_id nd, nd.type)]),
             (net.levelRecords 0).map (fun x => x.id),
             (if get_parent_id nd ∈ nb.map Prod.fst then nb
              else nb ++ [(get_parent_id nd, nd.type)]).map Prod.fst, 0) := by
  have hgp : get_parent_id nd = p := by
    unfold get_parent_id
    rw [hpar]
    rfl
  have hstab2 : ∀ (m : List (NId × ℕ)), ∀ b ∈ (mkCur net m).nodes.getD 0 [],
      ∀ x ∈ b, x.id = nd.id → x.parent = some (get_parent_id nd) := by
    intro m b hb x hx hxi
    rw [mkCur_lvl0 net m hlen] at hb
    rw [hgp, ← hpar]
    exact hstab b hb x hx hxi
  unfold SBM_Network.update_state_entry
  rw [if_neg (by simp : ¬ ((((mkCur net nb, (net.levelRecords 0).map (fun x => x.id),
    nb.map Prod.fst, 0) : SBM_Network × List NId × List NId × ℕ)).2.2.2
    ≠ ((nd.id, get_parent_id nd, 0, net.types.getD nd.type "") :
      NId × NId × ℕ × String).2.2.1))]
  rw [if_pos hmem]
  by_cases hseen : get_parent_id nd ∈ nb.map Prod.fst
  · rw [if_pos hseen, if_pos hseen]
    show Except.ok ((mkCur net nb).setParent 0 nd.id (get_parent_id nd),
        (net.levelRecords 0).map (fun x => x.id), nb.map Prod.fst, 0)
      = Except.ok (mkCur net nb,
        (net.levelRecords 0).map (fun x => x.id), nb.map Prod.fst, 0)
    rw [setParent_self_level0 (mkCur net nb) nd.id (get_parent_id nd) (hstab2 nb)]
  · rw [if_neg hseen, if_neg hseen]
    show (match (mkCur net nb).add_node (get_parent_id nd)
        (net.types.getD nd.type "") (0 + 1) with
      | Except.error err => Except.error err
      | Except.ok r => Except.ok (r.1.setParent 0 nd.id (get_parent_id nd),
          (net.levelRecords 0).map (fun x => x.id),
          nb.map Prod.fst ++ [get_parent_id nd], 0))
      = Except.ok (mkCur net (nb ++ [(get_parent_id nd, nd.type)]),
        (net.levelRecords 0).map (fun x => x.id),
        (nb ++ [(get_parent_id nd, nd.type)]).map Prod.fst, 0)
    rw [show (0 : ℕ) + 1 = 1 from rfl]
    rw [add_node_mkCur net nb (get_parent_id nd) nd.type hlen hty htypes]
    show Except.ok ((mkCur net (nb ++ [(get_parent_id nd, nd.type)])).setParent 0
        nd.id (get_parent_id nd),
        (net.levelRecords 0).map (fun x => x.id),
        nb.map Prod.fst ++ [get_parent_id nd], 0)
      = Except.ok (mkCur net (nb ++ [(get_parent_id nd, nd.type)]),
        (net.levelRecords 0).map (fun x => x.id),
        (nb ++ [(get_parent_id nd, nd.type)]).map Prod.fst, 0)
    rw [setParent_self_level0 (mkCur net (nb ++ [(get_parent_id nd, nd.type)]))
      nd.id (get_parent_id nd) (hstab2 (nb ++ [(get_parent_id nd, nd.type)]))]
    simp

/-- The whole level-0 pass of `update_state` on the rebuilt shape: folding
the entries of a record list mints exactly the first-seen parents. -/
theorem update_pass (net : SBM_Network) (hlen : 1 ≤ net.nodes.length)
    (htypes : net.types.Nodup) :
    ∀ (l : List NNode) (nb : List (NId × ℕ)),
      (∀ nd ∈ l, nd.id ∈ (net.levelRecords 0).map (fun x => x.id)) →
      (∀ nd ∈ l, ∃ p, nd.parent = some p) →
      (∀ nd ∈ l, nd.type < net.types.length) →
      (∀ nd ∈ l, ∀ b ∈ net.nodes.getD 0 [], ∀ m ∈ b,
        m.id = nd.id → m.parent = nd.parent) →
      (entriesOfL net.types l).foldlM SBM_Network.update_state_entry
          (mkCur net nb, (net.levelRecords 0).map (fun x => x.id),
           nb.map Prod.fst, 0)
        = .ok (mkCur net (newBlocksAux nb l),
               (net.levelRecords 0).map (fun x => x.id),
               (newBlocksAux nb l).map Prod.fst, 0) := by
  intro l
  induction l with
  | nil =>
    intro nb _ _ _ _
    rfl
  | cons nd rest ih =>
    intro nb h1 h2 h3 h4
    obtain ⟨p, hp⟩ := h2 nd (by simp)
    have hstep := update_entry_step net nb nd p hlen htypes (h3 nd (by simp)) hp
      (h1 nd (by simp)) (h4 nd (by simp))
    rw [show entriesOfL net.types (nd :: rest)
      = (nd.id, get_parent_id nd, 0, net.types.getD nd.type "")
        :: entriesOfL net.types rest from rfl]
    rw [List.foldlM_cons]
    rw [hstep]
    show (entriesOfL net.types rest).foldlM SBM_Network.update_state_entry
        (mkCur net (if get_parent_id nd ∈ nb.map Prod.fst then nb
            else nb ++ [(get_parent_id nd, nd.type)]),
         (net.levelRecords 0).map (fun x => x.id),
         (if get_parent_id nd ∈ nb.map Prod.fst then nb
            else nb ++ [(get_parent_id nd, nd.type)]).map Prod.fst, 0)
      = .ok (mkCur net (newBlocksAux nb (nd :: rest)),
             (net.levelRecords 0).map (fun x => x.id),
             (newBlocksAux nb (nd :: rest)).map Prod.fst, 0)
    rw [show newBlocksAux nb (nd :: rest)
      = (if get_parent_id nd ∈ nb.map Prod.fst then newBlocksAux nb rest
         else newBlocksAux (nb ++ [(get_parent_id nd, nd.type)]) rest) from rfl]
    by_cases hseen : get_parent_id nd ∈ nb.map Prod.fst
    · simp only [if_pos hseen]
      exact ih nb
        (fun x hx => h1 x (List.mem_cons_of_mem _ hx))
        (fun x hx => h2 x (List.mem_cons_of_mem _ hx))
        (fun x hx => h3 x (List.mem_cons_of_mem _ hx))
        (fun x hx => h4 x (List.mem_cons_of_mem _ hx))
    · simp only [if_neg hseen]
      exact ih (nb ++ [(get_parent_id nd, nd.type)])
        (fun x hx => h1 x (List.mem_cons_of_mem _ hx))
        (fun x hx => h2 x (List.mem_cons_of_mem _ hx))
        (fun x hx => h3 x (List.mem_cons_of_mem _ hx))
        (fun x hx => h4 x (List.mem_cons_of_mem _ hx))

/-- Members of a list with `Nodup` images under `f` are determined by their
image. -/
theorem nodup_map_mem_eq {α β : Type} (f : α → β) (l : List α)
    (h : (l.map f).Nodup) (a b : α) (ha : a ∈ l) (hb : b ∈ l)
    (hf : f a = f b) : a = b := by
  obtain ⟨i, hi⟩ := List.mem_iff_get.mp ha
  obtain ⟨j, hj⟩ := List.mem_iff_get.mp hb
  by_cases hij : (i : ℕ) = (j : ℕ)
  · rw [← hi, ← hj]
    congr 1
    exact Fin.ext hij
  · exfalso
    have hinj := List.nodup_iff_injective_get.mp h
    have h1 : (l.map f).get ⟨i, by simpa using i.isLt⟩
        = (l.map f).get ⟨j, by simpa using j.isLt⟩ := by
      rw [List.get_map, List.get_map]
      simp only [Fin.eta]
      rw [hi, hj]
      exact hf
    have h2 := congrArg Fin.val (hinj h1)
    exact hij h2

/-- The empty rebuild: deleting all blocks and adding a fresh level is the
rebuilt shape with no minted blocks. -/
theorem delete_build_mkCur (net : SBM_Network) :
    net.delete_all_blocks.build_level = mkCur net [] := by
  unfold SBM_Network.delete_all_blocks SBM_Network.build_level mkCur mkBlockBuckets
  have hb : (List.range net.types.length).map (fun t =>
      ((([] : List (NId × ℕ)).filter (fun pr => pr.2 = t)).map
        (fun pr => (⟨pr.1, 1, pr.2, none⟩ : NNode))))
      = List.replicate net.types.length [] := by
    have h1 : ∀ t ∈ List.range net.types.length,
        ((([] : List (NId × ℕ)).filter (fun pr => pr.2 = t)).map
          (fun pr => (⟨pr.1, 1, pr.2, none⟩ : NNode))) = [] := by
      intro t _
      rfl
    rw [List.map_congr_left h1, List.map_const', List.length_range]
  rw [hb]

/-- `update_state` applied to the four dumped columns of a two-level
network rebuilds exactly the `mkCur` shape with the first-seen minted
blocks. -/
theorem update_state_two_level_eval (net : SBM_Network)
    (hL : net.nodes.length = 2) (htypes : net.types.Nodup)
    (hpar : ∀ nd ∈ net.levelRecords 0, ∃ p, nd.parent = some p)
    (hty : ∀ nd ∈ net.levelRecords 0, nd.type < net.types.length)
    (hids0 : ((net.levelRecords 0).map (fun x => x.id)).Nodup) :
    net.update_state
        (net.state_entries.map (fun e => e.1))
        (net.state_entries.map (fun e => e.2.2.1))
        (net.state_entries.map (fun e => e.2.2.2))
        (net.state_entries.map (fun e => e.2.1))
      = .ok (mkCur net (newBlocksAux [] (net.levelRecords 0))) := by
  have hlen : 1 ≤ net.nodes.length := by omega
  have hse : net.state_entries = (net.levelRecords 0).map (fun nd =>
      (nd.id, net.types.getD nd.type "", get_parent_id nd, 0)) := by
    unfold SBM_Network.state_entries
    rw [hL]
    rw [show List.range 1 = [0] from rfl]
    simp
  have hentries : ((net.state_entries.map (fun e => e.1)).zip
      ((net.state_entries.map (fun e => e.2.2.1)).zip
       ((net.state_entries.map (fun e => e.2.2.2)).zip
        (net.state_entries.map (fun e => e.2.1))))).map
      (fun e => (e.1, e.2.1, e.2.2.1, e.2.2.2))
    = entriesOfL net.types (net.levelRecords 0) := by
    rw [zip_map4, List.map_map, hse, List.map_map]
    apply List.map_congr_left
    intro nd _
    rfl
  have hids : ((net.delete_all_blocks.build_level).levelRecords 0).map
      (fun nd => nd.id) = (net.levelRecords 0).map (fun x => x.id) := by
    rw [delete_build_mkCur]
    unfold SBM_Network.levelRecords
    rw [mkCur_lvl0 net [] hlen]
  have h4 : ∀ nd ∈ net.levelRecords 0, ∀ b ∈ net.nodes.getD 0 [], ∀ m ∈ b,
      m.id = nd.id → m.parent = nd.parent := by
    intro nd hnd b hb m hm hmi
    have hmrec : m ∈ net.levelRecords 0 := by
      unfold SBM_Network.levelRecords
      exact List.mem_flatMap.mpr ⟨b, hb, hm⟩
    rw [nodup_map_mem_eq (fun x => x.id) (net.levelRecords 0) hids0 m nd
      hmrec hnd hmi]
  have hfold : (((net.state_entries.map (fun e => e.1)).zip
      ((net.state_entries.map (fun e => e.2.2.1)).zip
       ((net.state_entries.map (fun e => e.2.2.2)).zip
        (net.state_entries.map (fun e => e.2.1))))).map
      (fun e => (e.1, e.2.1, e.2.2.1, e.2.2.2))).foldlM
        SBM_Network.update_state_entry
        (net.delete_all_blocks.build_level,
         ((net.delete_all_blocks.build_level).levelRecords 0).map
           (fun nd => nd.id), [], 0)
      = .ok (mkCur net (newBlocksAux [] (net.levelRecords 0)),
             (net.levelRecords 0).map (fun x => x.id),
             (newBlocksAux [] (net.levelRecords 0)).map Prod.fst, 0) := by
    rw [hentries, hids, delete_build_mkCur]
    exact update_pass net hlen htypes (net.levelRecords 0) []
      (fun nd h => List.mem_map_of_mem _ h) hpar hty h4
  have key : ∀ (r : Except SbmErr (SBM_Network × List NId × List NId × ℕ)),
      r = (((net.state_entries.map (fun e => e.1)).zip
        ((net.state_entries.map (fun e => e.2.2.1)).zip
         ((net.state_entries.map (fun e => e.2.2.2)).zip
          (net.state_entries.map (fun e => e.2.1))))).map
        (fun e => (e.1, e.2.1, e.2.2.1, e.2.2.2))).foldlM
          SBM_Network.update_state_entry
          (net.delete_all_blocks.build_level,
           ((net.delete_all_blocks.build_level).levelRecords 0).map
             (fun nd => nd.id), [], 0) →
      r = .ok (mkCur net (newBlocksAux [] (net.levelRecords 0)),
             (net.levelRecords 0).map (fun x => x.id),
             (newBlocksAux [] (net.levelRecords 0)).map Prod.fst, 0) →
      net.update_state
          (net.state_entries.map (fun e => e.1))
          (net.state_entries.map (fun e => e.2.2.1))
          (net.state_entries.map (fun e => e.2.2.2))
          (net.state_entries.map (fun e => e.2.1))
        = .ok (mkCur net (newBlocksAux [] (net.levelRecords 0))) := by
    intro r hr hv
    unfold SBM_Network.update_state
    simp only [← hr]
    rw [hv]
  exact key _ rfl hfold

/-- The minted list keeps first-component uniqueness. -/
theorem newBlocksAux_fst_nodup : ∀ (l : List NNode) (acc : List (NId × ℕ)),
    (acc.map Prod.fst).Nodup → ((newBlocksAux acc l).map Prod.fst).Nodup := by
  intro l
  induction l with
  | nil => intro acc h; exact h
  | cons nd rest ih =>
    intro acc h
    unfold newBlocksAux
    by_cases hseen : get_parent_id nd ∈ acc.map Prod.fst
    · rw [if_pos hseen]
      exact ih acc h
    · rw [if_neg hseen]
      apply ih
      rw [List.map_append]
      rw [List.nodup_append]
      refine ⟨h, by simp, ?_⟩
      intro a ha hb
      simp at hb
      subst hb
      exact hseen ha

/-- Every minted pair comes from the accumulator or from some record. -/
theorem newBlocksAux_sub : ∀ (l : List NNode) (acc : List (NId × ℕ)),
    ∀ pr ∈ newBlocksAux acc l,
      pr ∈ acc ∨ ∃ nd ∈ l, pr = (get_parent_id nd, nd.type) := by
  intro l
  induction l with
  | nil => intro acc pr hpr; exact Or.inl hpr
  | cons nd rest ih =>
    intro acc pr hpr
    unfold newBlocksAux at hpr
    by_cases hseen : get_parent_id nd ∈ acc.map Prod.fst
    · rw [if_pos hseen] at hpr
      rcases ih acc pr hpr with h | ⟨x, hx, he⟩
      · exact Or.inl h
      · exact Or.inr ⟨x, List.mem_cons_of_mem _ hx, he⟩
    · rw [if_neg hseen] at hpr
      rcases ih _ pr hpr with h | ⟨x, hx, he⟩
      · rcases List.mem_append.mp h with h2 | h2
        · exact Or.inl h2
        · simp at h2
          exact Or.inr ⟨nd, by simp, by rw [h2]⟩
      · exact Or.inr ⟨x, List.mem_cons_of_mem _ hx, he⟩

/-- First components only accumulate. -/
theorem newBlocksAux_fst_mono : ∀ (l : List NNode) (acc : List (NId × ℕ)),
    ∀ x ∈ acc.map Prod.fst, x ∈ (newBlocksAux acc l).map Prod.fst := by
  intro l
  induction l with
  | nil => intro acc x h; exact h
  | cons nd rest ih =>
    intro acc x h
    unfold newBlocksAux
    by_cases hseen : get_parent_id nd ∈ acc.map Prod.fst
    · rw [if_pos hseen]
      exact ih acc x h
    · rw [if_neg hseen]
      apply ih
      rw [List.map_append]
      exact List.mem_append_left _ h

/-- Every record's parent id is minted. -/
theorem newBlocksAux_parent_mem : ∀ (l : List NNode) (acc : List (NId × ℕ)),
    ∀ nd ∈ l, get_parent_id nd ∈ (newBlocksAux acc l).map Prod.fst := by
  intro l
  induction l with
  | nil => intro acc nd h; exact absurd h (by simp)
  | cons x rest ih =>
    intro acc nd h
    unfold newBlocksAux
    rcases List.mem_cons.mp h with he | hm
    · subst he
      by_cases hseen : get_parent_id nd ∈ acc.map Prod.fst
      · rw [if_pos hseen]
        exact newBlocksAux_fst_mono rest acc _ hseen
      · rw [if_neg hseen]
        apply newBlocksAux_fst_mono
        rw [List.map_append]
        exact List.mem_append_right _ (by simp)
    · by_cases hseen : get_parent_id x ∈ acc.map Prod.fst
      · rw [if_pos hseen]
        exact ih acc nd hm
      · rw [if_neg hseen]
        exact ih _ nd hm

/-- Count of an element in the concatenation of key-filtered copies. -/
theorem count_flatMap_filter {α : Type} [DecidableEq α] (key : α → ℕ)
    (l : List α) (a : α) : ∀ (ts : List ℕ), ts.Nodup →
    (ts.flatMap (fun t => l.filter (fun x => key x = t))).count a
      = if key a ∈ ts then l.count a else 0 := by
  intro ts
  induction ts with
  | nil => intro _; simp
  | cons t rest ih =>
    intro hnd
    rw [List.flatMap_cons, List.count_append,
      ih (List.nodup_cons.mp hnd).2]
    by_cases hat : key a = t
    · rw [List.count_filter (by simp [hat])]
      have hnr : key a ∉ rest := by
        rw [hat]
        exact (List.nodup_cons.mp hnd).1
      rw [if_neg hnr, if_pos (by simp [hat])]
      try omega
    · have hcf : (l.filter (fun x => key x = t)).count a = 0 := by
        rw [List.count_eq_zero]
        intro hmem
        exact hat (by simpa using (List.mem_filter.mp hmem).2)
      rw [hcf]
      by_cases har : key a ∈ rest
      · rw [if_pos har, if_pos (by simp [har])]
        try omega
      · rw [if_neg har, if_neg (by simp [hat, har])]
        try omega

/-- Bucketing a list by a bounded key and concatenating the buckets is a
permutation of the list. -/
theorem flatMap_filter_perm {α : Type} [DecidableEq α] (key : α → ℕ) (n : ℕ)
    (l : List α) (h : ∀ x ∈ l, key x < n) :
    List.Perm ((List.range n).flatMap (fun t => l.filter (fun x => key x = t))) l := by
  rw [List.perm_iff_count]
  intro a
  rw [count_flatMap_filter key l a (List.range n) (List.nodup_range n)]
  by_cases ha : a ∈ l
  · rw [if_pos (by rw [List.mem_range]; exact h a ha)]
  · have h0 : l.count a = 0 := List.count_eq_zero.mpr ha
    rw [h0]
    simp

/-- The minted block level of the rebuilt shape, flattened. -/
theorem mkCur_records1 (net : SBM_Network) (nb : List (NId × ℕ))
    (hlen : 1 ≤ net.nodes.length) :
    (mkCur net nb).levelRecords 1
      = (List.range net.types.length).flatMap (fun t =>
          (nb.filter (fun pr => pr.2 = t)).map
            (fun pr => (⟨pr.1, 1, pr.2, none⟩ : NNode))) := by
  unfold SBM_Network.levelRecords
  rw [mkCur_lvl1 net nb hlen]
  unfold mkBlockBuckets
  rw [List.flatMap_map]

/-- The rebuilt block level is a permutation of the source's block level:
one minted block per original block, carrying the same id, its children's
type index, level 1 and no parent. -/
theorem newBlocks_records_perm (net : SBM_Network)
    (hlen : 1 ≤ net.nodes.length)
    (hty : ∀ nd ∈ net.levelRecords 0, nd.type < net.types.length)
    (hpar : ∀ nd ∈ net.levelRecords 0, ∃ b ∈ net.levelRecords 1,
      nd.parent = some b.id ∧ b.type = nd.type)
    (hchild : ∀ b ∈ net.levelRecords 1, ∃ nd ∈ net.levelRecords 0,
      nd.parent = some b.id)
    (hids1 : ((net.levelRecords 1).map (fun x => x.id)).Nodup)
    (htop : ∀ b ∈ net.levelRecords 1, b.level = 1 ∧ b.parent = none) :
    List.Perm
      ((mkCur net (newBlocksAux [] (net.levelRecords 0))).levelRecords 1)
      (net.levelRecords 1) := by
  set recs := net.levelRecords 0 with hrecs
  set B := net.levelRecords 1 with hB
  set nbf := newBlocksAux [] recs with hnbf
  have hgp : ∀ nd ∈ recs, ∀ (b : NNode), nd.parent = some b.id →
      get_parent_id nd = b.id := by
    intro nd _ b hp
    unfold get_parent_id
    rw [hp]
    rfl
  have hsub : ∀ pr ∈ nbf, ∃ nd ∈ recs, pr = (get_parent_id nd, nd.type) := by
    intro pr hpr
    rcases newBlocksAux_sub recs [] pr hpr with h | h
    · exact absurd h (by simp)
    · exact h
  have hkey : ∀ pr ∈ nbf, pr.2 < net.types.length := by
    intro pr hpr
    obtain ⟨nd, hnd, he⟩ := hsub pr hpr
    rw [he]
    exact hty nd hnd
  have perm1 : List.Perm ((mkCur net nbf).levelRecords 1)
      (nbf.map (fun pr => (⟨pr.1, 1, pr.2, none⟩ : NNode))) := by
    rw [mkCur_records1 net nbf hlen]
    have hmm : (List.range net.types.length).flatMap (fun t =>
        (nbf.filter (fun pr => pr.2 = t)).map
          (fun pr => (⟨pr.1, 1, pr.2, none⟩ : NNode)))
        = ((List.range net.types.length).flatMap (fun t =>
            nbf.filter (fun pr => pr.2 = t))).map
          (fun pr => (⟨pr.1, 1, pr.2, none⟩ : NNode)) := by
      rw [List.map_flatMap]
    rw [hmm]
    exact List.Perm.map _ (flatMap_filter_perm (fun pr => pr.2)
      net.types.length nbf hkey)
  have hnodup_nbf : nbf.Nodup :=
    List.Nodup.of_map Prod.fst (newBlocksAux_fst_nodup recs [] (by simp))
  have hnodup_Bp : (B.map (fun b => (b.id, b.type))).Nodup := by
    apply List.Nodup.of_map Prod.fst
    rw [List.map_map]
    exact hids1
  have pairs : List.Perm nbf (B.map (fun b => (b.id, b.type))) := by
    rw [List.perm_ext_iff_of_nodup hnodup_nbf hnodup_Bp]
    intro pr
    constructor
    · intro hpr
      obtain ⟨nd, hnd, he⟩ := hsub pr hpr
      obtain ⟨b, hb, hbp, hbt⟩ := hpar nd hnd
      refine List.mem_map.mpr ⟨b, hb, ?_⟩
      rw [he, hgp nd hnd b hbp, hbt]
    · intro hpr
      obtain ⟨b, hb, he⟩ := List.mem_map.mp hpr
      obtain ⟨nd, hnd, hp⟩ := hchild b hb
      have hm := newBlocksAux_parent_mem recs [] nd hnd
      rw [← hnbf] at hm
      obtain ⟨pr2, hpr2, hfst⟩ := List.mem_map.mp hm
      obtain ⟨nd2, hnd2, he2⟩ := hsub pr2 hpr2
      obtain ⟨b2, hb2, hb2p, hb2t⟩ := hpar nd2 hnd2
      have hid2 : b2.id = b.id := by
        have e1 : get_parent_id nd2 = pr2.1 := by rw [he2]
        have e2 : get_parent_id nd = b.id := hgp nd hnd b hp
        rw [← hgp nd2 hnd2 b2 hb2p, e1, hfst, e2]
      have hbeq : b2 = b :=
        nodup_map_mem_eq (fun x => x.id) B hids1 b2 b hb2 hb hid2
      have hpr2eq : pr2 = pr := by
        rw [he2, ← he]
        have e3 : get_parent_id nd2 = b.id := by
          rw [hgp nd2 hnd2 b2 hb2p, hbeq]
        have e4 : nd2.type = b.type := by rw [← hb2t, hbeq]
        rw [e3, e4]
      exact hpr2eq ▸ hpr2
  have hmapped := List.Perm.map (fun pr : NId × ℕ =>
    (⟨pr.1, 1, pr.2, none⟩ : NNode)) pairs
  rw [List.map_map] at hmapped
  have hBid : B.map ((fun pr : NId × ℕ => (⟨pr.1, 1, pr.2, none⟩ : NNode))
      ∘ (fun b => (b.id, b.type))) = B := by
    have h1 : ∀ b ∈ B, ((fun pr : NId × ℕ => (⟨pr.1, 1, pr.2, none⟩ : NNode))
        ∘ (fun b => (b.id, b.type))) b = b := by
      intro b hb
      obtain ⟨hl, hparent⟩ := htop b hb
      cases b with
      | mk i lv ty pa =>
        simp only [Function.comp]
        simp at hl hparent
        rw [hl, hparent]
    rw [List.map_congr_left h1]
    simp
  rw [hBid] at hmapped
  exact perm1.trans hmapped

/-- Claim C4 (amended): for a network with exactly one block level — unique
ids per level, every node typed in range and pointing at an existing
same-type block, every block childful, top blocks parentless —
`update_state (get_state N)` succeeds and rebuilds a network with the same
level count and type table, level 0 (and hence the node partition) exactly
preserved, and the block level a permutation of the original.  (For deeper
hierarchies the round trip can fail outright: see the counterexample.) -/
theorem update_state_roundtrip_two_level (net : SBM_Network)
    (hL : net.nodes.length = 2) (htypes : net.types.Nodup)
    (hty : ∀ nd ∈ net.levelRecords 0, nd.type < net.types.length)
    (hpar : ∀ nd ∈ net.levelRecords 0, ∃ b ∈ net.levelRecords 1,
      nd.parent = some b.id ∧ b.type = nd.type)
    (hchild : ∀ b ∈ net.levelRecords 1, ∃ nd ∈ net.levelRecords 0,
      nd.parent = some b.id)
    (hids0 : ((net.levelRecords 0).map (fun x => x.id)).Nodup)
    (hids1 : ((net.levelRecords 1).map (fun x => x.id)).Nodup)
    (htop : ∀ b ∈ net.levelRecords 1, b.level = 1 ∧ b.parent = none) :
    ∃ net', Except.bind net.get_state net.update_state_dump = .ok net'
      ∧ net'.nodes.getD 0 [] = net.nodes.getD 0 []
      ∧ net'.nodes.length = net.nodes.length
      ∧ net'.types = net.types
      ∧ List.Perm (net'.levelRecords 1) (net.levelRecords 1) := by
  have hlen : 1 ≤ net.nodes.length := by omega
  have hgs : net.get_state = .ok
      ⟨net.state_entries.map (fun e => e.1),
       net.state_entries.map (fun e => e.2.1),
       net.state_entries.map (fun e => e.2.2.1),
       net.state_entries.map (fun e => e.2.2.2)⟩ := by
    unfold SBM_Network.get_state
    rw [if_neg (by omega)]
  have hpar' : ∀ nd ∈ net.levelRecords 0, ∃ p, nd.parent = some p := by
    intro nd hnd
    obtain ⟨b, -, hp, -⟩ := hpar nd hnd
    exact ⟨b.id, hp⟩
  have heval := update_state_two_level_eval net hL htypes hpar' hty hids0
  refine ⟨mkCur net (newBlocksAux [] (net.levelRecords 0)), ?_, ?_, ?_, rfl, ?_⟩
  · rw [hgs]
    show net.update_state_dump
        ⟨net.state_entries.map (fun e => e.1),
         net.state_entries.map (fun e => e.2.1),
         net.state_entries.map (fun e => e.2.2.1),
         net.state_entries.map (fun e => e.2.2.2)⟩
      = .ok (mkCur net (newBlocksAux [] (net.levelRecords 0)))
    unfold SBM_Network.update_state_dump
    exact heval
  · exact mkCur_lvl0 net _ hlen
  · rw [mkCur_length net _ hlen, hL]
  · exact newBlocks_records_perm net hlen hty hpar hchild hids1 htop

/-- Witness for the two-level round trip: two nodes in two singleton
blocks. -/
theorem update_state_roundtrip_two_level_witness :
    ∃ net', Except.bind cex4w_net.get_state cex4w_net.update_state_dump
        = .ok net'
      ∧ net'.nodes.getD 0 [] = cex4w_net.nodes.getD 0 []
      ∧ net'.nodes.length = cex4w_net.nodes.length
      ∧ net'.types = cex4w_net.types
      ∧ List.Perm (net'.levelRecords 1) (cex4w_net.levelRecords 1) :=
  update_state_roundtrip_two_level cex4w_net (by decide) (by decide)
    (by decide) (by decide) (by decide) (by decide) (by decide) (by decide)

end SBMR
